import Mathlib

/-!
# The IPC bridge of `webview.h` / `win.hh`

A shallow embedding of the message bridge between native code and hosted
script: the native binding registry (`webview::ipc`, `webview::on_message`),
the scripts the native side injects or evaluates (`webview::ipc` stub,
`webview::resolve`, `webview::emit`), the completion API `webview_return`,
the message loop of `win32_edge_engine` with `dispatch`, its constructor and
`set_size`, and the window layer of `win.hh`: the context menu, the system
menu, the acks of the window operations and the navigation filter.

Strings are Lean strings; `std::vector` is a list whose unchecked
`operator[]` is a fallible read; `std::map` is an association list with unique
keys; the scripts are functions on the part of the page state they touch
(`window._ipc`).
-/

namespace Webview

/-! ## Helpers of `common.hh` -/

/-- The fields of a character sequence cut at every occurrence of `c`: a
separator always ends a field, so `n` separators give `n + 1` fields. -/
def splitChars (c : Char) : List Char → List (List Char)
  | [] => [[]]
  | n :: s =>
    if n = c then [] :: splitChars c s
    else
      match splitChars c s with
      | [] => [[n]]
      | buff :: vec => (n :: buff) :: vec

/-- Modelled from the spec: `split(s, c)` of `common.hh`, which is not among
the sources. The spec has the inbound string "split on `;`" into its parts
(`tag`, `seq`, `name`, `payload`); the result is the vector of the fields
between the separators, in order. -/
def split (s : String) (c : Char) : List String :=
  (splitChars c s.data).map String.mk

/-- The characters `trim` removes: blank, tab, line feed, carriage return. -/
def isBlank (c : Char) : Bool :=
  c = ' ' || c = '\t' || c = '\n' || c = '\r'

/-- Modelled from the spec: `trim(s)` of `common.hh`, which is not among the
sources: the string without its leading and trailing blanks. -/
def trim (s : String) : String :=
  String.mk ((s.data.dropWhile isBlank).reverse.dropWhile isBlank).reverse

/-! ## `std::vector` and `std::map` -/

/-- What goes wrong in native code. `outOfRange i n`: `operator[]` of a
vector of size `n` was applied to `i ≥ n`, a read outside the vector, which
is undefined behaviour in C++. -/
inductive Fault where
  | outOfRange (index size : Nat)
  deriving DecidableEq, Repr

deriving instance DecidableEq for Except

/-- The read `v[i]` of a `std::vector`: the element when `i < v.size()`, and
the out-of-range fault otherwise (`operator[]` checks nothing). -/
def vectorAt {α : Type} (v : List α) (i : Nat) : Except Fault α :=
  match v.get? i with
  | some x => .ok x
  | none => .error (.outOfRange i v.length)

/-- The lookup `m.find(k)` of a `std::map`: the mapped value, `none` for
`m.end()`. -/
def mapFind {β : Type} (m : List (String × β)) (k : String) : Option β :=
  match m with
  | [] => none
  | (k', v) :: rest => if k' = k then some v else mapFind rest k

/-- The assignment `m[k] = v` of a `std::map`: the entry of `k` is overwritten
when there is one and inserted otherwise. -/
def mapAssign {β : Type} (m : List (String × β)) (k : String) (v : β) :
    List (String × β) :=
  match m with
  | [] => [(k, v)]
  | (k', v') :: rest =>
    if k' = k then (k, v) :: rest else (k', v') :: mapAssign rest k v

/-- The number of entries a map holds for the key `k`. -/
def mapCount {β : Type} (m : List (String × β)) (k : String) : Nat :=
  (m.filter (fun e => e.1 = k)).length

/-! ## The native side: `webview::ipc` and `webview::on_message` -/

/-- The text of the script `webview::ipc` hands to `init` for the binding
`name`: the C++ concatenation of the opening, the name and the raw string. -/
def stubScript (name : String) : String :=
  "(function() \x7b const name = '" ++ name ++ "';" ++
  "\n      const IPC = window._ipc = (window._ipc || \x7b nextSeq: 1 \x7d);\n\n      window[name] = (value) => \x7b\n        const seq = IPC.nextSeq++\n        const promise = new Promise((resolve, reject) => \x7b\n          IPC[seq] = \x7b\n            resolve: resolve,\n            reject: reject,\n          \x7d\n        \x7d)\n\n        let encoded\n\n        if (name === 'contextMenu') \x7b\n          encoded = Object\n            .entries(value)\n            .flatMap(o => o.join(':'))\n            .join('_')\n        \x7d else \x7b\n          try \x7b\n            encoded = btoa(JSON.stringify(value))\n          \x7d catch (err) \x7b\n            return Promise.reject(err.message)\n          \x7d\n        \x7d\n\n        window.external.invoke(\x60ipc;$\x7bseq\x7d;$\x7bname\x7d;$\x7bencoded\x7d\x60)\n        return promise\n      \x7d\n    \x7d)()"

/-- The text of the script the task of `webview::resolve` evaluates. -/
def resolveScriptText (msg : String) : String :=
  "(() => \x7b" ++
  "  const data = \x60" ++ msg ++ "\x60.trim().split(';');" ++
  "  const internal = data[0] === 'internal';" ++
  "  const status = Number(data[1]);" ++
  "  const seq = Number(data[2]);" ++
  "  const method = status === 0 ? 'resolve' : 'reject';" ++
  "  const value = internal ? data[3] : JSON.parse(atob(data[3]));" ++
  "  window._ipc[seq][method](value);" ++
  "  window._ipc[seq] = undefined;" ++
  "\x7d)()"

/-- What a call of the native bridge does to its collaborators, in order.
`H` is the type of the handlers (`binding_t`), `C` of the context pointers. -/
inductive Action (H C : Type) where
  /-- `init(js)`: the script is injected at document start. -/
  | init (js : String)
  /-- `dispatch(task)` with the task `eval(js)`. -/
  | dispatch (js : String)
  /-- The handler `f` is called as `f(seq, req, arg)`. -/
  | call (f : H) (seq req : String) (arg : C)
  deriving DecidableEq, Repr

/-- The state of a `webview::webview`: its map `bindings`, from a name to
the pair (handler, context pointer). -/
structure webview (H C : Type) where
  bindings : List (String × (H × C))
  deriving DecidableEq, Repr

/-- A `webview` as constructed: no binding. -/
def webview.create (H C : Type) : webview H C := ⟨[]⟩

/-- The method `webview::ipc(name, f, arg)`: the stub is injected with `init`,
then `bindings[name]` is assigned the new pair. -/
def webview.ipc {H C : Type} (w : webview H C) (name : String) (f : H) (arg : C) :
    webview H C × List (Action H C) :=
  (⟨mapAssign w.bindings name (f, arg)⟩, [Action.init (stubScript name)])

/-- The first statements of `webview::on_message(msg)`: the message is split
on `;` and the parts 1, 2 and 3 are read as `seq`, `name` and `args`, without a
check of the size of the vector. -/
def invokeFields (msg : String) : Except Fault (String × String × String) := do
  let parts := split msg ';'
  let seq ← vectorAt parts 1
  let name ← vectorAt parts 2
  let args ← vectorAt parts 3
  pure (seq, name, args)

/-- The method `webview::on_message(msg)`: after the reads of `invokeFields`,
it returns when `bindings.find(name)` finds nothing, and calls the handler
bound to the name with `seq`, `args` and the context pointer otherwise. -/
def webview.on_message {H C : Type} (w : webview H C) (msg : String) :
    Except Fault (webview H C × List (Action H C)) := do
  let (seq, name, args) ← invokeFields msg
  match mapFind w.bindings name with
  | none => pure (w, [])
  | some fn => pure (w, [Action.call fn.1 seq args fn.2])

/-- The method `webview::resolve(msg)`: one task is handed to `dispatch`, which
evaluates the resolve script for `msg` when it runs. -/
def webview.resolve {H C : Type} (w : webview H C) (msg : String) :
    webview H C × List (Action H C) :=
  (w, [Action.dispatch (resolveScriptText msg)])

/-- The function `webview_return(w, seq, status, result)` of the C interface:
it calls `resolve(result)` and reads neither `seq` nor `status`. -/
def webview_return {H C : Type} (w : webview H C) (_seq : String) (_status : Int)
    (result : String) : webview H C × List (Action H C) :=
  w.resolve result

/-- The bridge after a list of registrations `(name, f, arg)`, made in order. -/
def webview.registerAll {H C : Type} (w : webview H C) :
    List (String × (H × C)) → webview H C
  | [] => w
  | (name, f, arg) :: regs => (w.ipc name f arg).1.registerAll regs

/-- The last registration of `name` in a list of registrations. -/
def lastRegistered {β : Type} (regs : List (String × β)) (name : String) : Option β :=
  mapFind regs.reverse name

/-! ## Builtins of the script engine

The injected scripts call `btoa`, `atob`, `JSON.stringify`, `trim` and `split`,
which are modelled here, and `Number` and `JSON.parse`, which a script takes
from the engine it runs in (`JSEngine`). -/

/-- The base64 digit of a sextet `i < 64`: `A`–`Z`, `a`–`z`, `0`–`9`, `+`, `/`. -/
def base64Char (i : Nat) : Char :=
  if i < 26 then Char.ofNat (65 + i)
  else if i < 52 then Char.ofNat (71 + i)
  else if i < 62 then Char.ofNat (i - 4)
  else if i = 62 then '+' else '/'

/-- The sextet a base64 digit stands for, `none` for any other character. -/
def base64Index (c : Char) : Option Nat :=
  let n := c.toNat
  if 65 ≤ n ∧ n ≤ 90 then some (n - 65)
  else if 97 ≤ n ∧ n ≤ 122 then some (n - 71)
  else if 48 ≤ n ∧ n ≤ 57 then some (n + 4)
  else if n = 43 then some 62
  else if n = 47 then some 63
  else none

/-- Base64 of a list of bytes (RFC 4648): three bytes give four digits, and a
rest of one or two bytes is padded with `=`. -/
def base64Encode : List Nat → List Char
  | [] => []
  | [a] => [base64Char (a / 4), base64Char (a % 4 * 16), '=', '=']
  | [a, b] =>
    [base64Char (a / 4), base64Char (a % 4 * 16 + b / 16), base64Char (b % 16 * 4), '=']
  | a :: b :: c :: rest =>
    base64Char (a / 4) :: base64Char (a % 4 * 16 + b / 16) ::
      base64Char (b % 16 * 4 + c / 64) :: base64Char (c % 64) :: base64Encode rest

/-- The bytes of a list of sextets: four sextets give three bytes, a rest of
three gives two bytes and a rest of two gives one; the spare bits are dropped. -/
def base64Decode : List Nat → List Nat
  | a :: b :: c :: d :: rest =>
    (a * 4 + b / 16) :: (b % 16 * 16 + c / 4) :: (c % 4 * 64 + d) :: base64Decode rest
  | [a, b, c] => [a * 4 + b / 16, b % 16 * 16 + c / 4]
  | [a, b] => [a * 4 + b / 16]
  | _ => []

/-- The sextets of a list of bytes, without the padding. -/
def sextets : List Nat → List Nat
  | [] => []
  | [a] => [a / 4, a % 4 * 16]
  | [a, b] => [a / 4, a % 4 * 16 + b / 16, b % 16 * 4]
  | a :: b :: c :: rest =>
    a / 4 :: (a % 4 * 16 + b / 16) :: (b % 16 * 4 + c / 64) :: c % 64 :: sextets rest

/-- The padding base64 adds to a list of bytes. -/
def padding : List Nat → List Char
  | [] => []
  | [_] => ['=', '=']
  | [_, _] => ['=']
  | _ :: _ :: _ :: rest => padding rest

/-- An exception a script raises. -/
inductive JSError where
  /-- `InvalidCharacterError`, of `btoa` and `atob`. -/
  | invalidCharacter
  /-- `SyntaxError`, of `JSON.parse`. -/
  | syntaxError
  /-- `TypeError`: a property of `undefined` or `null` is read. -/
  | typeError
  deriving DecidableEq, Repr

/-- The builtin `btoa(s)`: base64 of the code points of `s`, each taken as one
byte; a code point above 255 raises `InvalidCharacterError`. -/
def btoa (s : String) : Except JSError String :=
  if s.data.all (fun c => c.toNat ≤ 255) then
    .ok (String.mk (base64Encode (s.data.map Char.toNat)))
  else .error .invalidCharacter

/-- ASCII whitespace, which `atob` skips: tab, line feed, form feed, carriage
return, space. -/
def isAsciiWhitespace (c : Char) : Bool :=
  c.toNat = 9 || c.toNat = 10 || c.toNat = 12 || c.toNat = 13 || c.toNat = 32

/-- One trailing `=` removed, when there is one. -/
def dropPad (cs : List Char) : List Char :=
  if cs.getLast? = some '=' then cs.dropLast else cs

/-- The builtin `atob(s)` (forgiving base64 decoding): ASCII whitespace is
removed; when the length is a multiple of four, one or two trailing `=` are
removed; a length of 1 modulo 4 and any character that is no base64 digit
raise `InvalidCharacterError`. -/
def atob (s : String) : Except JSError String :=
  let d := s.data.filter (fun c => !isAsciiWhitespace c)
  let d := if d.length % 4 = 0 then dropPad (dropPad d) else d
  if d.length % 4 = 1 then .error .invalidCharacter
  else
    match d.mapM base64Index with
    | none => .error .invalidCharacter
    | some sextets => .ok (String.mk ((base64Decode sextets).map Char.ofNat))

/-- The value `x` of a script converted to a string argument: `undefined`
becomes the text `undefined`. -/
def toDOMString (x : Option String) : String := x.getD "undefined"

/-- A JSON value of a script. `num` holds an integral number, which is a
number of a script when it is a safe integer, of magnitude below 2^53
(`JSValue.safe`); `obj` holds the members in the order `Object.entries` lists
them. -/
inductive JSValue where
  | null
  | bool (b : Bool)
  | num (n : Int)
  | str (s : String)
  | arr (xs : List JSValue)
  | obj (kvs : List (String × JSValue))

/-- A hexadecimal digit in lower case. -/
def hexDigit (n : Nat) : Char :=
  if n < 10 then Char.ofNat (48 + n) else Char.ofNat (87 + n)

/-- One character of a string in JSON text: the quote and the backslash are
escaped, a control character gets its short escape or `\u00xx`. -/
def quoteJSONChar (c : Char) : List Char :=
  let n := c.toNat
  if n = 34 then [Char.ofNat 92, Char.ofNat 34]
  else if n = 92 then [Char.ofNat 92, Char.ofNat 92]
  else if n = 8 then [Char.ofNat 92, 'b']
  else if n = 9 then [Char.ofNat 92, 't']
  else if n = 10 then [Char.ofNat 92, 'n']
  else if n = 12 then [Char.ofNat 92, 'f']
  else if n = 13 then [Char.ofNat 92, 'r']
  else if n < 32 then [Char.ofNat 92, 'u', '0', '0', hexDigit (n / 16), hexDigit (n % 16)]
  else [c]

/-- A string as JSON text: between double quotes, its characters escaped. -/
def quoteJSONString (s : String) : String :=
  String.mk (Char.ofNat 34 :: (s.data.flatMap quoteJSONChar ++ [Char.ofNat 34]))

mutual
/-- The builtin `JSON.stringify(value)` on a JSON value, without indentation.
A number is written with all its digits, as `JSON.stringify` writes a safe
integer; for other numbers see `jsonText`. -/
def JSValue.stringify : JSValue → String
  | .null => "null"
  | .bool b => if b then "true" else "false"
  | .num n => toString n
  | .str s => quoteJSONString s
  | .arr xs => "[" ++ stringifyElements xs ++ "]"
  | .obj kvs => "\x7b" ++ stringifyMembers kvs ++ "\x7d"
/-- The elements of an array as JSON text, separated by commas. -/
def stringifyElements : List JSValue → String
  | [] => ""
  | [x] => x.stringify
  | x :: y :: xs => x.stringify ++ "," ++ stringifyElements (y :: xs)
/-- The members of an object as JSON text, separated by commas. -/
def stringifyMembers : List (String × JSValue) → String
  | [] => ""
  | [(k, v)] => quoteJSONString k ++ ":" ++ v.stringify
  | (k, v) :: m :: kvs =>
    quoteJSONString k ++ ":" ++ v.stringify ++ "," ++ stringifyMembers (m :: kvs)
end

mutual
/-- Whether every number of a value is a safe integer, of magnitude below
2^53. -/
def JSValue.safe : JSValue → Bool
  | .null => true
  | .bool _ => true
  | .num n => decide (-(2 ^ 53) < n ∧ n < 2 ^ 53)
  | .str _ => true
  | .arr xs => safeElements xs
  | .obj kvs => safeMembers kvs
/-- Whether the numbers of the elements of an array are safe integers. -/
def safeElements : List JSValue → Bool
  | [] => true
  | x :: xs => x.safe && safeElements xs
/-- Whether the numbers of the members of an object are safe integers. -/
def safeMembers : List (String × JSValue) → Bool
  | [] => true
  | (_, v) :: kvs => v.safe && safeMembers kvs
end

/-- Whether a string holds a NUL character, at which a C string ends. -/
def hasNul (s : String) : Bool := s.data.any (fun c => c.toNat = 0)

/-- `Array.prototype.join` on an array of strings. -/
def joinStrings (sep : String) : List String → String
  | [] => ""
  | [x] => x
  | x :: y :: xs => x ++ sep ++ joinStrings sep (y :: xs)

mutual
/-- The text of a script value: `String(v)`, and, with `inJoin`, the text of `v`
as an element of `Array.prototype.join`, where `null` is the empty string. An
array is the join of its elements with commas. -/
def JSValue.text (inJoin : Bool) : JSValue → String
  | .null => if inJoin then "" else "null"
  | .bool b => if b then "true" else "false"
  | .num n => toString n
  | .str s => s
  | .arr xs => joinStrings "," (elementTexts xs)
  | .obj _ => "[object Object]"
/-- The texts of the elements of an array in a join. -/
def elementTexts : List JSValue → List String
  | [] => []
  | x :: xs => x.text true :: elementTexts xs
end

/-- `Array.prototype.join` with the separator `sep` on an array of values. -/
def joinElements (sep : String) (xs : List JSValue) : String :=
  joinStrings sep (elementTexts xs)

/-- The pairs `(i, x)` of an array, the index in decimal. -/
def indexed : Nat → List JSValue → List (String × JSValue)
  | _, [] => []
  | i, x :: xs => (toString i, x) :: indexed (i + 1) xs

/-- The builtin `Object.entries(value)`: the members of an object, the indexed
elements of an array or of a string, nothing for a number or a boolean, and a
`TypeError` for `null`. -/
def objectEntries : JSValue → Except JSError (List (String × JSValue))
  | .null => .error .typeError
  | .bool _ => .ok []
  | .num _ => .ok []
  | .str s => .ok (indexed 0 (s.data.map (fun c => JSValue.str (String.mk [c]))))
  | .arr xs => .ok (indexed 0 xs)
  | .obj kvs => .ok kvs

/-- White space and line terminators of a script, which `trim` removes. -/
def isJSWhiteSpace (c : Char) : Bool :=
  let n := c.toNat
  (9 ≤ n && n ≤ 13) || n = 32 || n = 160 || n = 5760 || (8192 ≤ n && n ≤ 8202) ||
    n = 8232 || n = 8233 || n = 8239 || n = 8287 || n = 12288 || n = 65279

/-- The method `String.prototype.trim`. -/
def jsTrim (s : String) : String :=
  String.mk ((s.data.dropWhile isJSWhiteSpace).reverse.dropWhile isJSWhiteSpace).reverse

/-- The method `String.prototype.split` with a separator of one character. -/
def jsSplit (s : String) (c : Char) : List String :=
  (splitChars c s.data).map String.mk

/-- Whether `$` followed by an opening brace occurs in the characters. -/
def hasSubstitution : List Char → Bool
  | [] => false
  | [_] => false
  | a :: b :: cs => (a = '$' && b.toNat = 123) || hasSubstitution (b :: cs)

/-- The string a template literal with the text `msg` between its backticks
denotes, for a text in which nothing is special: no backtick, no backslash, no
substitution and no carriage return. `none` for any other text, whose
meaning as a script this development does not describe. -/
def templateLiteral (msg : String) : Option String :=
  if msg.data.all (fun c => c.toNat ≠ 96 && c.toNat ≠ 92 && c.toNat ≠ 13)
      && !hasSubstitution msg.data then some msg
  else none

/-- The result of `Number(x)` as far as the scripts tell results apart: an
integral value, or any other one (`NaN`, an infinity, a fraction), which is
neither `0` nor the key of a pending call. -/
inductive JSNumber where
  | int (n : Int)
  | other
  deriving DecidableEq, Repr

/-- The two builtins the scripts take from the engine: `Number` on a string or
`undefined` (`none`), and `JSON.parse`, `none` for a `SyntaxError`. `V` is the
type of the values `JSON.parse` yields. -/
structure JSEngine (V : Type) where
  Number : Option String → JSNumber
  parse : String → Option V

/-- The value of a run of decimal digits, `none` when a character is no digit. -/
def digitsValue : List Char → Option Nat
  | [] => some 0
  | cs => cs.foldlM (fun acc c => if c.isDigit then some (acc * 10 + (c.toNat - 48)) else none) 0

/-- `Number` on the numerals the bridge writes: `undefined` is `NaN`, the
empty string is `0`, a run of decimal digits with an optional sign is its
value. Every other string is left as `other`; this reference engine is used
for runs on concrete messages only. -/
def decimalNumber : Option String → JSNumber
  | none => .other
  | some s =>
    match (jsTrim s).data with
    | [] => .int 0
    | '-' :: c :: cs => ((digitsValue (c :: cs)).map (fun n => JSNumber.int (-(n : Int)))).getD .other
    | '+' :: c :: cs => ((digitsValue (c :: cs)).map (fun n => JSNumber.int n)).getD .other
    | cs => ((digitsValue cs).map (fun n => JSNumber.int n)).getD .other

/-- `JSON.parse` on the texts that are one decimal integer: an optional minus
sign and digits without a leading zero. The texts of the other JSON values
are outside this reference and are reported like malformed ones; it is used
for runs on concrete messages only. -/
def parseInteger (text : String) : Option JSValue :=
  match text.data with
  | [] => none
  | ['0'] => some (.num 0)
  | '0' :: _ => none
  | '-' :: '0' :: cs => if cs.isEmpty then some (.num 0) else none
  | '-' :: c :: cs => (digitsValue (c :: cs)).map (fun n => JSValue.num (-(n : Int)))
  | cs => (digitsValue cs).map (fun n => JSValue.num n)

/-- The reference engine of the concrete runs: `decimalNumber` and
`parseInteger`. -/
def exampleEngine : JSEngine JSValue where
  Number := decimalNumber
  parse := parseInteger

/-! ## The hosted side: `window._ipc`, the stub and the resolve script -/

/-- The value of a property `IPC[seq]`: the callbacks `resolve` and `reject`
of the promise of call `seq`, or `undefined`. -/
inductive Slot where
  | callbacks
  | undefined
  deriving DecidableEq, Repr

/-- The object `window._ipc`: the counter `nextSeq` and the properties with a
numeric key, in the order they were created. -/
structure IPC where
  nextSeq : Nat
  table : List (Nat × Slot)
  deriving DecidableEq, Repr

/-- The object a stub creates when `window._ipc` is absent: `nextSeq` is 1 and
there is no other property. -/
def IPC.initial : IPC := ⟨1, []⟩

/-- The value of `IPC[k]`; `none` when there is no such property. -/
def IPC.get (ipc : IPC) (k : Nat) : Option Slot :=
  match ipc.table.find? (fun e => e.1 = k) with
  | some e => some e.2
  | none => none

/-- The assignment `IPC[k] = v` on the properties. -/
def tableSet (t : List (Nat × Slot)) (k : Nat) (v : Slot) : List (Nat × Slot) :=
  match t with
  | [] => [(k, v)]
  | (k', v') :: rest => if k' = k then (k, v) :: rest else (k', v') :: tableSet rest k v

/-- The assignment `IPC[k] = v`. -/
def IPC.set (ipc : IPC) (k : Nat) (v : Slot) : IPC :=
  ⟨ipc.nextSeq, tableSet ipc.table k v⟩

/-- Whether call `k` is pending: `IPC[k]` holds the callbacks. -/
def IPC.pending (ipc : IPC) (k : Nat) : Bool := ipc.get k = some Slot.callbacks

/-- The part of a script context (one loaded page) the bridge touches:
`window._ipc`, absent until a stub script ran, and the names `window[name]`
the stubs defined. -/
structure Page where
  ipc : Option IPC
  bound : List String
  deriving DecidableEq, Repr

/-- A context right after a navigation or a reload: nothing is defined. -/
def Page.fresh : Page := ⟨none, []⟩

/-- The script `stubScript name` run at document start: `window._ipc` is kept
when it is there and created otherwise, and `window[name]` is defined. The
constant `name` of the script is written between single quotes; it is the
binding name for every name without a quote, a backslash or a line break. -/
def Page.runStub (p : Page) (name : String) : Page :=
  ⟨some (p.ipc.getD IPC.initial), name :: p.bound⟩

/-- A context in which the stubs of the names ran, in order, at document
start. -/
def Page.load (names : List String) : Page := names.foldl Page.runStub Page.fresh

/-- How a call of a stub ends. -/
inductive StubOutcome where
  /-- `window.external.invoke(msg)` was called and the promise of the call was
  returned. -/
  | posted (msg : String)
  /-- Encoding raised `err`, which was caught: nothing was posted, and a
  promise rejected with the message of `err` was returned. -/
  | rejected (err : JSError)
  /-- An exception left the stub: nothing was posted. -/
  | threw (err : JSError)
  deriving DecidableEq, Repr

/-- The payload of the `contextMenu` branch:
`Object.entries(value).flatMap(o => o.join(':')).join('_')`. -/
def encodeContextMenu (value : JSValue) : Except JSError String :=
  match objectEntries value with
  | .error e => .error e
  | .ok entries =>
    .ok (joinStrings "_" (entries.map (fun o => joinElements ":" [JSValue.str o.1, o.2])))

/-- The function `window[name]` the stub defines, called with `value`: it
takes the sequence number `IPC.nextSeq` and increments the counter, stores the
callbacks of a new promise under it, encodes the value and posts the Invoke
message. The result is the new `window._ipc`, the sequence number taken and
how the call ended. -/
def stubCall (name : String) (value : JSValue) (ipc : IPC) : IPC × Nat × StubOutcome :=
  let seq := ipc.nextSeq
  let ipc1 : IPC := (IPC.mk (seq + 1) ipc.table).set seq Slot.callbacks
  if name = "contextMenu" then
    match encodeContextMenu value with
    | .error e => (ipc1, seq, .threw e)
    | .ok encoded =>
      (ipc1, seq, .posted ("ipc;" ++ toString seq ++ ";" ++ name ++ ";" ++ encoded))
  else
    match btoa value.stringify with
    | .error e => (ipc1, seq, .rejected e)
    | .ok encoded =>
      (ipc1, seq, .posted ("ipc;" ++ toString seq ++ ";" ++ name ++ ";" ++ encoded))

/-- The call `window[name](value)` from hosted script: `none` when no stub
defined `window[name]` in this context. -/
def Page.invoke (p : Page) (name : String) (value : JSValue) :
    Option (Page × Nat × StubOutcome) :=
  if name ∈ p.bound then
    match p.ipc with
    | some ipc =>
      let r := stubCall name value ipc
      some (⟨some r.1, p.bound⟩, r.2)
    | none => none
  else none

/-- The callback of a pending call a Resolve message selects. -/
inductive Method where
  | resolve
  | reject
  deriving DecidableEq, Repr

/-- The value a callback is called with: `undefined`, a raw string, or a value
`JSON.parse` yielded. -/
inductive Settlement (V : Type) where
  | undefined
  | raw (s : String)
  | json (v : V)
  deriving DecidableEq, Repr

/-- How the evaluation of a script ends: it returns after it called the
callback `method` of call `seq` with `value`, or it raises an exception before
any callback was called. -/
inductive ScriptResult (V : Type) where
  | settled (seq : Nat) (method : Method) (value : Settlement V)
  | threw (err : JSError)
  deriving DecidableEq, Repr

/-- The fields `data` of the resolve script: the text of the message literal,
trimmed and split on `;`. -/
def resolveData (text : String) : List String := jsSplit (jsTrim text) ';'

/-- The constant `value` of the resolve script: `data[3]` as it is for an
internal message, `JSON.parse(atob(data[3]))` otherwise. -/
def resolveValue {V : Type} (E : JSEngine V) (internal : Bool) (payload : Option String) :
    Except JSError (Settlement V) :=
  if internal then
    match payload with
    | some s => .ok (.raw s)
    | none => .ok .undefined
  else
    match atob (toDOMString payload) with
    | .error e => .error e
    | .ok text =>
      match E.parse text with
      | some v => .ok (.json v)
      | none => .error .syntaxError

/-- The script of `resolveScriptText msg` evaluated in a context, for a
message `msg` whose literal denotes `text`. The statements run in order:
`data`, `internal`, `status`, `seq`, `method`, `value` (which may raise), the
call `window._ipc[seq][method](value)` (a `TypeError` when `window._ipc` or
`window._ipc[seq]` is `undefined`), and the assignment
`window._ipc[seq] = undefined`. -/
def runResolve {V : Type} (E : JSEngine V) (text : String) (p : Page) :
    Page × ScriptResult V :=
  let data := resolveData text
  let internal : Bool := data.get? 0 = some "internal"
  let status := E.Number (data.get? 1)
  let seq := E.Number (data.get? 2)
  let method := if status = JSNumber.int 0 then Method.resolve else Method.reject
  match resolveValue E internal (data.get? 3) with
  | .error e => (p, .threw e)
  | .ok value =>
    match p.ipc, seq with
    | some ipc, .int (Int.ofNat k) =>
      if ipc.pending k then
        (⟨some (ipc.set k Slot.undefined), p.bound⟩, .settled k method value)
      else (p, .threw .typeError)
    | _, _ => (p, .threw .typeError)

/-- The script the task of `webview::resolve(msg)` evaluates, in a context, as
`edge_chromium::eval` hands it to the control: `to_lpwstr(js)` reads
`js.c_str()`, which ends at the first NUL. `none` when the literal of `msg` is
outside `templateLiteral`. For a message with a NUL the script is cut inside
its template literal: it is a `SyntaxError`, and no statement runs. -/
def resolveScript {V : Type} (E : JSEngine V) (msg : String) (p : Page) :
    Option (Page × ScriptResult V) :=
  (templateLiteral msg).map (fun text =>
    if hasNul msg then (p, ScriptResult.threw JSError.syntaxError) else runResolve E text p)

/-- The Resolve message of a scope, a status, a sequence number and a payload,
as the spec writes it. -/
def resolveMessage (scope status seq payload : String) : String :=
  scope ++ ";" ++ status ++ ";" ++ seq ++ ";" ++ payload

/-- The context of the worked example of the spec after the first call of the
binding `add`: call 1 is pending and the counter is at 2. -/
def examplePage : Page := ⟨some ⟨2, [(1, Slot.callbacks)]⟩, ["add"]⟩

/-- What happens in a context, one after the other: hosted script calls a
bound function, or a resolve script whose literal denotes `text` is
evaluated. -/
inductive PageEvent where
  | invoke (name : String) (value : JSValue)
  | resolve (text : String)

/-- One event in a context: the context after it, and the result of the
script when the event is the evaluation of a resolve script. A call of a name
that is not bound changes nothing. -/
def Page.step {V : Type} (E : JSEngine V) (p : Page) : PageEvent → Page × Option (ScriptResult V)
  | .invoke name value =>
    match p.invoke name value with
    | some r => (r.1, none)
    | none => (p, none)
  | .resolve text =>
    let r := runResolve E text p
    (r.1, some r.2)

/-- A list of events in a context: the context after them and the results of
the resolve scripts, in order. -/
def Page.run {V : Type} (E : JSEngine V) (p : Page) : List PageEvent → Page × List (ScriptResult V)
  | [] => (p, [])
  | ev :: evs =>
    let r := p.step E ev
    let rest := r.1.run E evs
    match r.2 with
    | some res => (rest.1, res :: rest.2)
    | none => rest

/-- Whether a result is a settlement of call `k`. -/
def ScriptResult.settles {V : Type} (k : Nat) : ScriptResult V → Bool
  | .settled seq _ _ => seq = k
  | .threw _ => false

/-- Every key of the table of a context is below its counter. -/
def Page.keysBelowCounter (p : Page) : Prop :=
  ∀ ipc, p.ipc = some ipc → ∀ k, ipc.get k ≠ none → k < ipc.nextSeq

/-- Call `k` was settled in a context: its entry is `undefined`. -/
def Page.settledAt (p : Page) (k : Nat) : Prop :=
  ∃ ipc, p.ipc = some ipc ∧ ipc.get k = some Slot.undefined

/-! ## `Window::setContextMenu` of `win.hh` -/

/-- Whether `needle` occurs in the characters, as `std::string::find` tells. -/
def occursIn (needle : List Char) : List Char → Bool
  | [] => needle.isEmpty
  | c :: cs => needle.isPrefixOf (c :: cs) || occursIn needle cs

/-- One item of the loop of `Window::setContextMenu`: `pair` is the trimmed
item split on `:`, `key` is `pair[1]` when `pair.size() > 1` and empty
otherwise, the title is `pair[0]`, and the item is a separator when its title
contains `---`. The result is (title, key, separator). -/
def contextMenuItem (item : String) : Except Fault (String × String × Bool) := do
  let pair := split (trim item) ':'
  let key ← if pair.length > 1 then vectorAt pair 1 else pure ""
  let title ← vectorAt pair 0
  pure (title, key, occursIn "---".data title.data)

/-- The pairs (title, key) `Window::setContextMenu` reads from `value`: the
value is split on `_` and every item is read by `contextMenuItem`. -/
def contextMenuPairs (value : String) : Except Fault (List (String × String)) :=
  (split value '_').mapM (fun item => (contextMenuItem item).map (fun r => (r.1, r.2.1)))

/-! ## String and template literals with escapes, and `webview::emit` -/

/-- The character the escape sequence of a backslash and `c` denotes in a
string literal or a template literal: a control character for `b`, `t`, `n`,
`v`, `f` and `r`, and `c` itself for every character that starts no longer
escape. `none` for `x`, `u`, a digit and a line terminator, whose escapes this
development does not describe. -/
def escapeValue (c : Char) : Option Char :=
  let n := c.toNat
  if n = 98 then some (Char.ofNat 8)
  else if n = 116 then some (Char.ofNat 9)
  else if n = 110 then some (Char.ofNat 10)
  else if n = 118 then some (Char.ofNat 11)
  else if n = 102 then some (Char.ofNat 12)
  else if n = 114 then some (Char.ofNat 13)
  else if n = 120 || n = 117 || (48 ≤ n && n ≤ 57) || n = 10 || n = 13 || n = 8232 || n = 8233
  then none
  else some c

/-- Whether the character `c`, followed by `next`, stands for itself in a
literal: in a template literal (`template`) it is no backtick, no backslash, no
carriage return and no `$` before an opening brace; in a string literal between
single quotes it is no single quote, no backslash and no line break. -/
def standsForItself (template : Bool) (c : Char) (next : Option Char) : Bool :=
  let n := c.toNat
  if template then
    n ≠ 96 && n ≠ 92 && n ≠ 13 && !(n = 36 && next.map Char.toNat = some 123)
  else n ≠ 39 && n ≠ 92 && n ≠ 13 && n ≠ 10

/-- The string a literal with the given text between its delimiters denotes:
a backslash and a character give `escapeValue`, every other character must
stand for itself. `none` for a text that ends the literal early, holds a
substitution or an escape that is not described. -/
def cookLiteral (template : Bool) : List Char → Option (List Char)
  | [] => some []
  | [c] => if standsForItself template c none then some [c] else none
  | c :: d :: cs =>
    if c.toNat = 92 then
      match escapeValue d, cookLiteral template cs with
      | some v, some rest => some (v :: rest)
      | _, _ => none
    else if standsForItself template c (some d) then
      (cookLiteral template (d :: cs)).map (fun rest => c :: rest)
    else none

/-- The value of the string literal `'text'` of a script. -/
def stringLiteral (text : String) : Option String :=
  (cookLiteral false text.data).map String.mk

/-- The value of the template literal with `text` between its backticks. -/
def templateValue (text : String) : Option String :=
  (cookLiteral true text.data).map String.mk

/-- The text of the script the task of `webview::emit` evaluates. -/
def emitScriptText (event data : String) : String :=
  "(() => \x7b" ++
  "  let detail;" ++
  "  try \x7b" ++
  "    detail = JSON.parse(atob(\x60" ++ data ++ "\x60));" ++
  "  \x7d catch (err) \x7b" ++
  "    console.error(\x60Unable to parse ($\x7bdetail\x7d)\x60);" ++
  "    return;" ++
  "  \x7d" ++
  "  const event = new window.CustomEvent('" ++ event ++ "', \x7b detail \x7d);" ++
  "  window.dispatchEvent(event);" ++
  "\x7d)()"

/-- The method `webview::emit(event, data)`: one task is handed to `dispatch`,
which evaluates the emit script when it runs. -/
def webview.emit {H C : Type} (w : webview H C) (event data : String) :
    webview H C × List (Action H C) :=
  (w, [Action.dispatch (emitScriptText event data)])

/-- How the emit script ends: it dispatched one `CustomEvent` with a name and
a detail on `window`, or it caught an exception, wrote `text` with
`console.error` and returned, or it did not parse and no statement ran. No
statement outside the `try` block raises. -/
inductive EmitResult (V : Type) where
  | dispatched (name : String) (detail : V)
  | logged (text : String)
  | syntaxError
  deriving DecidableEq, Repr

/-- The emit script for an event literal that denotes `name` and a data
literal that denotes `text`: `detail` is `JSON.parse(atob(text))`; when that
raises, `detail` is still `undefined` in the message that is logged. -/
def runEmit {V : Type} (E : JSEngine V) (name text : String) : EmitResult V :=
  match atob text with
  | .error _ => .logged "Unable to parse (undefined)"
  | .ok decoded =>
    match E.parse decoded with
    | none => .logged "Unable to parse (undefined)"
    | some detail => .dispatched name detail

/-- The script of `emitScriptText event data` evaluated, as
`edge_chromium::eval` hands it to the control (`js.c_str()`, which ends at the
first NUL): `none` when one of the two literals is outside `cookLiteral`. With
a NUL in `event` or `data` the script is cut inside a literal and does not
parse. -/
def emitScript {V : Type} (E : JSEngine V) (event data : String) : Option (EmitResult V) :=
  match stringLiteral event, templateValue data with
  | some name, some text =>
    if hasNul event || hasNul data then some EmitResult.syntaxError
    else some (runEmit E name text)
  | _, _ => none

/-! ## Calls with an argument list, and `webview_ipc` -/

/-- The stub called with no argument: its parameter `value` is `undefined`.
The sequence number is taken as in `stubCall`; `Object.entries(undefined)`
raises a `TypeError` in the `contextMenu` branch, and `JSON.stringify` yields
`undefined`, which `btoa` takes as the text `undefined`. -/
def stubCallUndefined (name : String) (ipc : IPC) : IPC × Nat × StubOutcome :=
  let seq := ipc.nextSeq
  let ipc1 : IPC := (IPC.mk (seq + 1) ipc.table).set seq Slot.callbacks
  if name = "contextMenu" then (ipc1, seq, .threw .typeError)
  else
    match btoa (toDOMString none) with
    | .error e => (ipc1, seq, .rejected e)
    | .ok encoded =>
      (ipc1, seq, .posted ("ipc;" ++ toString seq ++ ";" ++ name ++ ";" ++ encoded))

/-- The call `window[name](a1, ..., an)` from hosted script: the function the
stub defines has the one parameter `value`, so it reads the first argument,
`undefined` when there is none, and no other argument. -/
def stubApply (name : String) (args : List JSValue) (ipc : IPC) : IPC × Nat × StubOutcome :=
  match args with
  | [] => stubCallUndefined name ipc
  | value :: _ => stubCall name value ipc

/-- The function `webview_ipc(w, name, fn, arg)` of the C interface: it binds
`name` to a handler that calls `fn(seq, req, arg)` with the strings
`on_message` hands over, and to the context pointer `arg`. -/
def webview_ipc {H C : Type} (w : webview H C) (name : String) (fn : H) (arg : C) :
    webview H C × List (Action H C) :=
  w.ipc name fn arg

/-- What the native side does for the call `window[name](a1, ..., an)`: the
message the stub posts is handed to `on_message`; `none` when the stub posts
nothing. -/
def deliverCall {H C : Type} (w : webview H C) (name : String) (args : List JSValue)
    (ipc : IPC) : Option (Except Fault (webview H C × List (Action H C))) :=
  match (stubApply name args ipc).2.2 with
  | .posted msg => some (w.on_message msg)
  | _ => none

/-- The text of the script the `menuItemSelected:` handler evaluates for the
fields `title`, `state`, `parent` and `seq` of the selected item. -/
def menuItemScriptText (title state parent seq : String) : String :=
  "(() => \x7b" ++
  "  const detail = \x7b" ++
  "    title: '" ++ title ++ "'," ++
  "    parent: '" ++ parent ++ "'," ++
  "    state: '" ++ state ++ "'" ++
  "  \x7d;" ++
  "  if (" ++ seq ++ " > 0) \x7b" ++
  "    window._ipc[" ++ seq ++ "].resolve(detail);" ++
  "    delete window._ipc[" ++ seq ++ "];" ++
  "    return;" ++
  "  \x7d" ++
  "  const event = new window.CustomEvent('menuItemSelected', \x7b detail \x7d);" ++
  "  window.dispatchEvent(event);" ++
  "\x7d)()"

/-- The `menuItemSelected:` handler: `vec` is what `getMenuItemDetails(item)`
returned (that helper is not among the sources); its elements 0 to 3 are read
unchecked as `title`, `state`, `parent` and `seq`, and the script is handed to
`eval`. The result is the text that is evaluated. -/
def menuItemSelected (vec : List String) : Except Fault String := do
  let title ← vectorAt vec 0
  let state ← vectorAt vec 1
  let parent ← vectorAt vec 2
  let seq ← vectorAt vec 3
  pure (menuItemScriptText title state parent seq)

/-- The number the text `seq` denotes where the script writes it as an
expression: a decimal numeral without a leading zero, with an optional minus
sign. `none` for any other text, whose meaning as an expression this
development does not describe. -/
def menuSeq (seq : String) : Option Int :=
  match seq.data with
  | [] => none
  | ['0'] => some 0
  | '0' :: _ => none
  | '-' :: '0' :: cs => if cs.isEmpty then some 0 else none
  | '-' :: c :: cs => (digitsValue (c :: cs)).map (fun n => -(n : Int))
  | cs => (digitsValue cs).map (fun n => (n : Int))

/-- The statement `delete IPC[k]`: the property is removed. -/
def IPC.erase (ipc : IPC) (k : Nat) : IPC :=
  ⟨ipc.nextSeq, ipc.table.filter (fun e => e.1 ≠ k)⟩

/-- The object `detail` of the script. -/
def menuDetail (title parent state : String) : JSValue :=
  .obj [("title", .str title), ("parent", .str parent), ("state", .str state)]

/-- How the script of a menu selection ends: it called `resolve` of call
`seq` with the detail, it dispatched one `CustomEvent` on `window`, or it
raised an exception before either. -/
inductive MenuResult where
  | resolved (seq : Nat) (detail : JSValue)
  | dispatched (name : String) (detail : JSValue)
  | threw (err : JSError)

/-- The script of a menu selection for literals that denote `title`, `parent`
and `state` and a sequence expression with the value `seq`: when `seq > 0` the
call `window._ipc[seq].resolve(detail)` is made (a `TypeError` when
`window._ipc` or the entry is `undefined`), the property is deleted and the
script returns; otherwise the event `menuItemSelected` is dispatched. -/
def runMenuItem (title parent state : String) (seq : Int) (p : Page) : Page × MenuResult :=
  let detail := menuDetail title parent state
  if seq > 0 then
    match p.ipc with
    | some ipc =>
      if ipc.pending seq.toNat then
        (⟨some (ipc.erase seq.toNat), p.bound⟩, .resolved seq.toNat detail)
      else (p, .threw .typeError)
    | none => (p, .threw .typeError)
  else (p, .dispatched "menuItemSelected" detail)

/-- The script of `menuItemScriptText title state parent seq` evaluated in a
context: `none` when a literal is outside `cookLiteral` or the sequence text
is outside `menuSeq`. -/
def menuItemScript (title state parent seq : String) (p : Page) : Option (Page × MenuResult) :=
  match stringLiteral title, stringLiteral parent, stringLiteral state, menuSeq seq with
  | some t, some par, some st, some n => some (runMenuItem t par st n p)
  | _, _, _, _ => none

/-! ## The loop and the selection of `Window::setContextMenu` -/

/-- The state of `Window::setContextMenu` while it builds the popup menu: the
vector `lookup`, the counter `index`, the string items of the menu as pairs
(command identifier, title), the last one inserted first, and the number of
separators. -/
structure ContextMenu where
  lookup : List String
  index : Nat
  items : List (Nat × String)
  separators : Nat
  deriving DecidableEq, Repr

/-- The state before the loop: `lookup` holds one empty string and `index`
is 1. -/
def ContextMenu.initial : ContextMenu := ⟨[""], 1, [], 0⟩

/-- One turn of the loop: an item whose title contains `---` inserts a
separator; any other item pushes its title on `lookup` and inserts a string
item with the identifier `index`, which is then incremented. -/
def contextMenuStep (st : ContextMenu) (item : String) : Except Fault ContextMenu := do
  let (title, _, separator) ← contextMenuItem item
  if separator then pure { st with separators := st.separators + 1 }
  else
    pure { st with
      lookup := st.lookup ++ [title]
      index := st.index + 1
      items := (st.index, title) :: st.items }

/-- The loop over the items. -/
def contextMenuLoop (st : ContextMenu) : List String → Except Fault ContextMenu
  | [] => pure st
  | item :: rest => do
    let next ← contextMenuStep st item
    contextMenuLoop next rest

/-- How `Window::setContextMenu` ends after `TrackPopupMenu` returned: nothing
was chosen and it returned, or it handed a script to `eval`, or
`lookup.at(selection)` raised `std::out_of_range`. -/
inductive ContextMenuResult where
  | dismissed
  | evaluated (js : String)
  | lookupOutOfRange
  deriving DecidableEq, Repr

/-- The method `Window::setContextMenu(seq, value)`. `selection` is what
`TrackPopupMenu` returns, the command identifier of the chosen item or 0;
`resolveMenuSelection` is the function of that name of `common.hh`, which is
not among the sources and is taken as it is. -/
def setContextMenu (resolveMenuSelection : String → String → String → String)
    (seq value : String) (selection : Nat) : Except Fault ContextMenuResult := do
  let menu ← contextMenuLoop ContextMenu.initial (split value '_')
  if selection = 0 then pure .dismissed
  else
    match menu.lookup.get? selection with
    | some title => pure (.evaluated (resolveMenuSelection seq title "contextMenu"))
    | none => pure .lookupOutOfRange

/-- The title of an item: the text before the first `:` of the trimmed
item. -/
def itemTitle (item : String) : String := (split (trim item) ':').headD ""

/-- The titles of the items of `value` that are no separators, in order. -/
def menuTitles (value : String) : List String :=
  ((split value '_').map itemTitle).filter (fun t => !occursIn "---".data t.data)

/-! ## The message loop of `win32_edge_engine`: `run`, `dispatch`, `terminate` -/

/-- The message identifier `WM_DESTROY`. -/
def WM_DESTROY : Nat := 0x0002

/-- The message identifier `WM_CLOSE`. -/
def WM_CLOSE : Nat := 0x0010

/-- The message identifier `WM_QUIT`. -/
def WM_QUIT : Nat := 0x0012

/-- The message identifier `WM_APP`. -/
def WM_APP : Nat := 0x8000

/-- A message as `GetMessage` fills it in: the window it is for (`none` for a
thread message, whose `hwnd` is null), the identifier and `lParam`. -/
structure MSG where
  hwnd : Option Nat
  message : Nat
  lParam : Nat
  deriving DecidableEq, Repr

/-- What goes wrong in the loop: `lParam` of a `WM_APP` thread message is
called as a `dispatch_fn_t` although it points to none that is alive, which is
undefined behaviour. -/
inductive LoopFault where
  | wildPointer (lParam : Nat)
  deriving DecidableEq, Repr

/-- The closure at an address of the heap, when there is one. -/
def heapFind {T : Type} (heap : List (Nat × T)) (p : Nat) : Option T :=
  match heap with
  | [] => none
  | (q, f) :: rest => if q = p then some f else heapFind rest p

/-- The heap after `delete` of the closure at an address. -/
def heapErase {T : Type} (heap : List (Nat × T)) (p : Nat) : List (Nat × T) :=
  match heap with
  | [] => []
  | (q, f) :: rest => if q = p then rest else (q, f) :: heapErase rest p

/-- The state of a `win32_edge_engine` with its thread: the window
`m_window`; the posted messages of the main thread, oldest first; whether
`PostQuitMessage` was called and its `WM_QUIT` is still to come; the
`dispatch_fn_t` objects that are alive, with the next free address; whether
`run` has not returned yet. The other fields record what happened: every
closure `dispatch` allocated, the closures `run` called, the addresses it
deleted, and the window messages it handed to `DispatchMessage`, each oldest
first. `T` is the type of the tasks. -/
structure win32_edge_engine (T : Type) where
  window : Nat
  queue : List MSG
  quit : Bool
  live : List (Nat × T)
  next : Nat
  running : Bool
  allocated : List (Nat × T)
  executed : List (Nat × T)
  deleted : List Nat
  delivered : List MSG

/-- An engine whose loop is about to start: nothing is posted or allocated. -/
def win32_edge_engine.create (T : Type) (window : Nat) : win32_edge_engine T :=
  { window := window, queue := [], quit := false, live := [], next := 1, running := true,
    allocated := [], executed := [], deleted := [], delivered := [] }

/-- The method `dispatch(f)`: a copy of `f` is allocated with `new` and its
address is posted to the main thread as `lParam` of a `WM_APP` thread message.
`PostThreadMessage` is taken to succeed. Nothing is called. -/
def win32_edge_engine.dispatch {T : Type} (e : win32_edge_engine T) (f : T) :
    win32_edge_engine T :=
  { e with
    queue := e.queue ++ [⟨none, WM_APP, e.next⟩]
    live := e.live ++ [(e.next, f)]
    allocated := e.allocated ++ [(e.next, f)]
    next := e.next + 1 }

/-- The method `terminate()`: `PostQuitMessage(0)`, after which `GetMessage`
hands out `WM_QUIT` once no posted message is left. -/
def win32_edge_engine.terminate {T : Type} (e : win32_edge_engine T) : win32_edge_engine T :=
  { e with quit := true }

/-- A message posted to the main thread by anything but `dispatch`. -/
def win32_edge_engine.post {T : Type} (e : win32_edge_engine T) (msg : MSG) :
    win32_edge_engine T :=
  { e with queue := e.queue ++ [msg] }

/-- The call `GetMessage(&msg, nullptr, 0, 0)`: the oldest posted message, or
`WM_QUIT` when none is left and `PostQuitMessage` was called; `none` while it
waits for a message. -/
def win32_edge_engine.getMessage {T : Type} (e : win32_edge_engine T) :
    Option (MSG × win32_edge_engine T) :=
  match e.queue with
  | msg :: rest => some (msg, { e with queue := rest })
  | [] => if e.quit then some (⟨none, WM_QUIT, 0⟩, { e with quit := false }) else none

/-- One turn of the loop of `run()`, when `run` has not returned: a message for
a window is handed to `DispatchMessage` (the window procedure of the engine
calls `terminate` on `WM_DESTROY`, also for the `DestroyWindow` of
`WM_CLOSE`); for a `WM_APP` thread message `lParam` is called as a closure and
deleted; on a `WM_QUIT` thread message `run` returns; any other thread message
is dropped. While `GetMessage` waits, and after `run` returned, nothing
happens. -/
def win32_edge_engine.iterate {T : Type} (e : win32_edge_engine T) :
    Except LoopFault (win32_edge_engine T) :=
  if e.running then
    match e.getMessage with
    | none => .ok e
    | some (msg, e1) =>
      if msg.hwnd.isSome then
        .ok { e1 with
          delivered := e1.delivered ++ [msg]
          quit := e1.quit || (msg.hwnd = some e1.window &&
            (msg.message = WM_DESTROY || msg.message = WM_CLOSE)) }
      else if msg.message = WM_APP then
        match heapFind e1.live msg.lParam with
        | none => .error (.wildPointer msg.lParam)
        | some f =>
          .ok { e1 with
            executed := e1.executed ++ [(msg.lParam, f)]
            live := heapErase e1.live msg.lParam
            deleted := e1.deleted ++ [msg.lParam] }
      else if msg.message = WM_QUIT then .ok { e1 with running := false }
      else .ok e1
  else .ok e

/-- What happens to an engine, from any thread: a task is dispatched, another
message is posted, `terminate` is called, or the loop of `run` takes a turn. -/
inductive LoopEvent (T : Type) where
  | dispatch (f : T)
  | post (msg : MSG)
  | terminate
  | iterate

/-- One event. -/
def win32_edge_engine.step {T : Type} (e : win32_edge_engine T) :
    LoopEvent T → Except LoopFault (win32_edge_engine T)
  | .dispatch f => .ok (e.dispatch f)
  | .post msg => .ok (e.post msg)
  | .terminate => .ok e.terminate
  | .iterate => e.iterate

/-- A list of events, in order. -/
def win32_edge_engine.runEvents {T : Type} (e : win32_edge_engine T) :
    List (LoopEvent T) → Except LoopFault (win32_edge_engine T)
  | [] => .ok e
  | ev :: evs =>
    match e.step ev with
    | .error fault => .error fault
    | .ok next => next.runEvents evs

/-- The tasks a list of events dispatches, in order. -/
def dispatchedTasks {T : Type} : List (LoopEvent T) → List T
  | [] => []
  | .dispatch f :: evs => f :: dispatchedTasks evs
  | _ :: evs => dispatchedTasks evs

/-- Whether an event posts no `WM_APP` thread message of its own: only
`dispatch` posts those. -/
def LoopEvent.ownsNoClosure {T : Type} : LoopEvent T → Bool
  | .post msg => msg.hwnd.isSome || msg.message ≠ WM_APP
  | _ => true

/-- Whether a message is a thread message `WM_QUIT`, on which `run` returns. -/
def MSG.isThreadQuit (msg : MSG) : Bool := msg.hwnd.isNone && msg.message = WM_QUIT

/-- The addresses the `WM_APP` thread messages of a queue carry, in order. -/
def closureAddresses : List MSG → List Nat
  | [] => []
  | msg :: rest =>
    if msg.hwnd.isNone && msg.message = WM_APP then msg.lParam :: closureAddresses rest
    else closureAddresses rest

/-- What holds of an engine after any events that post no closure of their
own: the `WM_APP` thread messages of the queue carry, in order, the addresses
of the closures that are alive; the closures allocated are those called
followed by those alive; every address is below the next free one and none is
used twice; and the addresses deleted are those of the closures called. -/
def win32_edge_engine.consistent {T : Type} (e : win32_edge_engine T) : Prop :=
  closureAddresses e.queue = e.live.map Prod.fst ∧
  e.allocated = e.executed ++ e.live ∧
  (∀ a ∈ e.allocated, a.1 < e.next) ∧
  (e.allocated.map Prod.fst).Nodup ∧
  e.deleted = e.executed.map Prod.fst

/-- The engine of the examples after `terminate()` and the turn of the loop
that retrieved `WM_QUIT`: `run` has returned and nothing is queued. -/
def stoppedEngine : win32_edge_engine Nat :=
  { window := 0, queue := [], quit := false, live := [], next := 1, running := false,
    allocated := [], executed := [], deleted := [], delivered := [] }

/-! ### `App::dispatch` (`win.hh`) -/

/-- The loop of the asynchronous task of `App::dispatch`,
`while (!this->isReady) sleep_for(16ms)`: `ready k` is the value of the atomic
`isReady` at the read number `k`, which another thread sets. The result is the
number of sleeps before the loop was left; `none` when `fuel` reads did not
find the flag set. -/
def App.awaitReady (ready : Nat → Bool) : Nat → Nat → Option Nat
  | 0, _ => none
  | fuel + 1, k => if ready k then some k else App.awaitReady ready fuel (k + 1)

/-- `App::dispatch(cb)`: the asynchronous task waits for `isReady` and then
posts `WM_APP` with a new closure to the main thread, as
`win32_edge_engine::dispatch` does; `future.get()` holds the caller until that
task has finished. The result is the state of the main thread at the return
and the number of sleeps the caller waited; `none` when the caller is still
held after `fuel` reads of the flag. -/
def App.dispatch {T : Type} (fuel : Nat) (ready : Nat → Bool) (thread : win32_edge_engine T)
    (cb : T) : Option (win32_edge_engine T × Nat) :=
  (App.awaitReady ready fuel 0).map (fun sleeps => (thread.dispatch cb, sleeps))

/-! ## The size of the window: `set_size` -/

/-- The hint `WEBVIEW_HINT_NONE`: width and height are the default size. -/
def WEBVIEW_HINT_NONE : Int := 0

/-- The hint `WEBVIEW_HINT_MIN`: width and height are minimum bounds. -/
def WEBVIEW_HINT_MIN : Int := 1

/-- The hint `WEBVIEW_HINT_MAX`: width and height are maximum bounds. -/
def WEBVIEW_HINT_MAX : Int := 2

/-- The hint `WEBVIEW_HINT_FIXED`: the user cannot change the size. -/
def WEBVIEW_HINT_FIXED : Int := 3

/-- The window style `WS_THICKFRAME` of the Windows headers. -/
def WS_THICKFRAME : Nat := 0x00040000

/-- The window style `WS_MAXIMIZEBOX` of the Windows headers. -/
def WS_MAXIMIZEBOX : Nat := 0x00010000

/-- The window style `WS_OVERLAPPEDWINDOW` of the Windows headers. -/
def WS_OVERLAPPEDWINDOW : Nat := 0x00CF0000

/-- The operator `~` on the bit pattern of a 32-bit `LONG`. -/
def complement32 (x : Nat) : Nat := 0xFFFFFFFF ^^^ x

/-- A `POINT` of the Windows headers. -/
structure POINT where
  x : Int
  y : Int
  deriving DecidableEq, Repr

/-- A `RECT` of the Windows headers. -/
structure RECT where
  left : Int
  top : Int
  right : Int
  bottom : Int
  deriving DecidableEq, Repr

/-- What `set_size` reads and writes: the style of the window (`GWL_STYLE`, the
bit pattern of a `LONG`), the members `m_minsz` and `m_maxsz`, the sizes
`(cx, cy)` handed to `SetWindowPos`, oldest first, and the number of calls of
`resize`. -/
structure Frame where
  style : Nat
  m_minsz : POINT
  m_maxsz : POINT
  positions : List (Int × Int)
  resized : Nat
  deriving DecidableEq, Repr

/-- A window as `CreateWindow` of the engine makes it, with the members as
they are initialised. -/
def Frame.initial : Frame :=
  { style := WS_OVERLAPPEDWINDOW, m_minsz := ⟨0, 0⟩, m_maxsz := ⟨0, 0⟩, positions := [],
    resized := 0 }

/-- The method `win32_edge_engine::set_size(width, height, hints)`: the two
style bits are cleared for `WEBVIEW_HINT_FIXED` and set otherwise, and the
style is written back; then the size is stored as the maximum for
`WEBVIEW_HINT_MAX`, as the minimum for `WEBVIEW_HINT_MIN`, and otherwise the
window is given the size `AdjustWindowRect` computes for the client area and
the browser is resized. `AdjustWindowRect` is the function of the system. -/
def set_size (AdjustWindowRect : RECT → Nat → Bool → RECT) (f : Frame)
    (width height hints : Int) : Frame :=
  let style :=
    if hints = WEBVIEW_HINT_FIXED then f.style &&& complement32 (WS_THICKFRAME ||| WS_MAXIMIZEBOX)
    else f.style ||| (WS_THICKFRAME ||| WS_MAXIMIZEBOX)
  let f1 := { f with style := style }
  if hints = WEBVIEW_HINT_MAX then { f1 with m_maxsz := ⟨width, height⟩ }
  else if hints = WEBVIEW_HINT_MIN then { f1 with m_minsz := ⟨width, height⟩ }
  else
    let r := AdjustWindowRect ⟨0, 0, width, height⟩ WS_OVERLAPPEDWINDOW false
    { f1 with
      positions := f1.positions ++ [(r.right - r.left, r.bottom - r.top)]
      resized := f1.resized + 1 }

/-! ## A `webview` object with its engine: what reaches the control, and when -/

/-- A call the engine makes on its browser object `m_browser`. -/
inductive BrowserCall where
  | navigate (url : String)
  | eval (js : String)
  | init (js : String)
  deriving DecidableEq, Repr

/-- The scripts among the calls `m_browser->eval(js)`, in order. -/
def evaluatedScripts : List BrowserCall → List String
  | [] => []
  | .eval js :: calls => js :: evaluatedScripts calls
  | _ :: calls => evaluatedScripts calls

/-- An object behind a handle `webview_t`: the registry of `webview`, the
thread and loop of its base `win32_edge_engine` (the task of `resolve` or
`emit`, a closure that calls `eval(js)`, is written as its script `js`), the
calls
`m_browser` received, the title of `m_window`, what `set_size` touches, and
the handler calls `on_message` made, each oldest first. -/
structure webview_t (H C : Type) where
  registry : webview H C
  engine : win32_edge_engine String
  browser : List BrowserCall
  title : String
  frame : Frame
  called : List (H × String × String × C)

/-- An object as constructed, before the loop runs. -/
def webview_t.create (H C : Type) (window : Nat) : webview_t H C :=
  { registry := webview.create H C, engine := win32_edge_engine.create String window,
    browser := [], title := "", frame := Frame.initial, called := [] }

/-- One collaborator call of a method of `webview`, carried out on the object:
`init(js)` is `m_browser->init(js)`, `dispatch(task)` is
`win32_edge_engine::dispatch`, and a handler call is recorded. -/
def webview_t.perform {H C : Type} (s : webview_t H C) : Action H C → webview_t H C
  | .init js => { s with browser := s.browser ++ [.init js] }
  | .dispatch js => { s with engine := s.engine.dispatch js }
  | .call f seq req arg => { s with called := s.called ++ [(f, seq, req, arg)] }

/-- The method `resolve(msg)` on the object. -/
def webview_t.resolve {H C : Type} (s : webview_t H C) (msg : String) : webview_t H C :=
  ((s.registry.resolve msg).2.foldl webview_t.perform
    { s with registry := (s.registry.resolve msg).1 })

/-- The method `emit(event, data)` on the object. -/
def webview_t.emit {H C : Type} (s : webview_t H C) (event data : String) : webview_t H C :=
  ((s.registry.emit event data).2.foldl webview_t.perform
    { s with registry := (s.registry.emit event data).1 })

/-- The function `webview_navigate(w, url)` of the C interface:
`webview::navigate` calls `browser_engine::navigate`, which calls
`m_browser->navigate(url)`. -/
def webview_navigate {H C : Type} (s : webview_t H C) (url : String) : webview_t H C :=
  { s with browser := s.browser ++ [.navigate url] }

/-- The function `webview_eval(w, js)` of the C interface: `eval(js)` of the
engine, which is `m_browser->eval(js)`. -/
def webview_eval {H C : Type} (s : webview_t H C) (js : String) : webview_t H C :=
  { s with browser := s.browser ++ [.eval js] }

/-- The function `webview_set_title(w, title)` of the C interface:
`set_title` calls `SetWindowText(m_window, title)`. -/
def webview_set_title {H C : Type} (s : webview_t H C) (title : String) : webview_t H C :=
  { s with title := title }

/-- The function `webview_set_size(w, width, height, hints)` of the C
interface: `set_size` of the engine. -/
def webview_set_size {H C : Type} (AdjustWindowRect : RECT → Nat → Bool → RECT)
    (s : webview_t H C) (width height hints : Int) : webview_t H C :=
  { s with frame := set_size AdjustWindowRect s.frame width height hints }

/-- One turn of the loop of `run()` on the object: the closure the turn
called, when it called one, evaluated its script with `m_browser->eval`. -/
def webview_t.iterate {H C : Type} (s : webview_t H C) : Except LoopFault (webview_t H C) :=
  match s.engine.iterate with
  | .error fault => .error fault
  | .ok next =>
    .ok { s with
      engine := next
      browser := s.browser ++
        ((next.executed.drop s.engine.executed.length).map (fun c => BrowserCall.eval c.2)) }

/-- What happens to the object: `resolve` or `emit` is called from any thread,
`terminate` is called, or the loop takes a turn. -/
inductive BridgeEvent where
  | resolve (msg : String)
  | emit (event data : String)
  | terminate
  | iterate
  deriving DecidableEq, Repr

/-- One event. -/
def webview_t.step {H C : Type} (s : webview_t H C) :
    BridgeEvent → Except LoopFault (webview_t H C)
  | .resolve msg => .ok (s.resolve msg)
  | .emit event data => .ok (s.emit event data)
  | .terminate => .ok { s with engine := s.engine.terminate }
  | .iterate => s.iterate

/-- A list of events, in order. -/
def webview_t.runEvents {H C : Type} (s : webview_t H C) :
    List BridgeEvent → Except LoopFault (webview_t H C)
  | [] => .ok s
  | ev :: evs =>
    match s.step ev with
    | .error fault => .error fault
    | .ok next => next.runEvents evs

/-- The scripts the calls of `resolve` and `emit` in a list of events
generate, in order. -/
def generatedScripts : List BridgeEvent → List String
  | [] => []
  | .resolve msg :: evs => resolveScriptText msg :: generatedScripts evs
  | .emit event data :: evs => emitScriptText event data :: generatedScripts evs
  | _ :: evs => generatedScripts evs

/-! ## `Window` of `win.hh` -/

/-- The position `s.find(needle)` of `std::string`: the index of the first
occurrence, `none` for `npos`. -/
def stringFind (needle : List Char) : List Char → Option Nat
  | [] => if needle.isEmpty then some 0 else none
  | c :: cs =>
    if needle.isPrefixOf (c :: cs) then some 0 else (stringFind needle cs).map (fun i => i + 1)

/-- The handler of `NavigationStarting` the constructor of `Window` installs,
on the URI of the navigation as a `std::string`: whether it calls
`put_Cancel(true)`, which it does when `url.find("file://") != 0`. -/
def navigationStarting (url : String) : Bool :=
  decide (stringFind "file://".data url.data ≠ some 0)

/-- The `nCmdShow` value `SW_SHOW`. -/
def SW_SHOW : Nat := 5

/-- Modelled from the spec: `WINDOW_HINT_NONE` of `common.hh`, which is not
among the sources; the spec has the hint constants as
`NONE=0, MIN=1, MAX=2, FIXED=3`. -/
def WINDOW_HINT_NONE : Int := 0

/-- Modelled from the spec: `WINDOW_HINT_MIN` of `common.hh`, as above. -/
def WINDOW_HINT_MIN : Int := 1

/-- Modelled from the spec: `WINDOW_HINT_MAX` of `common.hh`, as above. -/
def WINDOW_HINT_MAX : Int := 2

/-- Modelled from the spec: `WINDOW_HINT_FIXED` of `common.hh`, as above. -/
def WINDOW_HINT_FIXED : Int := 3

/-- A call a method of `Window` makes on the system, apart from those of
`setSize`. -/
inductive WindowCall where
  | showWindow (nCmdShow : Nat)
  | updateWindow
  /-- `MoveWindow` to the centre of the desktop, at the size the window has. -/
  | moveWindow
  | createMenu
  /-- `AppendMenuW(hMenu, MF_SEPARATOR, 0, NULL)`. -/
  | appendSeparator
  /-- `AppendMenuA(hMenu, MF_STRING, itemId, display)`. -/
  | appendItem (itemId : Int) (display : String)
  /-- `AppendMenuA(hMenubar, MF_POPUP, hMenu, menuTitle)`. -/
  | appendPopup (menuTitle : String)
  | setMenuInfo
  /-- The method `about()`, which opens the about box. -/
  | about
  /-- The method `exit()`, which calls `onExit`. -/
  | exit
  deriving DecidableEq, Repr

/-- The lookup in a `std::map<int, std::string>`: `none` when the key is
absent. -/
def menuMapFind (m : List (Int × String)) (k : Int) : Option String :=
  match m with
  | [] => none
  | (k', v) :: rest => if k' = k then some v else menuMapFind rest k

/-- The assignment `m[k] = v` of a `std::map<int, std::string>`. -/
def menuMapAssign (m : List (Int × String)) (k : Int) (v : String) : List (Int × String) :=
  match m with
  | [] => [(k, v)]
  | (k', v') :: rest =>
    if k' = k then (k, v) :: rest else (k', v') :: menuMapAssign rest k v

/-- A `Window`: `opts.index`; whether `webview` is set; the style and the size
members; the map `menuMap`; the calls made on the system,
the scripts handed to `ExecuteScript` and the strings handed to the callback
`onMessage` (a member of `IWindow` in `common.hh`), each oldest first. -/
structure Window where
  index : Int
  webview : Bool
  frame : Frame
  menuMap : List (Int × String)
  calls : List WindowCall
  evaluated : List String
  messages : List String
  deriving DecidableEq, Repr

/-- The method `Window::eval(s)`: nothing when `webview` is null, and
`ExecuteScript` otherwise. -/
def Window.eval (w : Window) (s : String) : Window :=
  if w.webview then { w with evaluated := w.evaluated ++ [s] } else w

/-- The closing statements of `show`, `hide`, `setSize` and `setSystemMenu`:
when `seq.size() > 0`, `onMessage` is called with
`resolveToMainProcess(seq, "0", index)`, where `index` is
`std::to_string(opts.index)`. The callback `onMessage` is taken to be set.
`resolveToMainProcess` is a helper of `common.hh`, which is not among the
sources. -/
def Window.ack (resolveToMainProcess : String → String → String → String) (w : Window)
    (seq : String) : Window :=
  if seq.length > 0 then
    { w with messages := w.messages ++ [resolveToMainProcess seq "0" (toString w.index)] }
  else w

/-- The method `Window::show(seq)`. -/
def Window.show (resolveToMainProcess : String → String → String → String) (w : Window)
    (seq : String) : Window :=
  Window.ack resolveToMainProcess
    { w with calls := w.calls ++ [.showWindow SW_SHOW, .updateWindow, .moveWindow] } seq

/-- The method `Window::setSize(seq, width, height, hints)`: the statements of
`win32_edge_engine::set_size` with the constants `WINDOW_HINT_*`, then the
ack. -/
def Window.setSize (AdjustWindowRect : RECT → Nat → Bool → RECT)
    (resolveToMainProcess : String → String → String → String) (w : Window) (seq : String)
    (width height hints : Int) : Window :=
  let style :=
    if hints = WINDOW_HINT_FIXED then
      w.frame.style &&& complement32 (WS_THICKFRAME ||| WS_MAXIMIZEBOX)
    else w.frame.style ||| (WS_THICKFRAME ||| WS_MAXIMIZEBOX)
  let w1 := { w with frame := { w.frame with style := style } }
  let w2 :=
    if hints = WINDOW_HINT_MAX then
      { w1 with frame := { w1.frame with m_maxsz := ⟨width, height⟩ } }
    else if hints = WINDOW_HINT_MIN then
      { w1 with frame := { w1.frame with m_minsz := ⟨width, height⟩ } }
    else
      let r := AdjustWindowRect ⟨0, 0, width, height⟩ WS_OVERLAPPEDWINDOW false
      { w1 with
        frame := { w1.frame with
          positions := w1.frame.positions ++ [(r.right - r.left, r.bottom - r.top)]
          resized := w1.frame.resized + 1 } }
  Window.ack resolveToMainProcess w2 seq

/-! ## `Window::setSystemMenu` and the `WM_COMMAND` branch of `Window::WndProc` -/

/-- The state of the loops of `Window::setSystemMenu`: the counter `itemId`,
the map `menuMap`, and the calls made on the menus, oldest first. -/
structure MenuBuild where
  itemId : Int
  menuMap : List (Int × String)
  calls : List WindowCall
  deriving DecidableEq, Repr

/-- The text `accl` of an item: empty for an empty `key`; otherwise the key,
or `trim(accelerators[1]) + "+" + key` with the three replacements when
`accelerators.size() > 1`, with `Shift+` before it when the key occurs in the
upper-case alphabet. `replace` is a helper of `common.hh`, which is not among
the sources. -/
def acceleratorText (replace : String → String → String → String) (key : String)
    (accelerators : List String) : Except Fault String :=
  if key.length > 0 then do
    let isShift := occursIn key.data "ABCDEFGHIJKLMNOPQRSTUVWXYZ".data
    let accl ←
      if accelerators.length > 1 then do
        let second ← vectorAt accelerators 1
        pure (replace (replace (replace (trim second ++ "+" ++ key) "CommandOrControl" "Ctrl")
          "Command" "Ctrl") "Control" "Ctrl")
      else pure key
    pure (if isShift then "Shift+" ++ accl else accl)
  else pure ""

/-- The `key` of an item: empty when `trim(parts[1])` is `_`, and
`trim(accelerators[0])` otherwise. -/
def menuKey (second : String) (accelerators : List String) : Except Fault String :=
  if trim second = "_" then pure "" else (vectorAt accelerators 0).map trim

/-- One turn of the inner loop of `Window::setSystemMenu`, for the line
`menu[i]` of the menu titled `menuTitle`: an empty line is skipped, a line
that contains `---` appends a separator, and any other line is split on `:`
into `parts`; `parts[0]` is the title and `parts[1]` is read for the
accelerator, both with the unchecked `operator[]`; the item is appended under
the identifier `itemId`, `menuMap[itemId]` is assigned the title, a tab and the
menu title, and `itemId` is incremented. -/
def systemMenuLine (replace : String → String → String → String) (menuTitle : String)
    (st : MenuBuild) (raw : String) : Except Fault MenuBuild :=
  let line := trim raw
  if line.length = 0 then pure st
  else if occursIn "---".data line.data then
    pure { st with calls := st.calls ++ [.appendSeparator] }
  else do
    let parts := split line ':'
    let title ← vectorAt parts 0
    let second ← vectorAt parts 1
    let accelerators := split second '+'
    let key ← menuKey second accelerators
    let accl ← acceleratorText replace key accelerators
    pure
      { itemId := st.itemId + 1
        menuMap := menuMapAssign st.menuMap st.itemId (title ++ "\t" ++ menuTitle)
        calls := st.calls ++ [.appendItem st.itemId (title ++ "\t" ++ accl)] }

/-- The inner loop over the lines `menu[1]`, `menu[2]`, ... of one menu. -/
def systemMenuLines (replace : String → String → String → String) (menuTitle : String)
    (st : MenuBuild) : List String → Except Fault MenuBuild
  | [] => pure st
  | raw :: rest =>
    match systemMenuLine replace menuTitle st raw with
    | .error fault => .error fault
    | .ok next => systemMenuLines replace menuTitle next rest

/-- One turn of the outer loop, for the menu text `m`: it is split into lines;
when the first line, trimmed, is empty the menu is skipped with all its
lines; otherwise the menu title is the text before the first `:` of that line,
a menu is created, the other lines are read, and the menu is appended to the
menu bar. -/
def systemMenu (replace : String → String → String → String) (st : MenuBuild) (m : String) :
    Except Fault MenuBuild := do
  let menu := split m '\n'
  let first ← vectorAt menu 0
  let line := trim first
  if line.length = 0 then pure st
  else do
    let menuTitle ← vectorAt (split line ':') 0
    let st1 ← systemMenuLines replace menuTitle { st with calls := st.calls ++ [.createMenu] }
      (menu.drop 1)
    pure { st1 with calls := st1.calls ++ [.appendPopup menuTitle] }

/-- The outer loop over the menus. -/
def systemMenus (replace : String → String → String → String) (st : MenuBuild) :
    List String → Except Fault MenuBuild
  | [] => pure st
  | m :: rest =>
    match systemMenu replace st m with
    | .error fault => .error fault
    | .ok next => systemMenus replace next rest

/-- The method `Window::setSystemMenu(seq, value)`: `%%` is replaced by a line
feed, the text is split on `;` into menus, the loops run with `itemId`
starting at 0 on the map the window has, the menu bar gets its colours, and
the ack is sent. -/
def Window.setSystemMenu (replace : String → String → String → String)
    (resolveToMainProcess : String → String → String → String) (w : Window)
    (seq value : String) : Except Fault Window :=
  match systemMenus replace ⟨0, w.menuMap, []⟩ (split (replace value "%%" "\n") ';') with
  | .error fault => .error fault
  | .ok st =>
    .ok (Window.ack resolveToMainProcess
      { w with menuMap := st.menuMap, calls := w.calls ++ st.calls ++ [.setMenuInfo] } seq)

/-- The branch `WM_COMMAND` of `Window::WndProc` for a window object that is
set, with `id` the value of `wParam` as the key type `int`: `menuMap[id]` is
read, which inserts an empty string when the key is absent, and split on the
tab; with more than one part, a title that starts with `About` opens the about
box, one that starts with `Quit` exits, and any other title has
`resolveMenuSelection("0", title, parent)` evaluated. `resolveMenuSelection`
is a helper of `common.hh`. -/
def Window.command (resolveMenuSelection : String → String → String → String) (w : Window)
    (id : Int) : Window :=
  let stored := menuMapFind w.menuMap id
  let w1 := if stored.isSome then w else { w with menuMap := menuMapAssign w.menuMap id "" }
  match split (stored.getD "") '\t' with
  | title :: parent :: _ =>
    if stringFind "About".data title.data = some 0 then
      { w1 with calls := w1.calls ++ [.about] }
    else if stringFind "Quit".data title.data = some 0 then
      { w1 with calls := w1.calls ++ [.exit] }
    else Window.eval w1 (resolveMenuSelection "0" title parent)
  | _ => w1

/-- Whether a trimmed line is neither empty nor a separator, so that the inner
loop splits it on `:` as an item line. -/
def isItemLine (line : String) : Bool :=
  line.length ≠ 0 && !occursIn "---".data line.data

/-- The lines of one menu text that `Window::setSystemMenu` splits on `:` as
item lines, trimmed: none when the first line, trimmed, is empty; otherwise
the lines after the first that are not empty when trimmed and contain no
`---`. -/
def menuTextLines (m : String) : List String :=
  match split m '\n' with
  | [] => []
  | first :: lines =>
    if (trim first).length = 0 then []
    else (lines.map trim).filter isItemLine

/-- The title of the menu of a menu text: the text before the first `:` of
its first line, trimmed. -/
def menuTextTitle (m : String) : String :=
  (split (trim ((split m '\n').headD "")) ':').headD ""

/-- The items of one menu text, each with the title of the item, which is the
text before the first `:` of its line, and the title of the menu. -/
def menuTextItems (m : String) : List (String × String) :=
  (menuTextLines m).map (fun line => ((split line ':').headD "", menuTextTitle m))

/-- The item lines of a menu description, across all its menus in order. -/
def systemMenuLinesOf (replace : String → String → String → String) (value : String) :
    List String :=
  (split (replace value "%%" "\n") ';').flatMap menuTextLines

/-- The items of a menu description, counted across all its menus in order,
separators, empty lines and menus without a title left out: each with its
title and the title of its menu. -/
def systemMenuItems (replace : String → String → String → String) (value : String) :
    List (String × String) :=
  (split (replace value "%%" "\n") ';').flatMap menuTextItems

/-- A window as its constructor leaves it, with the index 0 and its control
set. -/
def Window.initial : Window :=
  { index := 0, webview := true, frame := Frame.initial, menuMap := [], calls := [],
    evaluated := [], messages := [] }

/-- The map after the items of a list were stored under consecutive
identifiers from `start` on, each as its title, a tab and the title of its
menu. -/
def storeItems (m : List (Int × String)) (start : Int) :
    List (String × String) → List (Int × String)
  | [] => m
  | (title, menuTitle) :: rest =>
    storeItems (menuMapAssign m start (title ++ "\t" ++ menuTitle)) (start + 1) rest

/-- A context in which the calls 1 and 2 of the binding `add` are pending and
the counter is at 3. -/
def examplePageTwo : Page := ⟨some ⟨3, [(1, Slot.callbacks), (2, Slot.callbacks)]⟩, ["add"]⟩

/-! ## The overload of `webview::ipc` for a `sync_binding_t` -/

/-- A handler in the registry: a `binding_t` the host gave, or the lambda the
overload of `ipc` for a `sync_binding_t` registers. -/
inductive Handler (F : Type) where
  | given (f : F)
  | syncLambda
  deriving DecidableEq, Repr

/-- A context pointer in the registry: the pointer the host gave, or the
`sync_binding_ctx_t` pair of the object and the function `fn` that the
overload allocates. -/
inductive ContextPtr (S C : Type) where
  | given (arg : C)
  | syncPair (fn : S)
  deriving DecidableEq, Repr

/-- The method `webview::ipc(name, fn)` for a `sync_binding_t`: it registers
its lambda with a new pair `(this, fn)` as the context pointer. -/
def webview.ipcSync {F S C : Type} (w : webview (Handler F) (ContextPtr S C)) (name : String)
    (fn : S) : webview (Handler F) (ContextPtr S C) × List (Action (Handler F) (ContextPtr S C)) :=
  w.ipc name Handler.syncLambda (ContextPtr.syncPair fn)

/-- The function of the host a handler call ends in. -/
inductive HostCall (F S C : Type) where
  /-- The `binding_t` `f` is called as `f(seq, req, arg)`. -/
  | binding (f : F) (seq req : String) (arg : C)
  /-- The `sync_binding_t` `fn` is called as `fn(seq, req)`. -/
  | sync (fn : S) (seq req : String)
  deriving DecidableEq, Repr

/-- The call `(*fn->first)(seq, args, fn->second)` of `on_message` carried
out: a handler of the host is called with the pointer; the lambda of the
overload casts the pointer to its pair and calls `pair->second(seq, req)`.
`none` for the lambda with a pointer that is no such pair, and for an action
that is no call. -/
def hostCall {F S C : Type} : Action (Handler F) (ContextPtr S C) → Option (HostCall F S C)
  | .call (.given f) seq req (.given arg) => some (.binding f seq req arg)
  | .call .syncLambda seq req (.syncPair fn) => some (.sync fn seq req)
  | _ => none

/-! ## The constructor of `win32_edge_engine` and the two engines -/

/-- The two implementations of the interface `browser`. -/
inductive BrowserKind where
  | edge_chromium
  | edge_html
  deriving DecidableEq, Repr

/-- How the creation of the control of Edge/Chromium goes when the constructor
runs. `refused`: `CreateCoreWebView2EnvironmentWithOptions` does not return
`S_OK`. `noEnvironment`: it returns `S_OK` and the completed handler of the
environment is later invoked with a failure code and a null environment.
`noController`: the environment arrives and the completed handler of the
controller is invoked with a failure code and a null controller.
`interrupted`: the loop in which `embed` waits retrieves `WM_QUIT` before a
handler of the controller is invoked. `created`: the controller arrives. -/
inductive ChromiumStart where
  | refused
  | noEnvironment
  | noController
  | interrupted
  | created
  deriving DecidableEq, Repr

/-- What the system offers when the constructor runs: how the creation of the
control of Edge/Chromium goes, and whether the calls of C++/WinRT can create
the `WebViewControl` of EdgeHTML. -/
structure Platform where
  chromium : ChromiumStart
  webViewControl : Bool
  deriving DecidableEq, Repr

/-- The exception `winrt::hresult_error` that a call of C++/WinRT raises when
it fails. -/
inductive hresult_error where
  | raised
  deriving DecidableEq, Repr

/-- A member call through a null pointer, on which the behaviour of the
program is undefined: `env->CreateCoreWebView2Controller` and
`controller->AddRef` in the two `Invoke` methods of `webview2_com_handler`,
and `m_webview->AddScriptToExecuteOnDocumentCreated` in
`edge_chromium::init`. -/
inductive EmbedFault where
  | nullEnvironment
  | nullController
  | nullWebview
  deriving DecidableEq, Repr

/-- The method `webview2_com_handler::Invoke(HRESULT res,
ICoreWebView2Environment *env)`: it does not read `res` and calls
`env->CreateCoreWebView2Controller(m_window, this)` on the pointer as it
comes. `env` says whether the pointer is non-null. -/
def webview2_com_handler.InvokeEnvironment (_res : Bool) (env : Bool) : Except EmbedFault Unit :=
  if env then .ok () else .error .nullEnvironment

/-- The method `webview2_com_handler::Invoke(HRESULT res,
ICoreWebView2Controller *controller)`: it does not read `res` and starts with
`controller->AddRef()` on the pointer as it comes; with a controller it
registers the handlers and calls `m_cb(controller)`, which clears the flag
`embed` waits on. `controller` says whether the pointer is non-null. -/
def webview2_com_handler.InvokeController (_res : Bool) (controller : Bool) :
    Except EmbedFault Unit :=
  if controller then .ok () else .error .nullController

/-- The method `edge_chromium::init` as `embed` calls it: it calls
`m_webview->AddScriptToExecuteOnDocumentCreated` on the member as it is, which
is null until the callback of the controller has set it. `webview` says
whether the member is non-null. -/
def edge_chromium.init (webview : Bool) : Except EmbedFault Unit :=
  if webview then .ok () else .error .nullWebview

/-- The method `edge_chromium::embed`. Its one `return false` is under
`res != S_OK` for the result of `CreateCoreWebView2EnvironmentWithOptions`.
Otherwise it pumps messages while the flag is set and `GetMessage` yields
non-zero, during which the completed handlers are invoked, then calls `init`
and returns `true`; a failure that is reported to a handler is not turned into
a return value. -/
def edge_chromium.embed (P : Platform) : Except EmbedFault Bool :=
  match P.chromium with
  | .refused => .ok false
  | .noEnvironment => do
    webview2_com_handler.InvokeEnvironment false false
    edge_chromium.init false
    pure true
  | .noController => do
    webview2_com_handler.InvokeEnvironment true true
    webview2_com_handler.InvokeController false false
    edge_chromium.init false
    pure true
  | .interrupted => do
    webview2_com_handler.InvokeEnvironment true true
    edge_chromium.init false
    pure true
  | .created => do
    webview2_com_handler.InvokeEnvironment true true
    webview2_com_handler.InvokeController true true
    edge_chromium.init true
    pure true

/-- The method `edge_html::embed`: the control is created through the calls
`WebViewControlProcess`, `CreateWebViewControlAsync` and `GetResults` of
C++/WinRT, which raise `winrt::hresult_error` when the control cannot be
created; `embed` has no `try` and no check of its own, so the exception leaves
it, and its one `return` statement yields `true`. -/
def edge_html.embed (P : Platform) : Except hresult_error Bool :=
  if P.webViewControl then .ok true else .error .raised

/-- How the constructor of `win32_edge_engine` ended: it returned with an
engine in `m_browser`; or an exception left it; or it ran into a member call
through a null pointer, after which nothing is defined. -/
inductive ConstructionEnd where
  | returned (browser : BrowserKind)
  | raised (e : hresult_error)
  | undefinedBehaviour (fault : EmbedFault)
  deriving DecidableEq, Repr

/-- What the constructor of `win32_edge_engine` did: the engines whose `embed`
it called, in order; how it ended; and whether it came to
`m_browser->resize`. -/
structure Construction where
  embedCalls : List BrowserKind
  outcome : ConstructionEnd
  resized : Bool
  deriving DecidableEq, Repr

/-- The end of the constructor of `win32_edge_engine`: `m_browser` holds an
`edge_chromium`, whose `embed` is called; when that returns `false`,
`m_browser` is replaced by an `edge_html` and its `embed` is called, whose
result is not read; then the browser is resized. The constructor catches
nothing. -/
def win32_edge_engine.construct (P : Platform) : Construction :=
  match edge_chromium.embed P with
  | .error fault => ⟨[.edge_chromium], .undefinedBehaviour fault, false⟩
  | .ok true => ⟨[.edge_chromium], .returned .edge_chromium, true⟩
  | .ok false =>
    match edge_html.embed P with
    | .error e => ⟨[.edge_chromium, .edge_html], .raised e, false⟩
    | .ok _ => ⟨[.edge_chromium, .edge_html], .returned .edge_html, true⟩

/-! ## Theorems -/

/-! ### The registry -/

theorem mapFind_mapAssign_self {β : Type} (m : List (String × β)) (k : String) (v : β) :
    mapFind (mapAssign m k v) k = some v := by
  induction m with
  | nil => simp [mapAssign, mapFind]
  | cons e rest ih =>
    obtain ⟨k', v'⟩ := e
    by_cases h : k' = k
    · simp [mapAssign, mapFind, h]
    · simp [mapAssign, mapFind, h, ih]

theorem mapFind_mapAssign_ne {β : Type} (m : List (String × β)) (k k' : String) (v : β)
    (hne : k' ≠ k) : mapFind (mapAssign m k v) k' = mapFind m k' := by
  induction m with
  | nil => simp [mapAssign, mapFind, Ne.symm hne]
  | cons e rest ih =>
    obtain ⟨k₀, v₀⟩ := e
    by_cases h : k₀ = k
    · subst h
      simp [mapAssign, mapFind, Ne.symm hne]
    · by_cases h' : k₀ = k'
      · subst h'
        simp [mapAssign, mapFind, h]
      · simp [mapAssign, mapFind, h, h', ih]

theorem mapAssign_keys_mem {β : Type} (m : List (String × β)) (k k' : String) (v : β) :
    k' ∈ (mapAssign m k v).map Prod.fst ↔ k' = k ∨ k' ∈ m.map Prod.fst := by
  induction m with
  | nil => simp [mapAssign]
  | cons e rest ih =>
    obtain ⟨k₀, v₀⟩ := e
    by_cases h : k₀ = k
    · subst h
      simp [mapAssign]
    · simp only [mapAssign, h, if_false, List.map_cons, List.mem_cons, ih]
      tauto

theorem mapAssign_nodup {β : Type} (m : List (String × β)) (k : String) (v : β)
    (hm : (m.map Prod.fst).Nodup) : ((mapAssign m k v).map Prod.fst).Nodup := by
  induction m with
  | nil => simp [mapAssign]
  | cons e rest ih =>
    obtain ⟨k₀, v₀⟩ := e
    rw [List.map_cons, List.nodup_cons] at hm
    by_cases h : k₀ = k
    · subst h
      simpa [mapAssign] using hm
    · simp only [mapAssign, h, if_false, List.map_cons, List.nodup_cons]
      refine ⟨?_, ih hm.2⟩
      rw [mapAssign_keys_mem]
      rintro (h' | h')
      · exact h h'
      · exact hm.1 h'

theorem mapCount_of_nodup {β : Type} (m : List (String × β)) (k : String)
    (hm : (m.map Prod.fst).Nodup) :
    mapCount m k = if (mapFind m k).isSome then 1 else 0 := by
  induction m with
  | nil => simp [mapCount, mapFind]
  | cons e rest ih =>
    obtain ⟨k₀, v₀⟩ := e
    rw [List.map_cons, List.nodup_cons] at hm
    have ih' := ih hm.2
    by_cases h : k₀ = k
    · subst h
      have hnone : mapFind rest k₀ = none := by
        cases hf : mapFind rest k₀ with
        | none => rfl
        | some v =>
          exfalso
          apply hm.1
          clear ih ih' hm
          induction rest with
          | nil => simp [mapFind] at hf
          | cons e' r ihr =>
            obtain ⟨k₁, v₁⟩ := e'
            by_cases h1 : k₁ = k₀
            · simp [h1]
            · simp only [mapFind, h1, if_false] at hf
              simp [ihr hf]
      simp only [mapCount] at ih' ⊢
      simp [mapFind, List.filter_cons, ih', hnone]
    · simp only [mapCount] at ih' ⊢
      simp [mapFind, List.filter_cons, h, ih']



theorem mapFind_append {β : Type} (m₁ m₂ : List (String × β)) (k : String) :
    mapFind (m₁ ++ m₂) k =
      match mapFind m₁ k with
      | some v => some v
      | none => mapFind m₂ k := by
  induction m₁ with
  | nil => simp [mapFind]
  | cons e rest ih =>
    obtain ⟨k₀, v₀⟩ := e
    by_cases h : k₀ = k
    · simp [mapFind, h]
    · simp [mapFind, h, ih]

theorem registerAll_nodup {H C : Type} (regs : List (String × (H × C))) (w : webview H C)
    (hw : (w.bindings.map Prod.fst).Nodup) :
    (((w.registerAll regs).bindings).map Prod.fst).Nodup := by
  induction regs generalizing w with
  | nil => simpa [webview.registerAll] using hw
  | cons r rs ih =>
    obtain ⟨n, f, a⟩ := r
    simp only [webview.registerAll]
    exact ih _ (mapAssign_nodup _ _ _ hw)

theorem registerAll_find {H C : Type} (regs : List (String × (H × C))) (w : webview H C)
    (name : String) :
    mapFind (w.registerAll regs).bindings name =
      match lastRegistered regs name with
      | some v => some v
      | none => mapFind w.bindings name := by
  induction regs generalizing w with
  | nil => simp [webview.registerAll, lastRegistered, mapFind]
  | cons r rs ih =>
    obtain ⟨n, f, a⟩ := r
    simp only [webview.registerAll, ih, lastRegistered, List.reverse_cons, mapFind_append]
    cases hfind : mapFind rs.reverse name with
    | some v => simp
    | none =>
      by_cases h : n = name
      · subst h
        simp [webview.ipc, mapFind, mapFind_mapAssign_self]
      · simp [webview.ipc, mapFind, h, mapFind_mapAssign_ne _ _ _ _ (Ne.symm h)]

theorem on_message_of_parts {H C : Type} (w : webview H C) (msg tag seq name args : String)
    (rest : List String) (hparts : split msg ';' = tag :: seq :: name :: args :: rest) :
    w.on_message msg =
      match mapFind w.bindings name with
      | none => .ok (w, [])
      | some fn => .ok (w, [Action.call fn.1 seq args fn.2]) := by
  simp only [webview.on_message, invokeFields, hparts, vectorAt, List.get?, bind, Except.bind,
    pure, Except.pure]

/-- C1. A message with fewer than four parts makes `webview::on_message` read
its split result out of range: it ends in the fault of an unchecked
`operator[]`, not in a reported decode failure. -/
theorem on_message_short_out_of_range {H C : Type} (w : webview H C) (msg : String)
    (hshort : (split msg ';').length < 4) :
    ∃ i, i < 4 ∧ w.on_message msg = .error (Fault.outOfRange i (split msg ';').length) := by
  simp only [webview.on_message, invokeFields]
  generalize split msg ';' = parts at hshort
  match parts, hshort with
  | [], _ => exact ⟨1, by decide, rfl⟩
  | [_], _ => exact ⟨1, by decide, rfl⟩
  | [_, _], _ => exact ⟨2, by decide, rfl⟩
  | [_, _, _], _ => exact ⟨3, by decide, rfl⟩
  | _ :: _ :: _ :: _ :: _, h => exact absurd h (by simp only [List.length_cons]; omega)

/-- C1, at the message `ipc;1;add` with the binding `add` registered: three
parts, and the read of part 3 is out of range. -/
theorem on_message_short_witness :
    (split "ipc;1;add" ';').length < 4 ∧
      ∃ i, i < 4 ∧ ((webview.create Nat Nat).ipc "add" 0 0).1.on_message "ipc;1;add" =
        .error (Fault.outOfRange i (split "ipc;1;add" ';').length) :=
  ⟨by decide, on_message_short_out_of_range _ _ (by decide)⟩

/-- C2. An Invoke with at least four fields whose name is not registered is
dropped: `webview::on_message` returns without a fault, calls no handler,
dispatches nothing, and leaves the registry as it was. -/
theorem on_message_unknown_dropped {H C : Type} (w : webview H C)
    (msg tag seq name args : String) (rest : List String)
    (hparts : split msg ';' = tag :: seq :: name :: args :: rest)
    (hunknown : mapFind w.bindings name = none) :
    w.on_message msg = .ok (w, []) := by
  rw [on_message_of_parts w msg tag seq name args rest hparts, hunknown]

/-- C2, at the message of the spec: sequence 5, the name `doesNotExist`, with
only `add` registered. -/
theorem on_message_unknown_witness :
    split "ipc;5;doesNotExist;W10=" ';' = ["ipc", "5", "doesNotExist", "W10="] ∧
    mapFind ((webview.create Nat Nat).ipc "add" 0 0).1.bindings "doesNotExist" = none ∧
    ((webview.create Nat Nat).ipc "add" 0 0).1.on_message "ipc;5;doesNotExist;W10=" =
      .ok (((webview.create Nat Nat).ipc "add" 0 0).1, []) :=
  ⟨by decide, by decide,
    on_message_unknown_dropped _ _ "ipc" "5" "doesNotExist" "W10=" [] (by decide) (by decide)⟩

/-- C3. After any registrations, names are unique keys of the registry and a
name is bound to its last registration; and after `ipc(name, f1, a1)` followed
by `ipc(name, f2, a2)` the registry holds one entry for `name`, and a
well-formed Invoke for `name` calls `f2` with `a2` and nothing else. -/
theorem registry_last_registration_wins {H C : Type} (regs : List (String × (H × C)))
    (name : String) (f1 f2 : H) (a1 a2 : C) :
    (((webview.create H C).registerAll regs).bindings.map Prod.fst).Nodup ∧
    (∀ n, mapFind ((webview.create H C).registerAll regs).bindings n = lastRegistered regs n) ∧
    mapCount ((((webview.create H C).registerAll regs).ipc name f1 a1).1.ipc name f2 a2).1.bindings
      name = 1 ∧
    (∀ msg tag seq args, split msg ';' = [tag, seq, name, args] →
      ((((webview.create H C).registerAll regs).ipc name f1 a1).1.ipc name f2 a2).1.on_message msg =
        .ok (((((webview.create H C).registerAll regs).ipc name f1 a1).1.ipc name f2 a2).1,
          [Action.call f2 seq args a2])) := by
  have hnodup := registerAll_nodup regs (webview.create H C) (by simp [webview.create])
  refine ⟨hnodup, ?_, ?_, ?_⟩
  · intro n
    rw [registerAll_find]
    cases lastRegistered regs n <;> simp [webview.create, mapFind]
  · have h2 := mapAssign_nodup _ name (f2, a2) (mapAssign_nodup _ name (f1, a1) hnodup)
    rw [show ((((webview.create H C).registerAll regs).ipc name f1 a1).1.ipc name f2 a2).1.bindings
      = mapAssign (mapAssign ((webview.create H C).registerAll regs).bindings name (f1, a1))
          name (f2, a2) from rfl]
    rw [mapCount_of_nodup _ _ h2, mapFind_mapAssign_self]
    rfl
  · intro msg tag seq args hparts
    rw [on_message_of_parts _ msg tag seq name args [] hparts]
    rw [show ((((webview.create H C).registerAll regs).ipc name f1 a1).1.ipc name f2 a2).1.bindings
      = mapAssign (mapAssign ((webview.create H C).registerAll regs).bindings name (f1, a1))
          name (f2, a2) from rfl]
    rw [mapFind_mapAssign_self]

/-! ### Base64 -/

theorem base64Char_plain : ∀ i, i < 64 →
    base64Char i ≠ '=' ∧ isAsciiWhitespace (base64Char i) = false ∧ base64Char i ≠ ';' := by
  decide

theorem base64Encode_eq (bytes : List Nat) :
    base64Encode bytes = (sextets bytes).map base64Char ++ padding bytes := by
  induction bytes using base64Encode.induct with
  | case1 => rfl
  | case2 a => rfl
  | case3 a b => rfl
  | case4 a b c rest ih => simp [base64Encode, sextets, padding, ih]

theorem sextets_length_padding (bytes : List Nat) :
    ((sextets bytes).length + (padding bytes).length) % 4 = 0 ∧
    (sextets bytes).length % 4 ≠ 1 ∧
    (padding bytes = [] ∨ padding bytes = ['='] ∨ padding bytes = ['=', '=']) := by
  induction bytes using base64Encode.induct with
  | case1 => simp [sextets, padding]
  | case2 a => simp [sextets, padding]
  | case3 a b => simp [sextets, padding]
  | case4 a b c rest ih =>
    simp only [sextets, padding, List.length_cons]
    refine ⟨by omega, by omega, ih.2.2⟩

theorem splitChars_ne_nil (c : Char) (s : List Char) : splitChars c s ≠ [] := by
  cases s with
  | nil => simp [splitChars]
  | cons n s =>
    simp only [splitChars]
    split
    · simp
    · split <;> simp

theorem splitChars_of_not_mem (c : Char) (a : List Char) (h : c ∉ a) :
    splitChars c a = [a] := by
  induction a with
  | nil => rfl
  | cons n s ih =>
    have hn : n ≠ c := fun e => h (by simp [e])
    have hs : c ∉ s := fun e => h (by simp [e])
    simp [splitChars, hn, ih hs]

theorem splitChars_append (c : Char) (a b : List Char) (h : c ∉ a) :
    splitChars c (a ++ c :: b) = a :: splitChars c b := by
  induction a with
  | nil => simp [splitChars]
  | cons n s ih =>
    have hn : n ≠ c := fun e => h (by simp [e])
    have hs : c ∉ s := fun e => h (by simp [e])
    simp [splitChars, hn, ih hs]

/-! ### Decimal numerals -/

theorem digitChar_isDigit (d : Nat) (h : d < 10) : (Nat.digitChar d).isDigit = true := by
  interval_cases d <;> decide

theorem toDigitsCore_isDigit (fuel n : Nat) (acc : List Char)
    (hacc : ∀ c ∈ acc, c.isDigit = true) :
    ∀ c ∈ Nat.toDigitsCore 10 fuel n acc, c.isDigit = true := by
  induction fuel generalizing n acc with
  | zero => simpa [Nat.toDigitsCore] using hacc
  | succ f ih =>
    have hd := digitChar_isDigit (n % 10) (Nat.mod_lt _ (by decide))
    have hacc' : ∀ c ∈ Nat.digitChar (n % 10) :: acc, c.isDigit = true := by
      intro c hc
      rcases List.mem_cons.mp hc with h | h
      · rw [h]; exact hd
      · exact hacc c h
    simp only [Nat.toDigitsCore]
    split
    · exact hacc'
    · exact ih _ _ hacc'

theorem toString_nat_isDigit (n : Nat) : ∀ c ∈ (toString n).data, c.isDigit = true := by
  show ∀ c ∈ (Nat.repr n).data, c.isDigit = true
  simp only [Nat.repr, Nat.toDigits, List.asString]
  exact toDigitsCore_isDigit _ _ [] (by simp)

theorem toString_nat_no_semicolon (n : Nat) : ';' ∉ (toString n).data := by
  intro h
  have := toString_nat_isDigit n _ h
  exact absurd this (by decide)

theorem base64Char_ne_semicolon (i : Nat) : base64Char i ≠ ';' := by
  by_cases h : i < 64
  · exact (base64Char_plain i h).2.2
  · have h26 : ¬ i < 26 := by omega
    have h52 : ¬ i < 52 := by omega
    have h62 : ¬ i < 62 := by omega
    have hne : i ≠ 62 := by omega
    simp only [base64Char, h26, h52, h62, hne, if_false]
    decide

theorem base64Encode_no_semicolon (bytes : List Nat) : ';' ∉ base64Encode bytes := by
  rw [base64Encode_eq]
  intro h
  rw [List.mem_append] at h
  rcases h with h | h
  · rw [List.mem_map] at h
    obtain ⟨x, _, hx⟩ := h
    exact base64Char_ne_semicolon x hx
  · rcases (sextets_length_padding bytes).2.2 with hp | hp | hp <;> rw [hp] at h <;>
      simp at h

theorem btoa_no_semicolon (s encoded : String) (h : btoa s = .ok encoded) :
    ';' ∉ encoded.data := by
  unfold btoa at h
  split at h
  · injection h with h
    subst h
    exact base64Encode_no_semicolon _
  · cases h

/-- The fields of an Invoke message whose name holds no `;`. -/
theorem split_invoke (seq : Nat) (name encoded : String) (hname : ';' ∉ name.data)
    (henc : ';' ∉ encoded.data) :
    split ("ipc;" ++ toString seq ++ ";" ++ name ++ ";" ++ encoded) ';' =
      ["ipc", toString seq, name, encoded] := by
  have h1 : ("ipc;" ++ toString seq ++ ";" ++ name ++ ";" ++ encoded).data =
      ['i', 'p', 'c'] ++ ';' :: ((toString seq).data ++ ';' :: (name.data ++ ';' :: encoded.data)) := by
    simp [String.data_append]
  simp only [split, h1]
  rw [splitChars_append _ _ _ (by decide), splitChars_append _ _ _ (toString_nat_no_semicolon seq),
    splitChars_append _ _ _ hname, splitChars_of_not_mem _ _ henc]
  rfl

/-! ### The stub -/

theorem stubCall_other_name (ipc : IPC) (name : String) (value : JSValue)
    (hname : name ≠ "contextMenu") :
    (stubCall name value ipc).2.2 =
      match btoa value.stringify with
      | .error e => StubOutcome.rejected e
      | .ok encoded =>
        StubOutcome.posted ("ipc;" ++ toString ipc.nextSeq ++ ";" ++ name ++ ";" ++ encoded) := by
  unfold stubCall
  simp only [hname, if_false]
  split <;> simp_all

theorem foldl_runStub (names : List String) (p : Page) :
    names.foldl Page.runStub p =
      ⟨if names = [] then p.ipc else some (p.ipc.getD IPC.initial), names.reverse ++ p.bound⟩ := by
  induction names generalizing p with
  | nil => simp
  | cons n ns ih =>
    rw [List.foldl_cons, ih]
    by_cases h : ns = [] <;> simp [Page.runStub, h]

theorem load_eq (names : List String) :
    Page.load names = ⟨if names = [] then none else some IPC.initial, names.reverse⟩ := by
  simp [Page.load, foldl_runStub, Page.fresh]

theorem joinStrings_data (c : Char) (items : List String) (hne : items ≠ [])
    (hclean : ∀ i ∈ items, c ∉ i.data) :
    splitChars c (joinStrings (String.mk [c]) items).data = items.map String.data := by
  induction items with
  | nil => exact absurd rfl hne
  | cons x rest ih =>
    have hx := hclean x (by simp)
    cases rest with
    | nil =>
      simp only [joinStrings, List.map_cons, List.map_nil]
      exact splitChars_of_not_mem c _ hx
    | cons y xs =>
      have ih' := ih (by simp) (fun i hi => hclean i (by simp [hi]))
      simp only [joinStrings, String.data_append, List.append_assoc, List.map_cons]
      rw [show ([c] ++ (joinStrings (String.mk [c]) (y :: xs)).data) =
        c :: (joinStrings (String.mk [c]) (y :: xs)).data from rfl,
        splitChars_append c _ _ hx, ih']
      rfl

theorem dropWhile_of_head {α : Type} (p : α → Bool) (l : List α)
    (h : ∀ c, l.head? = some c → p c = false) : l.dropWhile p = l := by
  cases l with
  | nil => rfl
  | cons a as => simp [List.dropWhile, h a rfl]

theorem trim_item (k v : String) (hk : ∀ c, k.data.head? = some c → isBlank c = false)
    (hv : ∀ c, v.data.getLast? = some c → isBlank c = false) :
    trim (k ++ ":" ++ v) = k ++ ":" ++ v := by
  have hdata : (k ++ ":" ++ v).data = k.data ++ ':' :: v.data := by
    simp [String.data_append]
  have h1 : (k.data ++ ':' :: v.data).dropWhile isBlank = k.data ++ ':' :: v.data := by
    apply dropWhile_of_head
    intro c hc
    cases hkd : k.data with
    | nil =>
      rw [hkd] at hc
      simp at hc
      subst hc
      decide
    | cons a as =>
      rw [hkd] at hc
      simp at hc
      subst hc
      exact hk a (by rw [hkd]; rfl)
  have h2 : ((k.data ++ ':' :: v.data).reverse).dropWhile isBlank =
      (k.data ++ ':' :: v.data).reverse := by
    apply dropWhile_of_head
    intro c hc
    rw [List.head?_reverse] at hc
    rw [List.getLast?_append] at hc
    cases hvd : v.data.getLast? with
    | none =>
      have : v.data = [] := by simpa using hvd
      rw [this] at hc
      simp at hc
      subst hc
      decide
    | some b =>
      have hl : (':' :: v.data).getLast? = some b := by
        rw [List.getLast?_cons, hvd]
        rfl
      rw [hl] at hc
      simp at hc
      subst hc
      exact hv b hvd
  show String.mk _ = _
  rw [hdata, h1, h2, List.reverse_reverse, ← hdata]

theorem contextMenuItem_pair (k v : String) (hk : ':' ∉ k.data) (hv : ':' ∉ v.data)
    (htrim : trim (k ++ ":" ++ v) = k ++ ":" ++ v) :
    contextMenuItem (k ++ ":" ++ v) = .ok (k, v, occursIn "---".data k.data) := by
  have hdata : (k ++ ":" ++ v).data = k.data ++ ':' :: v.data := by
    simp [String.data_append]
  have hsplit : split (k ++ ":" ++ v) ':' = [k, v] := by
    simp only [split, hdata]
    rw [splitChars_append _ _ _ hk, splitChars_of_not_mem _ _ hv]
    rfl
  simp only [contextMenuItem, htrim, hsplit]
  rfl

theorem mapM_except_ok {α β ε : Type} (f : α → Except ε β) (g : α → β) (xs : List α)
    (h : ∀ x ∈ xs, f x = .ok (g x)) : xs.mapM f = .ok (xs.map g) := by
  induction xs with
  | nil => rfl
  | cons x xs ih =>
    rw [List.mapM_cons, h x (by simp), ih (fun y hy => h y (by simp [hy]))]
    rfl

/-- The text of an entry of the argument object: the key, `:` and the value. -/
theorem encodeContextMenu_strings (entries : List (String × String)) :
    encodeContextMenu (JSValue.obj (entries.map (fun e => (e.1, JSValue.str e.2)))) =
      .ok (joinStrings "_" (entries.map (fun e => e.1 ++ ":" ++ e.2))) := by
  simp only [encodeContextMenu, objectEntries, List.map_map]
  congr 2


/-- C6, as amended. For every argument object with at least one entry whose
keys and values are strings that hold neither `_` nor `:`, with no blank at
the start of a key or at the end of a value: the `contextMenu` stub posts the
entries as `key:value` joined with `_`, and `Window::setContextMenu` reads the
same pairs back from that payload, in the same order. -/
theorem context_menu_round_trip (ipc : IPC) (entries : List (String × String))
    (hne : entries ≠ [])
    (hclean : ∀ e ∈ entries, '_' ∉ e.1.data ∧ ':' ∉ e.1.data ∧ '_' ∉ e.2.data ∧ ':' ∉ e.2.data)
    (hblank : ∀ e ∈ entries, (∀ c, e.1.data.head? = some c → isBlank c = false) ∧
      (∀ c, e.2.data.getLast? = some c → isBlank c = false)) :
    (stubCall "contextMenu" (JSValue.obj (entries.map (fun e => (e.1, JSValue.str e.2)))) ipc).2.2 =
      StubOutcome.posted ("ipc;" ++ toString ipc.nextSeq ++ ";" ++ "contextMenu" ++ ";" ++
        joinStrings "_" (entries.map (fun e => e.1 ++ ":" ++ e.2))) ∧
    contextMenuPairs (joinStrings "_" (entries.map (fun e => e.1 ++ ":" ++ e.2))) =
      .ok entries := by
  constructor
  · unfold stubCall
    simp only [if_true, encodeContextMenu_strings]
  · have hsplit : split (joinStrings "_" (entries.map (fun e => e.1 ++ ":" ++ e.2))) '_' =
        entries.map (fun e => e.1 ++ ":" ++ e.2) := by
      simp only [split]
      rw [show ("_" : String) = String.mk ['_'] from rfl, joinStrings_data '_' _ (by simpa using hne)]
      · rw [List.map_map, List.map_map]
        conv_rhs => rw [← List.map_id (List.map (fun e => e.1 ++ ":" ++ e.2) entries),
          List.map_map]
        apply List.map_congr_left
        intro e _
        rfl
      · intro i hi
        rw [List.mem_map] at hi
        obtain ⟨e, he, rfl⟩ := hi
        obtain ⟨h1, _, h3, _⟩ := hclean e he
        simp [String.data_append, h1, h3]
    simp only [contextMenuPairs, hsplit]
    rw [mapM_except_ok _ (fun item => ((split item ':').getD 0 "", (split item ':').getD 1 ""))]
    · rw [List.map_map]
      congr 1
      conv_rhs => rw [← List.map_id entries]
      apply List.map_congr_left
      intro e he
      obtain ⟨_, h2, _, h4⟩ := hclean e he
      have hdata : (e.1 ++ ":" ++ e.2).data = e.1.data ++ ':' :: e.2.data := by
        simp [String.data_append]
      have hs : split (e.1 ++ ":" ++ e.2) ':' = [e.1, e.2] := by
        simp only [split, hdata]
        rw [splitChars_append _ _ _ h2, splitChars_of_not_mem _ _ h4]
        rfl
      simp [hs]
    · intro item hi
      rw [List.mem_map] at hi
      obtain ⟨e, he, rfl⟩ := hi
      obtain ⟨_, h2, _, h4⟩ := hclean e he
      obtain ⟨hb1, hb2⟩ := hblank e he
      have hdata : (e.1 ++ ":" ++ e.2).data = e.1.data ++ ':' :: e.2.data := by
        simp [String.data_append]
      have hs : split (e.1 ++ ":" ++ e.2) ':' = [e.1, e.2] := by
        simp only [split, hdata]
        rw [splitChars_append _ _ _ h2, splitChars_of_not_mem _ _ h4]
        rfl
      rw [contextMenuItem_pair _ _ h2 h4 (trim_item _ _ hb1 hb2), hs]
      rfl

/-- C6, at the items of the spec: `Copy` with `Cmd+C` and `Paste` with
`Cmd+V`. -/
theorem context_menu_round_trip_witness :
    (stubCall "contextMenu"
        (JSValue.obj [("Copy", .str "Cmd+C"), ("Paste", .str "Cmd+V")]) IPC.initial).2.2 =
      StubOutcome.posted "ipc;1;contextMenu;Copy:Cmd+C_Paste:Cmd+V" ∧
    contextMenuPairs "Copy:Cmd+C_Paste:Cmd+V" = .ok [("Copy", "Cmd+C"), ("Paste", "Cmd+V")] :=
  context_menu_round_trip IPC.initial [("Copy", "Cmd+C"), ("Paste", "Cmd+V")] (by decide)
    (by decide) (by decide)

/-- C6 as stated fails at the object with the one entry `a_b` ↦ `c`: the
payload is `a_b:c`, and `Window::setContextMenu` reads two items from it, `a`
with no key and `b` with `c`. Likewise a `:` in a value cuts the value, the
empty object is read as one empty item, and blanks around an item are lost. -/
theorem context_menu_delimiter :
    encodeContextMenu (JSValue.obj [("a_b", .str "c")]) = .ok "a_b:c" ∧
    contextMenuPairs "a_b:c" = .ok [("a", ""), ("b", "c")] ∧
    contextMenuPairs "a_b:c" ≠ .ok [("a_b", "c")] ∧
    encodeContextMenu (JSValue.obj [("a", .str "b:c")]) = .ok "a:b:c" ∧
    contextMenuPairs "a:b:c" = .ok [("a", "b")] ∧
    encodeContextMenu (JSValue.obj []) = .ok "" ∧
    contextMenuPairs "" = .ok [("", "")] ∧
    encodeContextMenu (JSValue.obj [(" a", .str "b ")]) = .ok " a:b " ∧
    contextMenuPairs " a:b " = .ok [("a", "b")] := by
  decide

/-! ### The resolve script -/

theorem resolveData_fields (scope status seq payload : String)
    (hscope : ';' ∉ scope.data) (hstatus : ';' ∉ status.data) (hseq : ';' ∉ seq.data)
    (hpayload : ';' ∉ payload.data)
    (htrim : jsTrim (resolveMessage scope status seq payload) =
      resolveMessage scope status seq payload) :
    resolveData (resolveMessage scope status seq payload) = [scope, status, seq, payload] := by
  have hdata : (resolveMessage scope status seq payload).data =
      scope.data ++ ';' :: (status.data ++ ';' :: (seq.data ++ ';' :: payload.data)) := by
    simp [resolveMessage, String.data_append]
  simp only [resolveData, htrim, jsSplit, hdata]
  rw [splitChars_append _ _ _ hscope, splitChars_append _ _ _ hstatus,
    splitChars_append _ _ _ hseq, splitChars_of_not_mem _ _ hpayload]
  rfl

theorem runResolve_settles {V : Type} (E : JSEngine V) (text : String) (p : Page) (ipc : IPC)
    (k : Nat) (value : Settlement V) (hipc : p.ipc = some ipc)
    (hseq : E.Number ((resolveData text).get? 2) = JSNumber.int k)
    (hpending : ipc.pending k = true)
    (hvalue : resolveValue E (decide ((resolveData text).get? 0 = some "internal"))
      ((resolveData text).get? 3) = .ok value) :
    runResolve E text p =
      (⟨some (ipc.set k Slot.undefined), p.bound⟩,
        ScriptResult.settled k
          (if E.Number ((resolveData text).get? 1) = JSNumber.int 0 then Method.resolve
            else Method.reject) value) := by
  unfold runResolve
  simp only [hvalue, hipc, hseq]
  show (if ipc.pending k = true then _ else _) = _
  rw [if_pos hpending]

/-- C7, as amended. For every Resolve message `scope;status;seq;payload`
whose fields hold no `;`, with no white space at its start or end, nothing
special for a template literal and no NUL, and whose `seq` names a pending
call: the script calls `resolve` of that call when `Number(status)` is 0 and
`reject` otherwise, with the payload as a raw string when the scope is
`internal`, and with `JSON.parse(atob(payload))` when the scope is another one
and the payload decodes; then the entry of the call is `undefined`. -/
theorem resolve_decoding {V : Type} (E : JSEngine V) (scope status seq payload : String)
    (p : Page) (ipc : IPC) (k : Nat)
    (hfields : ';' ∉ scope.data ∧ ';' ∉ status.data ∧ ';' ∉ seq.data ∧ ';' ∉ payload.data)
    (htrim : jsTrim (resolveMessage scope status seq payload) =
      resolveMessage scope status seq payload)
    (hplain : templateLiteral (resolveMessage scope status seq payload) =
      some (resolveMessage scope status seq payload))
    (hnul : hasNul (resolveMessage scope status seq payload) = false)
    (hipc : p.ipc = some ipc) (hseq : E.Number (some seq) = JSNumber.int k)
    (hpending : ipc.pending k = true) :
    (scope = "internal" →
      resolveScript E (resolveMessage scope status seq payload) p =
        some (⟨some (ipc.set k Slot.undefined), p.bound⟩,
          ScriptResult.settled k
            (if E.Number (some status) = JSNumber.int 0 then Method.resolve else Method.reject)
            (Settlement.raw payload))) ∧
    (scope ≠ "internal" → ∀ text v, atob payload = .ok text → E.parse text = some v →
      resolveScript E (resolveMessage scope status seq payload) p =
        some (⟨some (ipc.set k Slot.undefined), p.bound⟩,
          ScriptResult.settled k
            (if E.Number (some status) = JSNumber.int 0 then Method.resolve else Method.reject)
            (Settlement.json v))) := by
  obtain ⟨h1, h2, h3, h4⟩ := hfields
  have hdata := resolveData_fields scope status seq payload h1 h2 h3 h4 htrim
  constructor
  · intro hscope
    simp only [resolveScript, hplain, Option.map_some', hnul, Bool.false_eq_true, if_false]
    rw [runResolve_settles E _ p ipc k (Settlement.raw payload) hipc (by rw [hdata]; exact hseq)
      hpending (by rw [hdata]; simp [hscope, resolveValue])]
    simp [hdata]
  · intro hscope text v hatob hparse
    simp only [resolveScript, hplain, Option.map_some', hnul, Bool.false_eq_true, if_false]
    rw [runResolve_settles E _ p ipc k (Settlement.json v) hipc (by rw [hdata]; exact hseq)
      hpending (by rw [hdata]; simp [hscope, resolveValue, toDOMString, hatob, hparse])]
    simp [hdata]

/-- C7, at the Resolve message of the spec, `external;0;1;` with base64 of
`5`, and call 1 pending: call 1 is resolved with the value 5. -/
theorem resolve_decoding_witness :
    resolveScript exampleEngine (resolveMessage "external" "0" "1" "NQ==") examplePage =
      some (⟨some ⟨2, [(1, Slot.undefined)]⟩, ["add"]⟩,
        ScriptResult.settled 1 Method.resolve (Settlement.json (JSValue.num 5))) :=
  (resolve_decoding exampleEngine "external" "0" "1" "NQ==" examplePage ⟨2, [(1, Slot.callbacks)]⟩ 1
    (by decide) (by decide) (by decide) (by decide) rfl (by decide) (by decide)).2 (by decide)
    "5" (JSValue.num 5) (by decide) rfl

/-- C7 as stated fails at the internal message with the payload `ok` followed
by a blank, call 1 pending: the script trims the message, and call 1 is
resolved with `ok`, not with the payload as it was sent. Likewise the payload
`a;b` is cut at its `;`, and call 1 is resolved with `a`. -/
theorem resolve_payload_trimmed :
    resolveScript exampleEngine (resolveMessage "internal" "0" "1" "ok ") examplePage =
      some (⟨some ⟨2, [(1, Slot.undefined)]⟩, ["add"]⟩,
        ScriptResult.settled 1 Method.resolve (Settlement.raw "ok")) ∧
    (Settlement.raw "ok" : Settlement JSValue) ≠ Settlement.raw "ok " ∧
    resolveScript exampleEngine (resolveMessage "internal" "0" "1" "a;b") examplePage =
      some (⟨some ⟨2, [(1, Slot.undefined)]⟩, ["add"]⟩,
        ScriptResult.settled 1 Method.resolve (Settlement.raw "a")) := by
  refine ⟨by rfl, ?_, by rfl⟩
  intro h
  injection h with h
  exact absurd h (by decide)

/-- C8. `webview_return` hands `result` alone to `resolve`, whatever `seq` and
`status` are; for the result `5` of the worked example of the spec the script
that is dispatched has the one field `5`, and in every context it raises the
`InvalidCharacterError` of `atob(undefined)`: no call is settled. -/
theorem webview_return_drops_seq_and_status {H C V : Type} (w : webview H C) (E : JSEngine V)
    (seq : String) (status : Int) (result : String) (p : Page) :
    webview_return w seq status result = (w, [Action.dispatch (resolveScriptText result)]) ∧
    resolveScript E "5" p = some (p, ScriptResult.threw JSError.invalidCharacter) := by
  refine ⟨rfl, ?_⟩
  have hlit : templateLiteral "5" = some "5" := by decide
  have hdata : resolveData "5" = ["5"] := by decide
  have hatob : atob "undefined" = .error JSError.invalidCharacter := by decide
  have hnul : hasNul "5" = false := by decide
  simp only [resolveScript, hlit, Option.map_some', hnul, Bool.false_eq_true, if_false,
    runResolve, hdata, resolveValue, toDOMString]
  simp [hatob]

/-! ### Settlement at most once -/

theorem tableSet_find (t : List (Nat × Slot)) (k k' : Nat) (v : Slot) :
    ((tableSet t k v).find? (fun e => e.1 = k')) =
      if k' = k then some (k, v) else t.find? (fun e => e.1 = k') := by
  induction t with
  | nil =>
    by_cases h : k' = k
    · simp [tableSet, h]
    · simp [tableSet, h, Ne.symm h]
  | cons e rest ih =>
    obtain ⟨k₀, v₀⟩ := e
    by_cases h0 : k₀ = k
    · subst h0
      by_cases h : k' = k₀
      · simp [tableSet, h]
      · simp [tableSet, h, Ne.symm h]
    · by_cases h : k' = k
      · subst h
        simp [tableSet, h0, ih]
      · by_cases h1 : k₀ = k'
        · simp [tableSet, h0, h, h1]
        · simp [tableSet, h0, h, h1, ih]

theorem IPC.get_set (ipc : IPC) (k k' : Nat) (v : Slot) :
    (ipc.set k v).get k' = if k' = k then some v else ipc.get k' := by
  simp only [IPC.get, IPC.set, tableSet_find]
  by_cases h : k' = k <;> simp [h]

theorem stubCall_table (name : String) (value : JSValue) (ipc : IPC) :
    (stubCall name value ipc).1 = (IPC.mk (ipc.nextSeq + 1) ipc.table).set ipc.nextSeq
      Slot.callbacks := by
  unfold stubCall
  simp only
  split
  · split <;> rfl
  · split <;> rfl

theorem runResolve_cases {V : Type} (E : JSEngine V) (text : String) (p : Page) :
    (∃ err, runResolve E text p = (p, ScriptResult.threw err)) ∨
    (∃ ipc k m v, p.ipc = some ipc ∧ ipc.pending k = true ∧
      E.Number ((resolveData text).get? 2) = JSNumber.int (Int.ofNat k) ∧
      runResolve E text p =
        (⟨some (ipc.set k Slot.undefined), p.bound⟩, ScriptResult.settled k m v)) := by
  unfold runResolve
  simp only
  cases hv : resolveValue E (decide ((resolveData text).get? 0 = some "internal"))
      ((resolveData text).get? 3) with
  | error e => exact Or.inl ⟨e, rfl⟩
  | ok value =>
    cases hipc : p.ipc with
    | none => exact Or.inl ⟨_, rfl⟩
    | some ipc =>
      cases hseq : E.Number ((resolveData text).get? 2) with
      | other => exact Or.inl ⟨_, rfl⟩
      | int n =>
        cases n with
        | negSucc m => exact Or.inl ⟨_, rfl⟩
        | ofNat k =>
          by_cases hp : ipc.pending k = true
          · refine Or.inr ⟨ipc, k, (if E.Number ((resolveData text).get? 1) = JSNumber.int 0 then
              Method.resolve else Method.reject), value, rfl, hp, rfl, ?_⟩
            simp [hp]
          · refine Or.inl ⟨JSError.typeError, ?_⟩
            simp [hp, hipc]

theorem step_invariants {V : Type} (E : JSEngine V) (p : Page) (ev : PageEvent)
    (hwf : p.keysBelowCounter) :
    (p.step E ev).1.keysBelowCounter ∧
    (∀ k, p.settledAt k → (p.step E ev).1.settledAt k ∧
      ∀ r, (p.step E ev).2 = some r → r.settles k = false) ∧
    (∀ k r, (p.step E ev).2 = some r → r.settles k = true → (p.step E ev).1.settledAt k) := by
  cases ev with
  | invoke name value =>
    simp only [Page.step, Page.invoke]
    by_cases hb : name ∈ p.bound
    · cases hipc : p.ipc with
      | none =>
        simp only [hb, if_true]
        exact ⟨hwf, fun k hk => ⟨hk, fun r hr => by cases hr⟩, fun k r hr => by cases hr⟩
      | some ipc =>
        simp only [hb, if_true, stubCall_table]
        refine ⟨?_, ?_, fun k r hr => by cases hr⟩
        · intro ipc' hipc' k hk
          injection hipc' with hipc'
          subst hipc'
          rw [IPC.get_set] at hk
          by_cases hkk : k = ipc.nextSeq
          · show k < ipc.nextSeq + 1
            omega
          · rw [if_neg hkk] at hk
            have := hwf ipc hipc k hk
            show k < ipc.nextSeq + 1
            omega
        · intro k hk
          refine ⟨?_, fun r hr => by cases hr⟩
          obtain ⟨ipc', hipc', hget⟩ := hk
          rw [hipc] at hipc'
          injection hipc' with hipc'
          subst hipc'
          refine ⟨_, rfl, ?_⟩
          rw [IPC.get_set]
          have hlt := hwf ipc hipc k (by rw [hget]; simp)
          have hne : k ≠ ipc.nextSeq := by omega
          rw [if_neg hne]
          exact hget
    · simp only [hb, if_false]
      exact ⟨hwf, fun k hk => ⟨hk, fun r hr => by cases hr⟩, fun k r hr => by cases hr⟩
  | resolve text =>
    simp only [Page.step]
    rcases runResolve_cases E text p with ⟨err, herr⟩ | ⟨ipc, k, m, v, hipc, hpend, _, hrun⟩
    · rw [herr]
      refine ⟨hwf, fun k hk => ⟨hk, fun r hr => ?_⟩, fun k r hr hs => ?_⟩
      · injection hr with hr
        subst hr
        rfl
      · injection hr with hr
        subst hr
        cases hs
    · rw [hrun]
      have hget : ipc.get k = some Slot.callbacks := by
        simpa [IPC.pending] using hpend
      refine ⟨?_, ?_, ?_⟩
      · intro ipc' hipc' k' hk'
        injection hipc' with hipc'
        subst hipc'
        rw [IPC.get_set] at hk'
        by_cases hkk : k' = k
        · subst hkk
          exact hwf ipc hipc k' (by rw [hget]; simp)
        · rw [if_neg hkk] at hk'
          exact hwf ipc hipc k' hk'
      · intro k' hk'
        obtain ⟨ipc', hipc', hget'⟩ := hk'
        rw [hipc] at hipc'
        injection hipc' with hipc'
        subst hipc'
        have hne : k ≠ k' := by
          intro h
          subst h
          rw [hget] at hget'
          cases hget'
        refine ⟨⟨_, rfl, ?_⟩, fun r hr => ?_⟩
        · rw [IPC.get_set, if_neg (Ne.symm hne)]
          exact hget'
        · injection hr with hr
          subst hr
          simp [ScriptResult.settles, hne]
      · intro k' r hr hs
        injection hr with hr
        subst hr
        have hk : k = k' := by simpa [ScriptResult.settles] using hs
        subst hk
        exact ⟨_, rfl, by rw [IPC.get_set, if_pos rfl]⟩

theorem run_settled_never_again {V : Type} (E : JSEngine V) (evs : List PageEvent) (p : Page)
    (k : Nat) (hwf : p.keysBelowCounter) (hk : p.settledAt k) :
    ((p.run E evs).2.filter (ScriptResult.settles k)).length = 0 := by
  induction evs generalizing p with
  | nil => simp [Page.run]
  | cons ev evs ih =>
    obtain ⟨hwf', hkeep, _⟩ := step_invariants E p ev hwf
    obtain ⟨hk', hno⟩ := hkeep k hk
    have ih' := ih (p.step E ev).1 hwf' hk'
    simp only [Page.run]
    cases hr : (p.step E ev).2 with
    | none => simpa using ih'
    | some r =>
      simp only [List.filter_cons, hno r hr]
      simpa using ih'

theorem run_settles_at_most_once {V : Type} (E : JSEngine V) (evs : List PageEvent) (p : Page)
    (k : Nat) (hwf : p.keysBelowCounter) :
    ((p.run E evs).2.filter (ScriptResult.settles k)).length ≤ 1 := by
  induction evs generalizing p with
  | nil => simp [Page.run]
  | cons ev evs ih =>
    obtain ⟨hwf', _, hset⟩ := step_invariants E p ev hwf
    simp only [Page.run]
    cases hr : (p.step E ev).2 with
    | none => simpa using ih (p.step E ev).1 hwf'
    | some r =>
      by_cases hs : r.settles k = true
      · have := run_settled_never_again E evs (p.step E ev).1 k hwf' (hset k r hr hs)
        simp only [List.filter_cons, hs, if_true, List.length_cons]
        simp only [List.length_eq_zero] at this
        simp [this]
      · simp only [List.filter_cons, hs]
        simpa using ih (p.step E ev).1 hwf'

theorem load_keysBelowCounter (names : List String) : (Page.load names).keysBelowCounter := by
  intro ipc hipc k hk
  rw [load_eq] at hipc
  by_cases h : names = []
  · simp [h] at hipc
  · simp only [h, if_false] at hipc
    injection hipc with hipc
    subst hipc
    exact absurd rfl hk

theorem runResolve_not_pending {V : Type} (E : JSEngine V) (text : String) (p : Page)
    (hnot : ∀ ipc k, p.ipc = some ipc →
      E.Number ((resolveData text).get? 2) = JSNumber.int (Int.ofNat k) → ipc.pending k = false) :
    ∃ err, runResolve E text p = (p, ScriptResult.threw err) := by
  rcases runResolve_cases E text p with h | ⟨ipc, k, m, v, hipc, hpend, hseq, _⟩
  · exact h
  · rw [hnot ipc k hipc hseq] at hpend
    cases hpend

/-- C9, as amended. The resolve script evaluated for a sequence number that
names no pending call — a call that was settled, or one that was never
created — calls no callback and leaves the context as it was: it ends in an
exception, the `TypeError` of the table access when the same script is
evaluated a second time. And over any calls and resolve scripts in a context
loaded anew, no call is settled more than once. -/
theorem double_settlement {V : Type} (E : JSEngine V) :
    (∀ (msg text : String) (p : Page), templateLiteral msg = some text →
      (∀ ipc k, p.ipc = some ipc →
        E.Number ((resolveData text).get? 2) = JSNumber.int (Int.ofNat k) →
        ipc.pending k = false) →
      ∃ err, resolveScript E msg p = some (p, ScriptResult.threw err)) ∧
    (∀ (text : String) (p p1 : Page) (k : Nat) (m : Method) (v : Settlement V),
      runResolve E text p = (p1, ScriptResult.settled k m v) →
      runResolve E text p1 = (p1, ScriptResult.threw JSError.typeError)) ∧
    (∀ (names : List String) (evs : List PageEvent) (k : Nat),
      (((Page.load names).run E evs).2.filter (ScriptResult.settles k)).length ≤ 1) := by
  refine ⟨?_, ?_, ?_⟩
  · intro msg text p hlit hnot
    obtain ⟨err, herr⟩ := runResolve_not_pending E text p hnot
    by_cases hnul : hasNul msg = true
    · exact ⟨JSError.syntaxError, by simp [resolveScript, hlit, hnul]⟩
    · exact ⟨err, by simp [resolveScript, hlit, hnul, herr]⟩
  · intro text p p1 k m v hrun
    rcases runResolve_cases E text p with ⟨err, herr⟩ | ⟨ipc, k', m', v', hipc, hpend, hseq, hrun'⟩
    · rw [herr] at hrun
      cases hrun
    · rw [hrun'] at hrun
      injection hrun with hp hres
      subst hp
      have hvalue : ∃ value, resolveValue E (decide ((resolveData text).get? 0 = some "internal"))
          ((resolveData text).get? 3) = .ok value := by
        cases hv : resolveValue E (decide ((resolveData text).get? 0 = some "internal"))
            ((resolveData text).get? 3) with
        | ok value => exact ⟨value, rfl⟩
        | error e =>
          exfalso
          unfold runResolve at hrun'
          simp only [hv] at hrun'
          exact absurd (congrArg Prod.snd hrun') (by simp)
      obtain ⟨value, hvalue⟩ := hvalue
      have hnp : (ipc.set k' Slot.undefined).pending k' = false := by
        simp [IPC.pending, IPC.get_set]
      unfold runResolve
      simp only [hvalue, hseq]
      show (if (ipc.set k' Slot.undefined).pending k' = true then _ else _) = _
      rw [hnp]
      rfl
  · intro names evs k
    exact run_settles_at_most_once E evs _ k (load_keysBelowCounter names)

/-- C9 as stated fails at the internal message for call 1 while call 1 is
pending: the first evaluation resolves call 1, the second one raises a
`TypeError`; so does the script for call 9, which was never created. -/
theorem resolve_twice_raises :
    runResolve exampleEngine "internal;0;1;7" examplePage =
      (⟨some ⟨2, [(1, Slot.undefined)]⟩, ["add"]⟩,
        ScriptResult.settled 1 Method.resolve (Settlement.raw "7")) ∧
    resolveScript exampleEngine "internal;0;1;7" ⟨some ⟨2, [(1, Slot.undefined)]⟩, ["add"]⟩ =
      some (⟨some ⟨2, [(1, Slot.undefined)]⟩, ["add"]⟩, ScriptResult.threw JSError.typeError) ∧
    resolveScript exampleEngine "internal;0;9;7" examplePage =
      some (examplePage, ScriptResult.threw JSError.typeError) := by
  refine ⟨by rfl, by rfl, by rfl⟩

/-! ### Decode failure on settlement -/

theorem atob_error (s : String) (e : JSError) (h : atob s = .error e) :
    e = JSError.invalidCharacter := by
  have key : ∀ d : List Char,
      (if d.length % 4 = 1 then (Except.error JSError.invalidCharacter : Except JSError String)
        else
          match d.mapM base64Index with
          | none => .error JSError.invalidCharacter
          | some sextets => .ok (String.mk ((base64Decode sextets).map Char.ofNat))) =
        .error e → e = JSError.invalidCharacter := by
    intro d hd
    split at hd
    · injection hd with hd
      exact hd.symm
    · split at hd
      · injection hd with hd
        exact hd.symm
      · cases hd
  exact key _ h

theorem resolveValue_external_failure {V : Type} (E : JSEngine V) (payload : Option String)
    (hbad : ∀ decoded, atob (toDOMString payload) = .ok decoded → E.parse decoded = none) :
    ∃ err, (err = JSError.invalidCharacter ∨ err = JSError.syntaxError) ∧
      resolveValue E false payload = .error err := by
  unfold resolveValue
  cases hatob : atob (toDOMString payload) with
  | error e => exact ⟨e, Or.inl (atob_error _ e hatob), by simp⟩
  | ok decoded =>
    refine ⟨JSError.syntaxError, Or.inr rfl, ?_⟩
    simp [hbad decoded hatob]

/-- C11. For a Resolve message whose scope is not `internal` and whose payload
is not base64 of a text `JSON.parse` accepts, the resolve script rejects
nothing: it ends in the exception of `atob` or of `JSON.parse`, which nothing
catches, before the table is read, and the context is as it was, so a call
that was pending is pending still. -/
theorem resolve_decode_failure_leaves_pending {V : Type} (E : JSEngine V) (text : String)
    (p : Page) (hscope : (resolveData text).get? 0 ≠ some "internal")
    (hbad : ∀ decoded, atob (toDOMString ((resolveData text).get? 3)) = .ok decoded →
      E.parse decoded = none) :
    ∃ err, (err = JSError.invalidCharacter ∨ err = JSError.syntaxError) ∧
      runResolve E text p = (p, ScriptResult.threw err) := by
  obtain ⟨err, herr, hvalue⟩ := resolveValue_external_failure E ((resolveData text).get? 3) hbad
  refine ⟨err, herr, ?_⟩
  unfold runResolve
  simp only [hscope, decide_False, hvalue]

/-- C11, at the message `external;0;1;%%%` while call 1 is pending: the script
raises the `InvalidCharacterError` of `atob`, and call 1 stays pending. -/
theorem resolve_decode_failure_witness :
    examplePage.ipc = some ⟨2, [(1, Slot.callbacks)]⟩ ∧
    templateLiteral "external;0;1;%%%" = some "external;0;1;%%%" ∧
    ∃ err, (err = JSError.invalidCharacter ∨ err = JSError.syntaxError) ∧
      runResolve exampleEngine "external;0;1;%%%" examplePage =
        (examplePage, ScriptResult.threw err) :=
  ⟨rfl, by decide,
    resolve_decode_failure_leaves_pending exampleEngine "external;0;1;%%%" examplePage
      (by decide) (by
        intro decoded h
        have hatob : atob (toDOMString ((resolveData "external;0;1;%%%").get? 3)) =
            .error JSError.invalidCharacter := by decide
        rw [hatob] at h
        cases h)⟩

/-! ### Literals and the emit script -/

theorem hasSubstitution_cons (c d : Char) (cs : List Char)
    (h : hasSubstitution (c :: d :: cs) = false) :
    ¬ (c.toNat = 36 ∧ d.toNat = 123) ∧ hasSubstitution (d :: cs) = false := by
  simp only [hasSubstitution, Bool.or_eq_false_iff, Bool.and_eq_false_iff] at h
  obtain ⟨h1, h2⟩ := h
  refine ⟨?_, h2⟩
  rintro ⟨hc, hd⟩
  have hc' : c = '$' := by
    apply Char.ext
    apply UInt32.ext
    exact hc
  rcases h1 with h1 | h1
  · simp [hc'] at h1
  · simp [hd] at h1

theorem cookLiteral_template_plain (cs : List Char)
    (hall : cs.all (fun c => c.toNat ≠ 96 && c.toNat ≠ 92 && c.toNat ≠ 13) = true)
    (hsub : hasSubstitution cs = false) : cookLiteral true cs = some cs := by
  induction cs with
  | nil => rfl
  | cons c tail ih =>
    simp only [List.all_cons, Bool.and_eq_true, decide_eq_true_eq] at hall
    obtain ⟨⟨⟨h96, h92⟩, h13⟩, htail⟩ := hall
    cases tail with
    | nil => simp [cookLiteral, standsForItself, h96, h92, h13]
    | cons d cs =>
      obtain ⟨hnot, hsub'⟩ := hasSubstitution_cons c d cs hsub
      have ih' := ih htail hsub'
      have hsd : c.toNat = 36 → ¬ d.toNat = 123 := fun a b => hnot ⟨a, b⟩
      simp only [cookLiteral, if_neg h92, standsForItself, if_true, ih', Option.map_some']
      simp [h96, h92, h13]
      exact hsd

theorem templateValue_of_templateLiteral (msg text : String)
    (h : templateLiteral msg = some text) : templateValue msg = some msg := by
  unfold templateLiteral at h
  split at h
  · rename_i hplain
    simp only [Bool.and_eq_true, Bool.not_eq_true'] at hplain
    simp only [templateValue, cookLiteral_template_plain msg.data (by simpa using hplain.1)
      hplain.2, Option.map_some']
  · cases h

theorem cookLiteral_string_plain (cs : List Char)
    (hall : cs.all (fun c => c.toNat ≠ 39 && c.toNat ≠ 92 && c.toNat ≠ 13 && c.toNat ≠ 10) = true) :
    cookLiteral false cs = some cs := by
  induction cs with
  | nil => rfl
  | cons c tail ih =>
    simp only [List.all_cons, Bool.and_eq_true, decide_eq_true_eq] at hall
    obtain ⟨⟨⟨⟨h39, h92⟩, h13⟩, h10⟩, htail⟩ := hall
    cases tail with
    | nil => simp [cookLiteral, standsForItself, h39, h92, h13, h10]
    | cons d cs =>
      have ih' := ih htail
      simp only [cookLiteral, if_neg h92, standsForItself, ih', Option.map_some']
      simp [h39, h92, h13, h10]

/-- A text without single quote, backslash or line break, written between
single quotes, is a string literal that denotes the text itself. -/
theorem stringLiteral_plain (text : String)
    (hall : text.data.all
      (fun c => c.toNat ≠ 39 && c.toNat ≠ 92 && c.toNat ≠ 13 && c.toNat ≠ 10) = true) :
    stringLiteral text = some text := by
  simp only [stringLiteral, cookLiteral_string_plain text.data hall, Option.map_some']

/-- C12, as amended. `webview::emit` hands one task to `dispatch`; for every
event name that holds no single quote, backslash, line break or NUL and every
data string that holds no backtick, backslash, carriage return, NUL or `$`
before an opening brace, the script of the task dispatches one `CustomEvent`
with that name and the detail `JSON.parse(atob(data))` when the data decodes,
and otherwise catches the exception, logs a message and dispatches nothing. -/
theorem emit_delivery {H C V : Type} (w : webview H C) (E : JSEngine V) (event data : String)
    (hevent : event.data.all
      (fun c => c.toNat ≠ 39 && c.toNat ≠ 92 && c.toNat ≠ 13 && c.toNat ≠ 10) = true)
    (hdata : templateLiteral data = some data)
    (hnul : hasNul event = false ∧ hasNul data = false) :
    w.emit event data = (w, [Action.dispatch (emitScriptText event data)]) ∧
    (∀ decoded detail, atob data = .ok decoded → E.parse decoded = some detail →
      emitScript E event data = some (EmitResult.dispatched event detail)) ∧
    ((∀ decoded, atob data = .ok decoded → E.parse decoded = none) →
      emitScript E event data = some (EmitResult.logged "Unable to parse (undefined)")) := by
  have hname := stringLiteral_plain event hevent
  have htext := templateValue_of_templateLiteral data data hdata
  refine ⟨rfl, ?_, ?_⟩
  · intro decoded detail hatob hparse
    simp only [emitScript, hname, htext, hnul.1, hnul.2, Bool.or_self, Bool.false_eq_true,
      if_false, runEmit, hatob, hparse]
  · intro hbad
    simp only [emitScript, hname, htext, hnul.1, hnul.2, Bool.or_self, Bool.false_eq_true,
      if_false, runEmit]
    cases hatob : atob data with
    | error e => rfl
    | ok decoded => simp only [hbad decoded hatob]

/-- C12, at the event `windowHide` with base64 of `5`: one event with the
detail 5 is dispatched. -/
theorem emit_delivery_witness :
    emitScript exampleEngine "windowHide" "NQ==" =
      some (EmitResult.dispatched "windowHide" (JSValue.num 5)) :=
  (emit_delivery (webview.create Nat Nat) exampleEngine "windowHide" "NQ==" (by decide)
    (by decide) (by decide)).2.1 "5" (JSValue.num 5) (by decide) rfl

/-- C12 as stated fails at the data `NQ\==`, which `atob` rejects for its
backslash: in the template literal of the script the backslash and `=` denote
`=`, so the script decodes `NQ==` and dispatches an event with the detail 5
where C12 as stated has the failure logged and no event. -/
theorem emit_escaped_data :
    atob "NQ\\==" = .error JSError.invalidCharacter ∧
    templateValue "NQ\\==" = some "NQ==" ∧
    emitScript exampleEngine "windowHide" "NQ\\==" =
      some (EmitResult.dispatched "windowHide" (JSValue.num 5)) := by
  refine ⟨by decide, by decide, by rfl⟩

/-! ### The request string of a callback -/

theorem base64Char_ne_bracket (i : Nat) : base64Char i ≠ '[' := by
  by_cases h : i < 64
  · have key : ∀ j, j < 64 → base64Char j ≠ '[' := by decide
    exact key i h
  · have h26 : ¬ i < 26 := by omega
    have h52 : ¬ i < 52 := by omega
    have h62 : ¬ i < 62 := by omega
    have hne : i ≠ 62 := by omega
    simp only [base64Char, h26, h52, h62, hne, if_false]
    decide

theorem base64Encode_no_bracket (bytes : List Nat) : '[' ∉ base64Encode bytes := by
  rw [base64Encode_eq]
  intro h
  rw [List.mem_append] at h
  rcases h with h | h
  · rw [List.mem_map] at h
    obtain ⟨x, _, hx⟩ := h
    exact base64Char_ne_bracket x hx
  · rcases (sextets_length_padding bytes).2.2 with hp | hp | hp <;> rw [hp] at h <;>
      simp at h

theorem stringify_arr_head (xs : List JSValue) :
    '[' ∈ (JSValue.arr xs).stringify.data := by
  simp [JSValue.stringify, String.data_append]

theorem btoa_ne_array_text (s encoded : String) (xs : List JSValue)
    (h : btoa s = .ok encoded) : encoded ≠ (JSValue.arr xs).stringify := by
  intro heq
  unfold btoa at h
  split at h
  · injection h with h
    subst h
    have := stringify_arr_head xs
    rw [← heq] at this
    exact base64Encode_no_bracket _ this
  · cases h

/-- C13. For a binding made with `webview_ipc` and the call
`name(a1, ..., an)` with at least one argument, the callback is called once,
with the sequence number and with `req` equal to base64 of the JSON text of
`a1` alone; that string is never the JSON text of the array
`[a1, ..., an]`. -/
theorem callback_request_is_base64_of_first {H C : Type} (w : webview H C) (name : String)
    (fn : H) (arg : C) (a : JSValue) (rest : List JSValue) (ipc : IPC)
    (hname : name ≠ "contextMenu") (hvalid : ';' ∉ name.data)
    (hlatin : a.stringify.data.all (fun c => c.toNat ≤ 255) = true) :
    ∃ req, btoa a.stringify = .ok req ∧
      deliverCall (webview_ipc w name fn arg).1 name (a :: rest) ipc =
        some (.ok ((webview_ipc w name fn arg).1,
          [Action.call fn (toString ipc.nextSeq) req arg])) ∧
      req ≠ (JSValue.arr (a :: rest)).stringify := by
  have hb : btoa a.stringify =
      .ok (String.mk (base64Encode (a.stringify.data.map Char.toNat))) := by
    simp only [btoa, hlatin, if_true]
  refine ⟨_, hb, ?_, btoa_ne_array_text _ _ _ hb⟩
  simp only [deliverCall, stubApply, stubCall_other_name ipc name a hname, hb]
  rw [on_message_of_parts _ _ "ipc" (toString ipc.nextSeq) name _ []
    (split_invoke _ _ _ hvalid (btoa_no_semicolon _ _ hb))]
  simp only [webview_ipc, webview.ipc, mapFind_mapAssign_self]

/-- C13, at the call `add(2, 3)` of the binding `add`: the callback receives
`Mg==`, base64 of the text `2`, where C13 as stated has the text `[2,3]`. -/
theorem callback_request_witness :
    (JSValue.arr [.num 2, .num 3]).stringify = "[2,3]" ∧
    ∃ req, btoa (JSValue.num 2).stringify = .ok req ∧
      deliverCall (webview_ipc (webview.create Nat Nat) "add" 7 9).1 "add" [.num 2, .num 3]
          IPC.initial =
        some (.ok ((webview_ipc (webview.create Nat Nat) "add" 7 9).1,
          [Action.call 7 (toString IPC.initial.nextSeq) req 9])) ∧
      req ≠ (JSValue.arr [.num 2, .num 3]).stringify :=
  ⟨by decide, callback_request_is_base64_of_first (webview.create Nat Nat) "add" 7 9 (.num 2)
    [.num 3] IPC.initial (by decide) (by decide) (by decide)⟩

/-! ### Registration -/

theorem IPC.get_erase (ipc : IPC) (k : Nat) : (ipc.erase k).get k = none := by
  have h : (ipc.table.filter (fun e => e.1 ≠ k)).find? (fun e => e.1 = k) = none := by
    rw [List.find?_eq_none]
    intro x hx
    rw [List.mem_filter] at hx
    simpa using hx.2
  simp only [IPC.get, IPC.erase, h]

/-- C15, as amended. For a selected item whose `title`, `parent` and `state`
hold no single quote, backslash or line break and whose `seq` is a decimal
numeral: the script the handler evaluates, when `seq > 0` and call `seq` is
pending, resolves that call with the detail of the three fields, removes its
entry and dispatches no event; when `seq` is not greater than 0 it dispatches
one `menuItemSelected` event with that detail and leaves the context as it
was. -/
theorem menu_selection_delivery (title state parent seq : String) (n : Int) (p : Page)
    (htitle : title.data.all
      (fun c => c.toNat ≠ 39 && c.toNat ≠ 92 && c.toNat ≠ 13 && c.toNat ≠ 10) = true)
    (hparent : parent.data.all
      (fun c => c.toNat ≠ 39 && c.toNat ≠ 92 && c.toNat ≠ 13 && c.toNat ≠ 10) = true)
    (hstate : state.data.all
      (fun c => c.toNat ≠ 39 && c.toNat ≠ 92 && c.toNat ≠ 13 && c.toNat ≠ 10) = true)
    (hseq : menuSeq seq = some n) :
    menuItemSelected [title, state, parent, seq] =
      .ok (menuItemScriptText title state parent seq) ∧
    (0 < n → ∀ ipc, p.ipc = some ipc → ipc.pending n.toNat = true →
      menuItemScript title state parent seq p =
        some (⟨some (ipc.erase n.toNat), p.bound⟩,
          MenuResult.resolved n.toNat (menuDetail title parent state)) ∧
      (ipc.erase n.toNat).get n.toNat = none) ∧
    (n ≤ 0 →
      menuItemScript title state parent seq p =
        some (p, MenuResult.dispatched "menuItemSelected" (menuDetail title parent state))) := by
  have h1 := stringLiteral_plain title htitle
  have h2 := stringLiteral_plain parent hparent
  have h3 := stringLiteral_plain state hstate
  refine ⟨rfl, ?_, ?_⟩
  · intro hpos ipc hipc hpending
    refine ⟨?_, IPC.get_erase ipc _⟩
    simp only [menuItemScript, h1, h2, h3, hseq, runMenuItem, hpos, if_true, hipc, hpending]
  · intro hle
    have hnot : ¬ n > 0 := by omega
    simp only [menuItemScript, h1, h2, h3, hseq, runMenuItem, hnot, if_false]

/-- C15, at the item `Paste` of the context menu of call 1, call 1 pending:
call 1 is resolved with the detail and its entry is removed. -/
theorem menu_selection_delivery_witness :
    menuItemScript "Paste" "0" "contextMenu" "1" examplePage =
      some (⟨some ⟨2, []⟩, ["add"]⟩,
        MenuResult.resolved 1 (menuDetail "Paste" "contextMenu" "0")) :=
  ((menu_selection_delivery "Paste" "0" "contextMenu" "1" 1 examplePage (by decide) (by decide)
    (by decide) (by decide)).2.1 (by decide) ⟨2, [(1, Slot.callbacks)]⟩ rfl (by decide)).1

/-- C15 as stated fails at the item with the title `AC\DC` and the sequence 0:
in the string literal of the script the backslash and `D` denote `D`, and the
event that is dispatched carries the title `ACDC`. -/
theorem menu_selection_escaped_title :
    menuItemScript "AC\\DC" "0" "File" "0" examplePage =
      some (examplePage, MenuResult.dispatched "menuItemSelected" (menuDetail "ACDC" "File" "0")) ∧
    menuDetail "ACDC" "File" "0" ≠ menuDetail "AC\\DC" "File" "0" := by
  refine ⟨by rfl, ?_⟩
  intro h
  simp only [menuDetail, JSValue.obj.injEq, List.cons.injEq, Prod.mk.injEq, JSValue.str.injEq,
    true_and, and_true] at h
  exact absurd h (by decide)

/-! ### The selection of a context menu -/

theorem split_ne_nil (s : String) (c : Char) : split s c ≠ [] := by
  simp only [split, ne_eq, List.map_eq_nil_iff]
  exact splitChars_ne_nil c s.data

theorem contextMenuItem_ok (item : String) :
    ∃ key, contextMenuItem item =
      .ok (itemTitle item, key, occursIn "---".data (itemTitle item).data) := by
  unfold contextMenuItem itemTitle
  cases hsplit : split (trim item) ':' with
  | nil => exact absurd hsplit (split_ne_nil _ _)
  | cons a rest =>
    cases rest with
    | nil => exact ⟨"", rfl⟩
    | cons b more =>
      refine ⟨b, ?_⟩
      simp [vectorAt, bind, Except.bind, pure, Except.pure]

theorem contextMenuLoop_spec (items : List String) (st : ContextMenu) :
    ∃ final, contextMenuLoop st items = .ok final ∧
      final.lookup = st.lookup ++
        (items.map itemTitle).filter (fun t => !occursIn "---".data t.data) ∧
      (∀ j t, ((items.map itemTitle).filter (fun t => !occursIn "---".data t.data)).get? j =
        some t → (st.index + j, t) ∈ final.items) ∧
      (∀ e ∈ st.items, e ∈ final.items) := by
  induction items generalizing st with
  | nil => exact ⟨st, rfl, by simp, by simp, fun e he => he⟩
  | cons item rest ih =>
    obtain ⟨key, hitem⟩ := contextMenuItem_ok item
    by_cases hsep : occursIn "---".data (itemTitle item).data = true
    · obtain ⟨final, hloop, hlookup, hitems, hkeep⟩ :=
        ih { st with separators := st.separators + 1 }
      refine ⟨final, ?_, ?_, ?_, hkeep⟩
      · simp only [contextMenuLoop, contextMenuStep, hitem, hsep, bind, Except.bind, pure,
          Except.pure, if_true]
        exact hloop
      · simpa [List.filter_cons, hsep] using hlookup
      · simpa [List.filter_cons, hsep] using hitems
    · have hsep' : occursIn "---".data (itemTitle item).data = false := by
        simpa using hsep
      obtain ⟨final, hloop, hlookup, hitems, hkeep⟩ :=
        ih { st with
          lookup := st.lookup ++ [itemTitle item]
          index := st.index + 1
          items := (st.index, itemTitle item) :: st.items }
      refine ⟨final, ?_, ?_, ?_, ?_⟩
      · simp only [contextMenuLoop, contextMenuStep, hitem, hsep', bind, Except.bind, pure,
          Except.pure]
        exact hloop
      · simpa [List.filter_cons, hsep'] using hlookup
      · intro j t hj
        simp only [List.map_cons, List.filter_cons, hsep', Bool.not_false, if_true] at hj
        cases j with
        | zero =>
          simp only [List.get?_cons_zero, Option.some.injEq] at hj
          subst hj
          exact hkeep _ (by simp)
        | succ j =>
          simp only [List.get?_cons_succ] at hj
          have := hitems j t hj
          simpa [Nat.add_assoc, Nat.add_comm 1 j] using this
      · intro e he
        exact hkeep e (by simp [he])

/-- C16. For every item list `value` and every `k ≥ 1` that is the position of
a title `t` among the items that are no separators: the string item with the
title `t` has the command identifier `k` in the popup menu, and when
`TrackPopupMenu` returns `k` the method evaluates
`resolveMenuSelection(seq, t, "contextMenu")`. -/
theorem context_menu_selection (resolveMenuSelection : String → String → String → String)
    (seq value : String) (k : Nat) (t : String) (hk : 1 ≤ k)
    (ht : (menuTitles value).get? (k - 1) = some t) :
    setContextMenu resolveMenuSelection seq value k =
      .ok (ContextMenuResult.evaluated (resolveMenuSelection seq t "contextMenu")) ∧
    ∃ menu, contextMenuLoop ContextMenu.initial (split value '_') = .ok menu ∧
      (k, t) ∈ menu.items := by
  obtain ⟨menu, hloop, hlookup, hitems, _⟩ :=
    contextMenuLoop_spec (split value '_') ContextMenu.initial
  have hkne : k ≠ 0 := by omega
  obtain ⟨j, rfl⟩ : ∃ j, k = j + 1 := ⟨k - 1, by omega⟩
  simp only [Nat.add_sub_cancel] at ht
  constructor
  · have hget : menu.lookup.get? (j + 1) = some t := by
      rw [hlookup]
      simpa [ContextMenu.initial, menuTitles] using ht
    simp only [setContextMenu, hloop, bind, Except.bind, hkne, if_false, hget, pure, Except.pure]
  · refine ⟨menu, hloop, ?_⟩
    have := hitems j t (by simpa [menuTitles] using ht)
    simpa [ContextMenu.initial, Nat.add_comm] using this

/-- C16, at the items `Copy:Cmd+C_---_Paste:Cmd+V` of the spec and the second
string item: the title that is handed on is `Paste`. -/
theorem context_menu_selection_witness :
    menuTitles "Copy:Cmd+C_---_Paste:Cmd+V" = ["Copy", "Paste"] ∧
    setContextMenu (fun seq title parent => seq ++ "," ++ title ++ "," ++ parent) "7"
        "Copy:Cmd+C_---_Paste:Cmd+V" 2 =
      .ok (ContextMenuResult.evaluated "7,Paste,contextMenu") ∧
    ∃ menu, contextMenuLoop ContextMenu.initial (split "Copy:Cmd+C_---_Paste:Cmd+V" '_') =
        .ok menu ∧ (2, "Paste") ∈ menu.items :=
  ⟨by decide,
    context_menu_selection (fun seq title parent => seq ++ "," ++ title ++ "," ++ parent) "7"
      "Copy:Cmd+C_---_Paste:Cmd+V" 2 "Paste" (by decide) (by decide)⟩

/-! ### The message loop -/

theorem closureAddresses_append (q : List MSG) (msg : MSG) :
    closureAddresses (q ++ [msg]) =
      closureAddresses q ++
        (if msg.hwnd.isNone && msg.message = WM_APP then [msg.lParam] else []) := by
  induction q with
  | nil => simp only [List.nil_append, closureAddresses]
  | cons m rest ih =>
    rw [List.cons_append]
    simp only [closureAddresses]
    split
    · rw [ih, List.cons_append]
    · exact ih

theorem create_consistent (T : Type) (window : Nat) :
    (win32_edge_engine.create T window).consistent := by
  simp [win32_edge_engine.consistent, win32_edge_engine.create, closureAddresses]

theorem dispatch_consistent {T : Type} (e : win32_edge_engine T) (f : T)
    (h : e.consistent) : (e.dispatch f).consistent := by
  obtain ⟨hq, halloc, hlt, hnodup, hdel⟩ := h
  refine ⟨?_, ?_, ?_, ?_, hdel⟩
  · simp [win32_edge_engine.dispatch, closureAddresses_append, hq, WM_APP]
  · simp [win32_edge_engine.dispatch, halloc]
  · intro a ha
    simp only [win32_edge_engine.dispatch, List.mem_append, List.mem_singleton] at ha
    rcases ha with ha | ha
    · exact Nat.lt_succ_of_lt (hlt a ha)
    · subst ha
      exact Nat.lt_succ_self _
  · simp only [win32_edge_engine.dispatch, List.map_append, List.map_cons, List.map_nil]
    rw [List.nodup_append]
    refine ⟨hnodup, by simp, ?_⟩
    intro a ha hb
    simp only [List.mem_singleton] at hb
    rw [List.mem_map] at ha
    obtain ⟨x, hx, hxa⟩ := ha
    have := hlt x hx
    omega

theorem post_consistent {T : Type} (e : win32_edge_engine T) (msg : MSG)
    (hmsg : (msg.hwnd.isSome || msg.message ≠ WM_APP) = true) (h : e.consistent) :
    (e.post msg).consistent := by
  obtain ⟨hq, halloc, hlt, hnodup, hdel⟩ := h
  refine ⟨?_, halloc, hlt, hnodup, hdel⟩
  have hcond : (msg.hwnd.isNone && decide (msg.message = WM_APP)) = false := by
    cases hh : msg.hwnd with
    | none => simpa [hh] using hmsg
    | some w => simp
  simp [win32_edge_engine.post, closureAddresses_append, hcond, hq]

theorem iterate_consistent {T : Type} (e : win32_edge_engine T) (h : e.consistent) :
    ∃ next, e.iterate = .ok next ∧ next.consistent ∧ next.allocated = e.allocated ∧
      next.next = e.next ∧ e.executed <+: next.executed := by
  obtain ⟨hq, halloc, hlt, hnodup, hdel⟩ := h
  unfold win32_edge_engine.iterate
  by_cases hrun : e.running = true
  · simp only [hrun, if_true, win32_edge_engine.getMessage]
    cases hqueue : e.queue with
    | nil =>
      by_cases hquit : e.quit = true
      · simp only [hquit, if_true]
        have hne : ¬ WM_QUIT = WM_APP := by decide
        simp only [Option.isSome_none, Bool.false_eq_true, if_false, hne]
        refine ⟨_, rfl, ?_, rfl, rfl, List.prefix_refl _⟩
        exact ⟨by simpa [hqueue] using hq, halloc, hlt, hnodup, hdel⟩
      · simp only [hquit, if_false]
        exact ⟨e, rfl, ⟨hq, halloc, hlt, hnodup, hdel⟩, rfl, rfl, List.prefix_refl _⟩
    | cons msg rest =>
      rw [hqueue] at hq
      simp only
      by_cases hwnd : msg.hwnd.isSome = true
      · simp only [hwnd, if_true]
        refine ⟨_, rfl, ?_, rfl, rfl, List.prefix_refl _⟩
        refine ⟨?_, halloc, hlt, hnodup, hdel⟩
        have hnone : msg.hwnd.isNone = false := by
          cases hh : msg.hwnd with
          | none => simp [hh] at hwnd
          | some w => rfl
        simpa [closureAddresses, hnone] using hq
      · have hnone : msg.hwnd.isNone = true := by
          cases hh : msg.hwnd with
          | none => rfl
          | some w => simp [hh] at hwnd
        simp only [hwnd, if_false]
        by_cases happ : msg.message = WM_APP
        · simp only [closureAddresses, hnone, happ, decide_True, Bool.and_self, if_true] at hq
          cases hlive : e.live with
          | nil => simp [hlive] at hq
          | cons c live' =>
            obtain ⟨p, f⟩ := c
            simp only [hlive, List.map_cons, List.cons.injEq] at hq
            obtain ⟨hp, hrest⟩ := hq
            simp only [happ, if_true, heapFind, hp]
            refine ⟨_, rfl, ?_, rfl, rfl, List.prefix_append _ _⟩
            refine ⟨?_, ?_, hlt, hnodup, ?_⟩
            · simpa [heapErase, hp] using hrest
            · simp [heapErase, hp, halloc, hlive]
            · simp [hdel, hp]
        · have hcl : closureAddresses rest = e.live.map Prod.fst := by
            simpa [closureAddresses, happ] using hq
          simp only [happ, if_false]
          by_cases hq' : msg.message = WM_QUIT
          · simp only [hq', if_true]
            exact ⟨_, rfl, ⟨hcl, halloc, hlt, hnodup, hdel⟩, rfl, rfl, List.prefix_refl _⟩
          · simp only [hq', if_false]
            exact ⟨_, rfl, ⟨hcl, halloc, hlt, hnodup, hdel⟩, rfl, rfl, List.prefix_refl _⟩
  · simp only [hrun, if_false]
    exact ⟨e, rfl, ⟨hq, halloc, hlt, hnodup, hdel⟩, rfl, rfl, List.prefix_refl _⟩

theorem step_consistent {T : Type} (e : win32_edge_engine T) (ev : LoopEvent T)
    (h : e.consistent) (hown : ev.ownsNoClosure = true) :
    ∃ next, e.step ev = .ok next ∧ next.consistent ∧
      next.allocated.map Prod.snd = e.allocated.map Prod.snd ++ dispatchedTasks [ev] ∧
      e.executed <+: next.executed := by
  cases ev with
  | dispatch f =>
    exact ⟨_, rfl, dispatch_consistent e f h, by simp [win32_edge_engine.dispatch, dispatchedTasks],
      List.prefix_refl _⟩
  | post msg =>
    exact ⟨_, rfl, post_consistent e msg (by simpa [LoopEvent.ownsNoClosure] using hown) h,
      by simp [win32_edge_engine.post, dispatchedTasks], List.prefix_refl _⟩
  | terminate =>
    obtain ⟨hq, halloc, hlt, hnodup, hdel⟩ := h
    exact ⟨_, rfl, ⟨hq, halloc, hlt, hnodup, hdel⟩, by simp [win32_edge_engine.terminate,
      dispatchedTasks], List.prefix_refl _⟩
  | iterate =>
    obtain ⟨next, hit, hcons, halloc, _, hpre⟩ := iterate_consistent e h
    exact ⟨next, hit, hcons, by simp [halloc, dispatchedTasks], hpre⟩

theorem dispatchedTasks_cons {T : Type} (ev : LoopEvent T) (evs : List (LoopEvent T)) :
    dispatchedTasks (ev :: evs) = dispatchedTasks [ev] ++ dispatchedTasks evs := by
  cases ev <;> simp [dispatchedTasks]

theorem runEvents_consistent {T : Type} (evs : List (LoopEvent T)) (e : win32_edge_engine T)
    (h : e.consistent) (hown : ∀ ev ∈ evs, ev.ownsNoClosure = true) :
    ∃ final, e.runEvents evs = .ok final ∧ final.consistent ∧
      final.allocated.map Prod.snd = e.allocated.map Prod.snd ++ dispatchedTasks evs ∧
      e.executed <+: final.executed := by
  induction evs generalizing e with
  | nil => exact ⟨e, rfl, h, by simp [dispatchedTasks], List.prefix_refl _⟩
  | cons ev evs ih =>
    obtain ⟨next, hstep, hcons, halloc, hpre⟩ := step_consistent e ev h (hown ev (by simp))
    obtain ⟨final, hrun, hfinal, halloc', hpre'⟩ :=
      ih next hcons (fun ev' hev' => hown ev' (by simp [hev']))
    refine ⟨final, ?_, hfinal, ?_, hpre.trans hpre'⟩
    · simp only [win32_edge_engine.runEvents, hstep]
      exact hrun
    · rw [halloc', halloc, List.append_assoc, ← dispatchedTasks_cons]

theorem iterate_pops {T : Type} (e next : win32_edge_engine T) (msg : MSG) (rest : List MSG)
    (hrun : e.running = true) (hqueue : e.queue = msg :: rest)
    (hmsg : msg.isThreadQuit = false) (hit : e.iterate = .ok next) :
    next.queue = rest ∧ next.running = true := by
  unfold win32_edge_engine.iterate at hit
  simp only [hrun, if_true, win32_edge_engine.getMessage, hqueue] at hit
  by_cases hwnd : msg.hwnd.isSome = true
  · simp only [hwnd, if_true, Except.ok.injEq] at hit
    subst hit
    exact ⟨rfl, rfl⟩
  · have hnone : msg.hwnd.isNone = true := by
      cases hh : msg.hwnd with
      | none => rfl
      | some w => simp [hh] at hwnd
    have hquit : ¬ msg.message = WM_QUIT := by
      intro h
      simp [MSG.isThreadQuit, hnone, h] at hmsg
    simp only [hwnd, Bool.false_eq_true, if_false] at hit
    by_cases happ : msg.message = WM_APP
    · simp only [happ, if_true] at hit
      cases hfind : heapFind e.live msg.lParam with
      | none => simp [hfind] at hit
      | some f =>
        simp only [hfind, Except.ok.injEq] at hit
        subst hit
        exact ⟨rfl, rfl⟩
    · simp only [happ, hquit, if_false, Except.ok.injEq] at hit
      subst hit
      exact ⟨rfl, rfl⟩

theorem drain_queue {T : Type} (n : Nat) (e : win32_edge_engine T) (hcons : e.consistent)
    (hrun : e.running = true) (hlen : e.queue.length = n)
    (hquit : ∀ msg ∈ e.queue, msg.isThreadQuit = false) :
    ∃ done, e.runEvents (List.replicate n LoopEvent.iterate) = .ok done ∧ done.queue = [] ∧
      done.consistent ∧ done.allocated = e.allocated ∧ done.running = true := by
  induction n generalizing e with
  | zero =>
    exact ⟨e, rfl, List.length_eq_zero.mp hlen, hcons, rfl, hrun⟩
  | succ n ih =>
    cases hqueue : e.queue with
    | nil => simp [hqueue] at hlen
    | cons msg rest =>
      obtain ⟨next, hit, hnext, halloc, _, _⟩ := iterate_consistent e hcons
      obtain ⟨hq, hr⟩ := iterate_pops e next msg rest hrun hqueue
        (hquit msg (by simp [hqueue])) hit
      obtain ⟨done, hdone, hempty, hdcons, hdalloc, hdrun⟩ := ih next hnext hr
        (by rw [hq]; simpa [hqueue] using hlen)
        (fun m hm => hquit m (by rw [hqueue]; exact List.mem_cons_of_mem _ (hq ▸ hm)))
      refine ⟨done, ?_, hempty, hdcons, hdalloc.trans halloc, hdrun⟩
      simp only [List.replicate_succ, win32_edge_engine.runEvents, win32_edge_engine.step, hit]
      exact hdone

theorem executed_of_empty_queue {T : Type} (e : win32_edge_engine T) (hcons : e.consistent)
    (hempty : e.queue = []) : e.executed = e.allocated := by
  obtain ⟨hq, halloc, _, _, _⟩ := hcons
  rw [hempty] at hq
  have hlive : e.live = [] := by
    cases hl : e.live with
    | nil => rfl
    | cons c cs => simp [closureAddresses, hl] at hq
  rw [halloc, hlive, List.append_nil]

/-- C17. Over any dispatches, other posted messages, calls of `terminate` and
turns of the loop of `run`, in any interleaving: the closures `run` has called
are an initial segment of the closures `dispatch` allocated, in the order they
were posted, so the tasks run in the order they were dispatched; no closure is
called twice; and `dispatch` itself only allocates and posts, it calls
nothing. The loop does call them: a turn that retrieves the message of a
dispatched closure calls that closure and deletes it, and while `run` has not
returned and no thread message `WM_QUIT` is queued, as many turns as messages
are queued call every closure that was dispatched, in the order of the
dispatches. -/
theorem dispatch_order_single_execution {T : Type} (window : Nat) (evs : List (LoopEvent T))
    (hown : ∀ ev ∈ evs, ev.ownsNoClosure = true) :
    ∃ final, (win32_edge_engine.create T window).runEvents evs = .ok final ∧
      final.executed <+: final.allocated ∧
      final.allocated.map Prod.snd = dispatchedTasks evs ∧
      final.executed.map Prod.snd <+: dispatchedTasks evs ∧
      (final.executed.map Prod.fst).Nodup ∧
      (∀ (e : win32_edge_engine T) (f : T),
        (e.dispatch f).executed = e.executed ∧
        (e.dispatch f).queue = e.queue ++ [⟨none, WM_APP, e.next⟩]) ∧
      (∀ f : T, ∃ next, ((win32_edge_engine.create T window).dispatch f).iterate = .ok next ∧
        next.executed = [(1, f)] ∧ next.deleted = [1] ∧ next.queue = [] ∧ next.live = []) ∧
      (final.running = true → (∀ msg ∈ final.queue, msg.isThreadQuit = false) →
        ∃ done, final.runEvents (List.replicate final.queue.length LoopEvent.iterate) =
            .ok done ∧
          done.queue = [] ∧ done.executed.map Prod.snd = dispatchedTasks evs) := by
  obtain ⟨final, hrun, hcons, halloc, _⟩ :=
    runEvents_consistent evs (win32_edge_engine.create T window) (create_consistent T window) hown
  have hcons' := hcons
  obtain ⟨_, hsplit, _, hnodup, _⟩ := hcons
  have hpre : final.executed <+: final.allocated := by
    rw [hsplit]
    exact List.prefix_append _ _
  have htasks : final.allocated.map Prod.snd = dispatchedTasks evs := by
    simpa [win32_edge_engine.create] using halloc
  refine ⟨final, hrun, hpre, htasks, ?_, ?_, fun e f => ⟨rfl, rfl⟩, ?_, ?_⟩
  · rw [← htasks]
    obtain ⟨rest, hrest⟩ := hpre
    exact ⟨rest.map Prod.snd, by rw [← hrest, List.map_append]⟩
  · rw [hsplit, List.map_append] at hnodup
    exact (List.nodup_append.mp hnodup).1
  · intro f
    simp [win32_edge_engine.iterate, win32_edge_engine.getMessage, win32_edge_engine.dispatch,
      win32_edge_engine.create, heapFind, heapErase]
  · intro hrunning hquit
    obtain ⟨done, hdone, hempty, hdcons, hdalloc, _⟩ :=
      drain_queue final.queue.length final hcons' hrunning rfl hquit
    refine ⟨done, hdone, hempty, ?_⟩
    rw [executed_of_empty_queue done hdcons hempty, hdalloc, htasks]

/-- C17, at the tasks 10 and 20 dispatched in this order with a window message
between them: two turns of the loop later only 10 has run, one more turn and
20 has run after it, both closures are deleted and the queue is empty; and the
general statement at the three events before the first turn, whose last part
says that three turns run 10 and then 20. -/
theorem dispatch_order_witness :
    (∀ ev ∈ [LoopEvent.dispatch 10, .post ⟨some 0, 15, 0⟩, .dispatch 20],
      ev.ownsNoClosure = true) ∧
    (∃ mid, (win32_edge_engine.create Nat 0).runEvents
        [.dispatch 10, .post ⟨some 0, 15, 0⟩, .dispatch 20, .iterate, .iterate] = .ok mid ∧
      mid.executed = [(1, 10)] ∧ mid.deleted = [1] ∧ mid.live = [(2, 20)]) ∧
    (∃ last, (win32_edge_engine.create Nat 0).runEvents
        [.dispatch 10, .post ⟨some 0, 15, 0⟩, .dispatch 20, .iterate, .iterate, .iterate] =
        .ok last ∧
      last.executed = [(1, 10), (2, 20)] ∧ last.deleted = [1, 2] ∧ last.live = [] ∧
      last.queue = []) ∧
    ∃ final, (win32_edge_engine.create Nat 0).runEvents
        [.dispatch 10, .post ⟨some 0, 15, 0⟩, .dispatch 20] = .ok final ∧
      final.executed <+: final.allocated ∧
      final.allocated.map Prod.snd =
        dispatchedTasks [LoopEvent.dispatch 10, .post ⟨some 0, 15, 0⟩, .dispatch 20] ∧
      final.executed.map Prod.snd <+:
        dispatchedTasks [LoopEvent.dispatch 10, .post ⟨some 0, 15, 0⟩, .dispatch 20] ∧
      (final.executed.map Prod.fst).Nodup ∧
      (∀ (e : win32_edge_engine Nat) (f : Nat),
        (e.dispatch f).executed = e.executed ∧
        (e.dispatch f).queue = e.queue ++ [⟨none, WM_APP, e.next⟩]) ∧
      (∀ f : Nat, ∃ next, ((win32_edge_engine.create Nat 0).dispatch f).iterate = .ok next ∧
        next.executed = [(1, f)] ∧ next.deleted = [1] ∧ next.queue = [] ∧ next.live = []) ∧
      (final.running = true → (∀ msg ∈ final.queue, msg.isThreadQuit = false) →
        ∃ done, final.runEvents (List.replicate final.queue.length LoopEvent.iterate) =
            .ok done ∧
          done.queue = [] ∧
          done.executed.map Prod.snd =
            dispatchedTasks [LoopEvent.dispatch 10, .post ⟨some 0, 15, 0⟩, .dispatch 20]) :=
  ⟨by decide, ⟨_, rfl, rfl, rfl, rfl⟩, ⟨_, rfl, rfl, rfl, rfl, rfl⟩,
    dispatch_order_single_execution 0 _ (by decide)⟩

/-! ### After the loop has ended -/

theorem stopped_step {T : Type} (e : win32_edge_engine T) (ev : LoopEvent T)
    (hstopped : e.running = false) :
    ∃ next, e.step ev = .ok next ∧ next.running = false ∧ next.executed = e.executed ∧
      next.deleted = e.deleted ∧ ∀ c ∈ e.live, c ∈ next.live := by
  cases ev with
  | dispatch f =>
    exact ⟨_, rfl, hstopped, rfl, rfl, fun c hc => by simp [win32_edge_engine.dispatch, hc]⟩
  | post msg => exact ⟨_, rfl, hstopped, rfl, rfl, fun c hc => hc⟩
  | terminate => exact ⟨_, rfl, hstopped, rfl, rfl, fun c hc => hc⟩
  | iterate =>
    refine ⟨e, ?_, hstopped, rfl, rfl, fun c hc => hc⟩
    simp [win32_edge_engine.step, win32_edge_engine.iterate, hstopped]

theorem stopped_runEvents {T : Type} (evs : List (LoopEvent T)) (e : win32_edge_engine T)
    (hstopped : e.running = false) :
    ∃ final, e.runEvents evs = .ok final ∧ final.running = false ∧
      final.executed = e.executed ∧ final.deleted = e.deleted ∧
      ∀ c ∈ e.live, c ∈ final.live := by
  induction evs generalizing e with
  | nil => exact ⟨e, rfl, hstopped, rfl, rfl, fun c hc => hc⟩
  | cons ev evs ih =>
    obtain ⟨next, hstep, hrun, hexec, hdel, hlive⟩ := stopped_step e ev hstopped
    obtain ⟨final, hfinal, hrun', hexec', hdel', hlive'⟩ := ih next hrun
    refine ⟨final, ?_, hrun', hexec'.trans hexec, hdel'.trans hdel,
      fun c hc => hlive' c (hlive c hc)⟩
    simp only [win32_edge_engine.runEvents, hstep]
    exact hfinal

/-- C18. Once `run` has returned, whatever is dispatched, posted or attempted
afterwards, in any order, no further closure is called: the closures called
stay those called before the loop ended, also for tasks that were queued
behind the `WM_QUIT` message and for tasks submitted later. And the turn of
the loop that retrieves `WM_QUIT` is the one after which `run` has returned. -/
theorem no_task_after_teardown {T : Type} (e : win32_edge_engine T) (evs : List (LoopEvent T))
    (hstopped : e.running = false) :
    (∃ final, e.runEvents evs = .ok final ∧ final.executed = e.executed ∧
      final.running = false) ∧
    (∀ (e0 : win32_edge_engine T) (rest : List MSG), e0.running = true →
      e0.queue = ⟨none, WM_QUIT, 0⟩ :: rest →
      ∃ next, e0.iterate = .ok next ∧ next.running = false ∧ next.queue = rest ∧
        next.executed = e0.executed) ∧
    (∀ (e0 : win32_edge_engine T), e0.running = true → e0.queue = [] → e0.quit = true →
      ∃ next, e0.iterate = .ok next ∧ next.running = false ∧ next.executed = e0.executed) := by
  refine ⟨?_, ?_, ?_⟩
  · obtain ⟨final, hrun, hstop, hexec, _, _⟩ := stopped_runEvents evs e hstopped
    exact ⟨final, hrun, hexec, hstop⟩
  · intro e0 rest hrun hqueue
    have h1 : ¬ WM_QUIT = WM_APP := by decide
    refine ⟨{ e0 with queue := rest, running := false }, ?_, rfl, rfl, rfl⟩
    simp [win32_edge_engine.iterate, win32_edge_engine.getMessage, hrun, hqueue, h1]
  · intro e0 hrun hqueue hquit
    have h1 : ¬ WM_QUIT = WM_APP := by decide
    refine ⟨{ e0 with queue := [], quit := false, running := false }, ?_, rfl, rfl⟩
    simp [win32_edge_engine.iterate, win32_edge_engine.getMessage, hrun, hqueue, hquit, h1]

/-- C18, at the engine whose loop ended on `terminate()`: the task 7 that is
dispatched afterwards is not called by any later turn. -/
theorem no_task_after_teardown_witness :
    (win32_edge_engine.create Nat 0).runEvents [.terminate, .iterate] = .ok stoppedEngine ∧
    ∃ final, stoppedEngine.runEvents [.dispatch 7, .iterate, .iterate] = .ok final ∧
      final.executed = stoppedEngine.executed ∧ final.running = false :=
  ⟨rfl, (no_task_after_teardown stoppedEngine [.dispatch 7, .iterate, .iterate] rfl).1⟩

/-- C19. Once `run` has returned, a closure that is still alive is never
deleted: whatever happens afterwards, every closure that was queued when the
loop ended, and every closure `dispatch` allocates later, stays allocated, and
the addresses deleted stay those deleted before. -/
theorem closure_behind_exit_never_deleted {T : Type} (e : win32_edge_engine T) (f : T)
    (evs : List (LoopEvent T)) (hstopped : e.running = false) :
    (∃ final, e.runEvents evs = .ok final ∧ final.deleted = e.deleted ∧
      ∀ c ∈ e.live, c ∈ final.live) ∧
    (∃ final, (e.dispatch f).runEvents evs = .ok final ∧ final.deleted = e.deleted ∧
      (e.next, f) ∈ final.live) := by
  constructor
  · obtain ⟨final, hrun, _, _, hdel, hlive⟩ := stopped_runEvents evs e hstopped
    exact ⟨final, hrun, hdel, hlive⟩
  · obtain ⟨final, hrun, _, _, hdel, hlive⟩ := stopped_runEvents evs (e.dispatch f) hstopped
    exact ⟨final, hrun, hdel, hlive _ (by simp [win32_edge_engine.dispatch])⟩

/-- C19, at the task 7 dispatched after the loop ended on `terminate()`: its
closure at address 1 is alive after any further turns, and nothing was
deleted. -/
theorem closure_behind_exit_witness :
    stoppedEngine.running = false ∧
    (∃ final, stoppedEngine.runEvents [.iterate, .iterate] = .ok final ∧
      final.deleted = stoppedEngine.deleted ∧ ∀ c ∈ stoppedEngine.live, c ∈ final.live) ∧
    (∃ final, (stoppedEngine.dispatch 7).runEvents [.iterate, .iterate] = .ok final ∧
      final.deleted = stoppedEngine.deleted ∧ (stoppedEngine.next, 7) ∈ final.live) :=
  ⟨rfl, closure_behind_exit_never_deleted stoppedEngine 7 [.iterate, .iterate] rfl⟩

/-! ### `App::dispatch` -/

theorem awaitReady_first (ready : Nat → Bool) (n : Nat) :
    ∀ (fuel k : Nat), k ≤ n → ready n = true → (∀ j, k ≤ j → j < n → ready j = false) →
      n - k < fuel → App.awaitReady ready fuel k = some n := by
  intro fuel
  induction fuel with
  | zero => intro k _ _ _ h; omega
  | succ fuel ih =>
    intro k hk hn hfirst hfuel
    by_cases hkn : k = n
    · subst hkn
      simp [App.awaitReady, hn]
    · have hlt : k < n := by omega
      simp only [App.awaitReady, hfirst k (Nat.le_refl k) hlt]
      exact ih (k + 1) (by omega) hn (fun j hj hjn => hfirst j (by omega) hjn) (by omega)

theorem awaitReady_blocked (ready : Nat → Bool) :
    ∀ (fuel k : Nat), (∀ j, k ≤ j → j < k + fuel → ready j = false) →
      App.awaitReady ready fuel k = none := by
  intro fuel
  induction fuel with
  | zero => intro k _; rfl
  | succ fuel ih =>
    intro k hfalse
    simp only [App.awaitReady, hfalse k (Nat.le_refl k) (by omega)]
    exact ih (k + 1) (fun j hj hjn => hfalse j (by omega) (by omega))

/-- C20, as the code has it. `App::dispatch` returns no result, but it holds
the caller until `isReady` is set: when the flag first reads true at read
number `n`, the call returns after `n` sleeps of 16 ms with the task posted as
`WM_APP` to the main thread, and it has not returned before; while the flag
never reads true the call never returns and nothing is posted.
`win32_edge_engine::dispatch` has no such wait: it posts and returns. -/
theorem app_dispatch_waits_for_ready {T : Type} (ready : Nat → Bool)
    (thread : win32_edge_engine T) (cb : T) (n : Nat) (hready : ready n = true)
    (hfirst : ∀ k, k < n → ready k = false) :
    (∀ fuel, n < fuel → App.dispatch fuel ready thread cb = some (thread.dispatch cb, n)) ∧
    (∀ fuel, fuel ≤ n → App.dispatch fuel ready thread cb = none) ∧
    (∀ never : Nat → Bool, (∀ k, never k = false) →
      ∀ fuel, App.dispatch fuel never thread cb = none) ∧
    (thread.dispatch cb).queue = thread.queue ++ [⟨none, WM_APP, thread.next⟩] ∧
    (thread.dispatch cb).executed = thread.executed := by
  refine ⟨?_, ?_, ?_, rfl, rfl⟩
  · intro fuel hfuel
    simp [App.dispatch,
      awaitReady_first ready n fuel 0 (Nat.zero_le n) hready (fun j _ hj => hfirst j hj)
        (by omega)]
  · intro fuel hfuel
    simp [App.dispatch,
      awaitReady_blocked ready fuel 0 (fun j _ hj => hfirst j (by omega))]
  · intro never hnever fuel
    simp [App.dispatch, awaitReady_blocked never fuel 0 (fun j _ _ => hnever j)]

/-- C20, at a flag that is set from its third read on: the caller of
`App::dispatch` is held for two sleeps, then the task 7 is posted. -/
theorem app_dispatch_waits_witness :
    (∀ fuel, 2 < fuel →
      App.dispatch fuel (fun k => decide (2 ≤ k)) (win32_edge_engine.create Nat 0) 7 =
        some ((win32_edge_engine.create Nat 0).dispatch 7, 2)) ∧
    (∀ fuel, fuel ≤ 2 →
      App.dispatch fuel (fun k => decide (2 ≤ k)) (win32_edge_engine.create Nat 0) 7 = none) ∧
    (∀ never : Nat → Bool, (∀ k, never k = false) →
      ∀ fuel, App.dispatch fuel never (win32_edge_engine.create Nat 0) 7 = none) ∧
    ((win32_edge_engine.create Nat 0).dispatch 7).queue =
      (win32_edge_engine.create Nat 0).queue ++
        [⟨none, WM_APP, (win32_edge_engine.create Nat 0).next⟩] ∧
    ((win32_edge_engine.create Nat 0).dispatch 7).executed =
      (win32_edge_engine.create Nat 0).executed :=
  app_dispatch_waits_for_ready (fun k => decide (2 ≤ k)) (win32_edge_engine.create Nat 0) 7 2
    (by decide) (by intro k hk; simp; omega)

/-- C20 as stated fails while `isReady` is false: `App::dispatch` has then not
returned after any number of reads of the flag, and with the flag set from
the third read on it is still waiting after two reads. -/
theorem app_dispatch_blocks_until_ready :
    (¬ ∃ fuel, (App.dispatch fuel (fun _ => false) (win32_edge_engine.create Nat 0) 7).isSome
      = true) ∧
    App.dispatch 2 (fun k => decide (2 ≤ k)) (win32_edge_engine.create Nat 0) 7 = none ∧
    (App.dispatch 3 (fun k => decide (2 ≤ k)) (win32_edge_engine.create Nat 0) 7).map Prod.snd
      = some 2 := by
  refine ⟨?_, rfl, rfl⟩
  rintro ⟨fuel, h⟩
  have hnone : App.awaitReady (fun _ => false) fuel 0 = none :=
    awaitReady_blocked (fun _ => false) fuel 0 (fun _ _ _ => rfl)
  simp [App.dispatch, hnone] at h

/-! ### What reaches the control, and when -/

theorem evaluatedScripts_append (xs ys : List BrowserCall) :
    evaluatedScripts (xs ++ ys) = evaluatedScripts xs ++ evaluatedScripts ys := by
  induction xs with
  | nil => rfl
  | cons x xs ih => cases x <;> simp [evaluatedScripts, ih]

theorem evaluatedScripts_map_eval {α : Type} (f : α → String) (xs : List α) :
    evaluatedScripts (xs.map (fun c => BrowserCall.eval (f c))) = xs.map f := by
  induction xs with
  | nil => rfl
  | cons x xs ih => simp [evaluatedScripts, ih]

theorem bridge_step_invariant {H C : Type} (s : webview_t H C) (ev : BridgeEvent)
    (hcons : s.engine.consistent)
    (hevals : evaluatedScripts s.browser = s.engine.executed.map Prod.snd) :
    ∃ next, s.step ev = .ok next ∧ next.engine.consistent ∧
      evaluatedScripts next.browser = next.engine.executed.map Prod.snd ∧
      next.engine.allocated.map Prod.snd =
        s.engine.allocated.map Prod.snd ++ generatedScripts [ev] := by
  cases ev with
  | resolve msg =>
    exact ⟨_, rfl, dispatch_consistent s.engine _ hcons, hevals,
      by simp [webview_t.resolve, webview.resolve, webview_t.perform,
        win32_edge_engine.dispatch, generatedScripts]⟩
  | emit event data =>
    exact ⟨_, rfl, dispatch_consistent s.engine _ hcons, hevals,
      by simp [webview_t.emit, webview.emit, webview_t.perform,
        win32_edge_engine.dispatch, generatedScripts]⟩
  | terminate =>
    obtain ⟨hq, halloc, hlt, hnodup, hdel⟩ := hcons
    exact ⟨_, rfl, ⟨hq, halloc, hlt, hnodup, hdel⟩, hevals,
      by simp [win32_edge_engine.terminate, generatedScripts]⟩
  | iterate =>
    obtain ⟨next, hit, hnext, halloc, _, hpre⟩ := iterate_consistent s.engine hcons
    obtain ⟨ran, hran⟩ := hpre
    refine ⟨{ s with engine := next, browser := s.browser ++
      ((next.executed.drop s.engine.executed.length).map (fun c => BrowserCall.eval c.2)) },
      ?_, hnext, ?_, ?_⟩
    · simp only [webview_t.step, webview_t.iterate, hit]
    · show evaluatedScripts (s.browser ++ _) = _
      rw [evaluatedScripts_append, evaluatedScripts_map_eval, hevals, ← hran]
      simp
    · simp [halloc, generatedScripts]

theorem generatedScripts_cons (ev : BridgeEvent) (evs : List BridgeEvent) :
    generatedScripts (ev :: evs) = generatedScripts [ev] ++ generatedScripts evs := by
  cases ev <;> simp [generatedScripts]

theorem bridge_run_invariant {H C : Type} (evs : List BridgeEvent) (s : webview_t H C)
    (hcons : s.engine.consistent)
    (hevals : evaluatedScripts s.browser = s.engine.executed.map Prod.snd) :
    ∃ final, s.runEvents evs = .ok final ∧ final.engine.consistent ∧
      evaluatedScripts final.browser = final.engine.executed.map Prod.snd ∧
      final.engine.allocated.map Prod.snd =
        s.engine.allocated.map Prod.snd ++ generatedScripts evs := by
  induction evs generalizing s with
  | nil => exact ⟨s, rfl, hcons, hevals, by simp [generatedScripts]⟩
  | cons ev evs ih =>
    obtain ⟨next, hstep, hcons1, hevals1, halloc1⟩ := bridge_step_invariant s ev hcons hevals
    obtain ⟨final, hrun, hcons2, hevals2, halloc2⟩ := ih next hcons1 hevals1
    refine ⟨final, ?_, hcons2, hevals2, ?_⟩
    · simp only [webview_t.runEvents, hstep]
      exact hrun
    · rw [halloc2, halloc1, List.append_assoc, ← generatedScripts_cons]

/-- C21. A call of `webview::resolve` or `webview::emit`, for every argument,
makes no call on the browser object: it hands exactly one task, the closure
that evaluates the generated script, to `dispatch`. And over any calls of
`resolve`, `emit` and `terminate` and turns of the loop, in any order, the
scripts the browser object was given to evaluate are those of the tasks the
loop has run, each task at most once, and they are an initial segment of the
generated scripts in the order of the calls. -/
theorem resolve_emit_through_dispatch (H C : Type) (window : Nat) (evs : List BridgeEvent) :
    (∀ (s : webview_t H C) (msg : String),
      (s.resolve msg).browser = s.browser ∧
      (s.resolve msg).engine = s.engine.dispatch (resolveScriptText msg)) ∧
    (∀ (s : webview_t H C) (event data : String),
      (s.emit event data).browser = s.browser ∧
      (s.emit event data).engine = s.engine.dispatch (emitScriptText event data)) ∧
    ∃ final, (webview_t.create H C window).runEvents evs = .ok final ∧
      evaluatedScripts final.browser = final.engine.executed.map Prod.snd ∧
      (final.engine.executed.map Prod.fst).Nodup ∧
      final.engine.allocated.map Prod.snd = generatedScripts evs ∧
      evaluatedScripts final.browser <+: generatedScripts evs := by
  refine ⟨fun s msg => ⟨rfl, rfl⟩, fun s event data => ⟨rfl, rfl⟩, ?_⟩
  obtain ⟨final, hrun, hcons, hevals, halloc⟩ :=
    bridge_run_invariant evs (webview_t.create H C window) (create_consistent String window) rfl
  obtain ⟨_, hsplit, _, hnodup, _⟩ := hcons
  have htasks : final.engine.allocated.map Prod.snd = generatedScripts evs := by
    simpa [webview_t.create, win32_edge_engine.create] using halloc
  refine ⟨final, hrun, hevals, ?_, htasks, ?_⟩
  · rw [hsplit, List.map_append] at hnodup
    exact (List.nodup_append.mp hnodup).1
  · rw [hevals, ← htasks, hsplit, List.map_append]
    exact List.prefix_append _ _

/-! ### The passthrough operations -/

/-- C22, as the code has it. Each of `webview_navigate`, `webview_eval`,
`webview_set_title` and `webview_set_size` makes its call on the browser
object or on the window at once, on the calling thread, and hands no task to
`dispatch`: the thread and its queue are as they were. -/
theorem passthrough_calls_are_direct {H C : Type}
    (AdjustWindowRect : RECT → Nat → Bool → RECT) (s : webview_t H C) (text : String)
    (width height hints : Int) :
    ((webview_navigate s text).browser = s.browser ++ [BrowserCall.navigate text] ∧
      (webview_navigate s text).engine = s.engine) ∧
    ((webview_eval s text).browser = s.browser ++ [BrowserCall.eval text] ∧
      (webview_eval s text).engine = s.engine) ∧
    ((webview_set_title s text).title = text ∧ (webview_set_title s text).engine = s.engine) ∧
    ((webview_set_size AdjustWindowRect s width height hints).frame =
        set_size AdjustWindowRect s.frame width height hints ∧
      (webview_set_size AdjustWindowRect s width height hints).engine = s.engine) :=
  ⟨⟨rfl, rfl⟩, ⟨rfl, rfl⟩, ⟨rfl, rfl⟩, ⟨rfl, rfl⟩⟩

/-- C22 as stated fails at `webview_eval(w, "1")` on an object whose loop has
not taken a turn: the browser object has the script at once, and no task was
allocated or posted. The same holds for the title `t` and for the size
`(800, 600)`. -/
theorem passthrough_without_task :
    (webview_eval (webview_t.create Nat Nat 0) "1").browser = [BrowserCall.eval "1"] ∧
    (webview_eval (webview_t.create Nat Nat 0) "1").engine.allocated = [] ∧
    (webview_eval (webview_t.create Nat Nat 0) "1").engine.queue = [] ∧
    (webview_navigate (webview_t.create Nat Nat 0) "file:///index.html").browser =
      [BrowserCall.navigate "file:///index.html"] ∧
    (webview_navigate (webview_t.create Nat Nat 0) "file:///index.html").engine.queue = [] ∧
    (webview_set_title (webview_t.create Nat Nat 0) "t").title = "t" ∧
    (webview_set_title (webview_t.create Nat Nat 0) "t").engine.queue = [] ∧
    (webview_set_size (fun r _ _ => r) (webview_t.create Nat Nat 0) 800 600
      WEBVIEW_HINT_NONE).frame.positions = [(800, 600)] ∧
    (webview_set_size (fun r _ _ => r) (webview_t.create Nat Nat 0) 800 600
      WEBVIEW_HINT_NONE).engine.queue = [] := by
  refine ⟨rfl, rfl, rfl, rfl, rfl, rfl, rfl, ?_, rfl⟩
  decide

/-! ### Construction -/

/-- C23 as stated fails in the code. The constructor of `win32_edge_engine`
calls `embed` of Edge/Chromium first, and that call returns `false` only when
`CreateCoreWebView2EnvironmentWithOptions` refuses at once; then `embed` of
EdgeHTML is called, once, and either the constructor returns with EdgeHTML or
the exception of the failed control leaves it. When the creation of the
environment or of the controller fails later, in the completed handler, the
handler calls a member through the null pointer, and when the wait of `embed`
is ended by `WM_QUIT`, `init` does: `embed` of EdgeHTML is not called, and
the constructor neither returns nor raises. -/
theorem construction_fallback_misses_late_failure (w : Bool) :
    (∀ P : Platform, edge_chromium.embed P = .ok false ↔ P.chromium = .refused) ∧
    (∀ P : Platform,
      (win32_edge_engine.construct P).embedCalls.head? = some BrowserKind.edge_chromium ∧
      (win32_edge_engine.construct P).embedCalls.count BrowserKind.edge_chromium = 1 ∧
      (win32_edge_engine.construct P).embedCalls.count BrowserKind.edge_html ≤ 1 ∧
      (BrowserKind.edge_html ∈ (win32_edge_engine.construct P).embedCalls ↔
        P.chromium = .refused)) ∧
    win32_edge_engine.construct ⟨.created, w⟩ =
      ⟨[.edge_chromium], .returned .edge_chromium, true⟩ ∧
    win32_edge_engine.construct ⟨.refused, true⟩ =
      ⟨[.edge_chromium, .edge_html], .returned .edge_html, true⟩ ∧
    win32_edge_engine.construct ⟨.refused, false⟩ =
      ⟨[.edge_chromium, .edge_html], .raised .raised, false⟩ ∧
    win32_edge_engine.construct ⟨.noController, w⟩ =
      ⟨[.edge_chromium], .undefinedBehaviour .nullController, false⟩ ∧
    win32_edge_engine.construct ⟨.noEnvironment, w⟩ =
      ⟨[.edge_chromium], .undefinedBehaviour .nullEnvironment, false⟩ ∧
    win32_edge_engine.construct ⟨.interrupted, w⟩ =
      ⟨[.edge_chromium], .undefinedBehaviour .nullWebview, false⟩ := by
  refine ⟨?_, ?_, rfl, rfl, rfl, rfl, rfl, rfl⟩
  · intro P
    obtain ⟨chromium, webViewControl⟩ := P
    cases chromium <;> cases webViewControl <;> decide
  · intro P
    obtain ⟨chromium, webViewControl⟩ := P
    cases chromium <;> cases webViewControl <;> decide

/-! ### Correlation by sequence number -/

theorem run_two_resolves {V : Type} (E : JSEngine V) (t1 t2 : String) (p : Page) :
    p.run E [.resolve t1, .resolve t2] =
      ((runResolve E t2 (runResolve E t1 p).1).1,
        [(runResolve E t1 p).2, (runResolve E t2 (runResolve E t1 p).1).2]) := by
  simp [Page.run, Page.step]

theorem pending_after_other (ipc : IPC) (s1 s2 : Nat) (hne : s1 ≠ s2)
    (hp : ipc.pending s2 = true) : (ipc.set s1 Slot.undefined).pending s2 = true := by
  simp only [IPC.pending, decide_eq_true_eq] at hp ⊢
  rw [IPC.get_set, if_neg (Ne.symm hne)]
  exact hp

/-- C24. For two different pending sequence numbers `s1` and `s2` and Resolve
messages the script reads as `s1` with the value `v1` and as `s2` with the
value `v2`: delivered in either order, call `s1` is settled with `v1` through
the callback its status selects and call `s2` with `v2`; the table is the same
after both orders; and after the first message alone the entry of the other
call is as it was. -/
theorem resolve_correlated_by_sequence {V : Type} (E : JSEngine V) (t1 t2 : String) (p : Page)
    (ipc : IPC) (s1 s2 : Nat) (v1 v2 : Settlement V) (hne : s1 ≠ s2)
    (hipc : p.ipc = some ipc) (hp1 : ipc.pending s1 = true) (hp2 : ipc.pending s2 = true)
    (hseq1 : E.Number ((resolveData t1).get? 2) = JSNumber.int s1)
    (hseq2 : E.Number ((resolveData t2).get? 2) = JSNumber.int s2)
    (hv1 : resolveValue E (decide ((resolveData t1).get? 0 = some "internal"))
      ((resolveData t1).get? 3) = .ok v1)
    (hv2 : resolveValue E (decide ((resolveData t2).get? 0 = some "internal"))
      ((resolveData t2).get? 3) = .ok v2) :
    (p.run E [.resolve t1, .resolve t2]).2 =
      [ScriptResult.settled s1
          (if E.Number ((resolveData t1).get? 1) = JSNumber.int 0 then Method.resolve
            else Method.reject) v1,
        ScriptResult.settled s2
          (if E.Number ((resolveData t2).get? 1) = JSNumber.int 0 then Method.resolve
            else Method.reject) v2] ∧
    (p.run E [.resolve t2, .resolve t1]).2 =
      [ScriptResult.settled s2
          (if E.Number ((resolveData t2).get? 1) = JSNumber.int 0 then Method.resolve
            else Method.reject) v2,
        ScriptResult.settled s1
          (if E.Number ((resolveData t1).get? 1) = JSNumber.int 0 then Method.resolve
            else Method.reject) v1] ∧
    (∃ ipc12 ipc21, (p.run E [.resolve t1, .resolve t2]).1.ipc = some ipc12 ∧
      (p.run E [.resolve t2, .resolve t1]).1.ipc = some ipc21 ∧
      (∀ k, ipc12.get k = ipc21.get k) ∧
      ipc12.get s1 = some Slot.undefined ∧ ipc12.get s2 = some Slot.undefined) ∧
    (∃ ipc1, (runResolve E t1 p).1.ipc = some ipc1 ∧ ipc1.get s2 = ipc.get s2) ∧
    (∃ ipc2, (runResolve E t2 p).1.ipc = some ipc2 ∧ ipc2.get s1 = ipc.get s1) := by
  have h1 := runResolve_settles E t1 p ipc s1 v1 hipc hseq1 hp1 hv1
  have h2 := runResolve_settles E t2 p ipc s2 v2 hipc hseq2 hp2 hv2
  have h12 := runResolve_settles E t2 ⟨some (ipc.set s1 Slot.undefined), p.bound⟩
    (ipc.set s1 Slot.undefined) s2 v2 rfl hseq2 (pending_after_other ipc s1 s2 hne hp2) hv2
  have h21 := runResolve_settles E t1 ⟨some (ipc.set s2 Slot.undefined), p.bound⟩
    (ipc.set s2 Slot.undefined) s1 v1 rfl hseq1
    (pending_after_other ipc s2 s1 (Ne.symm hne) hp1) hv1
  refine ⟨?_, ?_, ?_, ?_, ?_⟩
  · rw [run_two_resolves, h1, h12]
  · rw [run_two_resolves, h2, h21]
  · refine ⟨(ipc.set s1 Slot.undefined).set s2 Slot.undefined,
      (ipc.set s2 Slot.undefined).set s1 Slot.undefined, ?_, ?_, ?_, ?_, ?_⟩
    · rw [run_two_resolves, h1, h12]
    · rw [run_two_resolves, h2, h21]
    · intro k
      simp only [IPC.get_set]
      by_cases hk1 : k = s1 <;> by_cases hk2 : k = s2 <;> simp [hk1, hk2]
    · simp only [IPC.get_set]
      simp [hne]
    · simp only [IPC.get_set]
      simp
  · exact ⟨ipc.set s1 Slot.undefined, by rw [h1], by rw [IPC.get_set, if_neg (Ne.symm hne)]⟩
  · exact ⟨ipc.set s2 Slot.undefined, by rw [h2], by rw [IPC.get_set, if_neg hne]⟩

/-- C24, at the calls 1 and 2 pending and the messages `external;0;1;NQ==` and
`internal;1;2;busy`: delivered second before first, call 2 is rejected with
`busy` and then call 1 is resolved with 5. -/
theorem resolve_correlated_witness :
    (examplePageTwo.run exampleEngine
      [.resolve "internal;1;2;busy", .resolve "external;0;1;NQ=="]).2 =
      [ScriptResult.settled 2 Method.reject (Settlement.raw "busy"),
        ScriptResult.settled 1 Method.resolve (Settlement.json (JSValue.num 5))] :=
  (resolve_correlated_by_sequence exampleEngine "external;0;1;NQ==" "internal;1;2;busy"
    examplePageTwo ⟨3, [(1, Slot.callbacks), (2, Slot.callbacks)]⟩ 1 2
    (Settlement.json (JSValue.num 5)) (Settlement.raw "busy") (by decide) rfl (by decide)
    (by decide) (by decide) (by decide) rfl rfl).2.1

/-! ### Handler dispatch -/

/-- C25. For a message of four fields `tag;seq;name;args` and a registry in
which the last registration of `name` was `ipc(name, f, arg)`, whatever was
registered before it or under other names: `webview::on_message` makes exactly
one handler call, `f(seq, args, arg)`, and changes nothing. For a name
registered through the overload for a `sync_binding_t fn`, that one call is
the lambda with the pair of the overload, which calls `fn(seq, args)`. -/
theorem handler_dispatch {H C : Type} (w : webview H C) (regs : List (String × (H × C)))
    (msg tag seq name args : String) (f : H) (arg : C)
    (hparts : split msg ';' = [tag, seq, name, args])
    (hlast : lastRegistered regs name = some (f, arg)) :
    (w.registerAll regs).on_message msg =
      .ok (w.registerAll regs, [Action.call f seq args arg]) ∧
    (w.ipc name f arg).1.on_message msg =
      .ok ((w.ipc name f arg).1, [Action.call f seq args arg]) ∧
    (∀ (F S D : Type) (v : webview (Handler F) (ContextPtr S D)) (fn : S),
      (v.ipcSync name fn).1.on_message msg =
        .ok ((v.ipcSync name fn).1,
          [Action.call Handler.syncLambda seq args (ContextPtr.syncPair fn)]) ∧
      hostCall (Action.call (Handler.syncLambda : Handler F) seq args
        (ContextPtr.syncPair fn : ContextPtr S D)) = some (HostCall.sync fn seq args)) := by
  refine ⟨?_, ?_, ?_⟩
  · rw [on_message_of_parts _ msg tag seq name args [] hparts, registerAll_find, hlast]
  · rw [on_message_of_parts _ msg tag seq name args [] hparts]
    simp only [webview.ipc, mapFind_mapAssign_self]
  · intro F S D v fn
    refine ⟨?_, rfl⟩
    rw [on_message_of_parts _ msg tag seq name args [] hparts]
    simp only [webview.ipcSync, webview.ipc, mapFind_mapAssign_self]

/-- C25, at the Invoke message of the worked example of the spec, with `add`
registered twice and `sub` after it: the handler 3 of the last registration of
`add` is called once, with the sequence `1`, the payload and its pointer 4. -/
theorem handler_dispatch_witness :
    ((webview.create Nat Nat).registerAll
        [("add", (1, 2)), ("add", (3, 4)), ("sub", (5, 6))]).on_message "ipc;1;add;WzIsM10=" =
      .ok ((webview.create Nat Nat).registerAll
          [("add", (1, 2)), ("add", (3, 4)), ("sub", (5, 6))],
        [Action.call 3 "1" "WzIsM10=" 4]) :=
  (handler_dispatch (webview.create Nat Nat) [("add", (1, 2)), ("add", (3, 4)), ("sub", (5, 6))]
    "ipc;1;add;WzIsM10=" "ipc" "1" "add" "WzIsM10=" 3 4 (by decide) (by decide)).1

/-! ### Size hints -/

theorem resizable_bits (i : Nat) :
    (WS_THICKFRAME ||| WS_MAXIMIZEBOX).testBit i = decide (i = 16 ∨ i = 18) := by
  have h : WS_THICKFRAME ||| WS_MAXIMIZEBOX = 2 ^ 18 ||| 2 ^ 16 := by decide
  rw [h, Nat.testBit_or, Nat.testBit_two_pow, Nat.testBit_two_pow]
  by_cases h16 : i = 16
  · subst h16; decide
  · by_cases h18 : i = 18
    · subst h18; decide
    · simp [h16, h18, Ne.symm h16, Ne.symm h18]

theorem complement32_bits (x i : Nat) :
    (complement32 x).testBit i = (decide (i < 32) != x.testBit i) := by
  have h : (0xFFFFFFFF : Nat) = 2 ^ 32 - 1 := by decide
  rw [complement32, Nat.testBit_xor, h, Nat.testBit_two_pow_sub_one]

theorem set_size_style_bits (AdjustWindowRect : RECT → Nat → Bool → RECT) (f : Frame)
    (width height hints : Int) (hstyle : f.style < 2 ^ 32) (i : Nat) :
    (set_size AdjustWindowRect f width height hints).style.testBit i =
      if i = 16 ∨ i = 18 then decide (hints ≠ WEBVIEW_HINT_FIXED) else f.style.testBit i := by
  have hstyle' : (set_size AdjustWindowRect f width height hints).style =
      if hints = WEBVIEW_HINT_FIXED then
        f.style &&& complement32 (WS_THICKFRAME ||| WS_MAXIMIZEBOX)
      else f.style ||| (WS_THICKFRAME ||| WS_MAXIMIZEBOX) := by
    unfold set_size
    simp only
    split
    · rfl
    · split <;> rfl
  rw [hstyle']
  by_cases hfixed : hints = WEBVIEW_HINT_FIXED
  · rw [if_pos hfixed, Nat.testBit_and, complement32_bits, resizable_bits]
    by_cases hi : i = 16 ∨ i = 18
    · have hlt : i < 32 := by omega
      simp [hi, hlt, hfixed]
    · by_cases hlt : i < 32
      · simp [hi, hlt]
      · have hhigh : f.style.testBit i = false :=
          Nat.testBit_lt_two_pow (lt_of_lt_of_le hstyle
            (Nat.pow_le_pow_right (by decide) (by omega)))
        simp [hi, hhigh]
  · rw [if_neg hfixed, Nat.testBit_or, resizable_bits]
    by_cases hi : i = 16 ∨ i = 18
    · simp [hi, hfixed]
    · simp [hi]

theorem ack_frame (R : String → String → String → String) (w : Window) (seq : String) :
    (Window.ack R w seq).frame = w.frame := by
  unfold Window.ack
  split <;> rfl

theorem setSize_frame (AdjustWindowRect : RECT → Nat → Bool → RECT)
    (R : String → String → String → String) (w : Window) (seq : String)
    (width height hints : Int) :
    (Window.setSize AdjustWindowRect R w seq width height hints).frame =
      set_size AdjustWindowRect w.frame width height hints := by
  unfold Window.setSize set_size
  simp only [ack_frame]
  have h1 : WINDOW_HINT_FIXED = WEBVIEW_HINT_FIXED := rfl
  have h2 : WINDOW_HINT_MAX = WEBVIEW_HINT_MAX := rfl
  have h3 : WINDOW_HINT_MIN = WEBVIEW_HINT_MIN := rfl
  rw [h1, h2, h3]
  by_cases hmax : hints = WEBVIEW_HINT_MAX
  · simp only [if_pos hmax]
  · simp only [if_neg hmax]
    by_cases hmin : hints = WEBVIEW_HINT_MIN
    · simp only [if_pos hmin]
    · simp only [if_neg hmin]

/-- C26. For `win32_edge_engine::set_size(width, height, hints)` on a window
whose style is the bit pattern of a `LONG`: with the hint `MIN` the size is
stored as the minimum bound, with `MAX` as the maximum bound, the other bound
stays as it was and the window is not resized; with `NONE` or `FIXED` both
bounds stay as they were and the window is resized once; the bits of
`WS_THICKFRAME | WS_MAXIMIZEBOX` (16 and 18) are cleared when the hint is
`FIXED` and set otherwise, and every other bit of the style stays as it was.
`Window::setSize` has the same effect on its window. -/
theorem set_size_hints (AdjustWindowRect : RECT → Nat → Bool → RECT) (f : Frame)
    (width height hints : Int) (hstyle : f.style < 2 ^ 32) :
    (hints = WEBVIEW_HINT_MIN →
      (set_size AdjustWindowRect f width height hints).m_minsz = ⟨width, height⟩ ∧
      (set_size AdjustWindowRect f width height hints).m_maxsz = f.m_maxsz ∧
      (set_size AdjustWindowRect f width height hints).positions = f.positions ∧
      (set_size AdjustWindowRect f width height hints).resized = f.resized) ∧
    (hints = WEBVIEW_HINT_MAX →
      (set_size AdjustWindowRect f width height hints).m_maxsz = ⟨width, height⟩ ∧
      (set_size AdjustWindowRect f width height hints).m_minsz = f.m_minsz ∧
      (set_size AdjustWindowRect f width height hints).positions = f.positions ∧
      (set_size AdjustWindowRect f width height hints).resized = f.resized) ∧
    (hints = WEBVIEW_HINT_NONE ∨ hints = WEBVIEW_HINT_FIXED →
      (set_size AdjustWindowRect f width height hints).m_minsz = f.m_minsz ∧
      (set_size AdjustWindowRect f width height hints).m_maxsz = f.m_maxsz ∧
      (∃ size, (set_size AdjustWindowRect f width height hints).positions =
        f.positions ++ [size]) ∧
      (set_size AdjustWindowRect f width height hints).resized = f.resized + 1) ∧
    (∀ i, (set_size AdjustWindowRect f width height hints).style.testBit i =
      if i = 16 ∨ i = 18 then decide (hints ≠ WEBVIEW_HINT_FIXED) else f.style.testBit i) ∧
    (set_size AdjustWindowRect f width height hints).style < 2 ^ 32 ∧
    (∀ (R : String → String → String → String) (w : Window) (seq : String), w.frame = f →
      (Window.setSize AdjustWindowRect R w seq width height hints).frame =
        set_size AdjustWindowRect f width height hints) := by
  refine ⟨?_, ?_, ?_, set_size_style_bits AdjustWindowRect f width height hints hstyle, ?_, ?_⟩
  · intro h
    subst h
    exact ⟨rfl, rfl, rfl, rfl⟩
  · intro h
    subst h
    exact ⟨rfl, rfl, rfl, rfl⟩
  · rintro (h | h)
    · subst h
      exact ⟨rfl, rfl, ⟨_, rfl⟩, rfl⟩
    · subst h
      exact ⟨rfl, rfl, ⟨_, rfl⟩, rfl⟩
  · apply Nat.lt_pow_two_of_testBit
    intro i hi
    rw [set_size_style_bits AdjustWindowRect f width height hints hstyle]
    have hhigh : f.style.testBit i = false :=
      Nat.testBit_lt_two_pow (lt_of_lt_of_le hstyle (Nat.pow_le_pow_right (by decide) hi))
    have h16 : ¬ (i = 16 ∨ i = 18) := by omega
    simp [h16, hhigh]
  · intro R w seq hw
    rw [setSize_frame, hw]

/-- C26, at a window with the style `WS_OVERLAPPEDWINDOW` and the hint
`FIXED` for 800 by 600: the style becomes `0x00CA0000`, the bounds stay and
the window is resized. -/
theorem set_size_hints_witness :
    (set_size (fun r _ _ => r) Frame.initial 800 600 WEBVIEW_HINT_FIXED).style = 0x00CA0000 ∧
    (set_size (fun r _ _ => r) Frame.initial 800 600 WEBVIEW_HINT_FIXED).positions =
      [(800, 600)] ∧
    (set_size (fun r _ _ => r) Frame.initial 800 600 WEBVIEW_HINT_FIXED).m_minsz =
      Frame.initial.m_minsz ∧
    (set_size (fun r _ _ => r) Frame.initial 800 600 WEBVIEW_HINT_FIXED).m_maxsz =
      Frame.initial.m_maxsz ∧
    (∀ i, (set_size (fun r _ _ => r) Frame.initial 800 600 WEBVIEW_HINT_FIXED).style.testBit i =
      if i = 16 ∨ i = 18 then decide (WEBVIEW_HINT_FIXED ≠ WEBVIEW_HINT_FIXED)
      else Frame.initial.style.testBit i) :=
  ⟨by decide, by decide,
    ((set_size_hints (fun r _ _ => r) Frame.initial 800 600 WEBVIEW_HINT_FIXED
      (by decide)).2.2.1 (Or.inr rfl)).1,
    ((set_size_hints (fun r _ _ => r) Frame.initial 800 600 WEBVIEW_HINT_FIXED
      (by decide)).2.2.1 (Or.inr rfl)).2.1,
    (set_size_hints (fun r _ _ => r) Frame.initial 800 600 WEBVIEW_HINT_FIXED
      (by decide)).2.2.2.1⟩

/-! ### Navigation -/

theorem stringFind_zero (needle s : List Char) :
    stringFind needle s = some 0 ↔ needle <+: s := by
  cases s with
  | nil =>
    cases needle with
    | nil => simp [stringFind]
    | cons c cs => simp [stringFind]
  | cons c cs =>
    by_cases h : needle.isPrefixOf (c :: cs) = true
    · simp [stringFind, h, List.isPrefixOf_iff_prefix.mp h]
    · have hnot : ¬ needle <+: c :: cs := fun hp => h (List.isPrefixOf_iff_prefix.mpr hp)
      simp only [stringFind, h, hnot, iff_false]
      cases stringFind needle cs <;> simp

/-- C28. The handler of `NavigationStarting` cancels a navigation exactly when
its URI does not begin with `file://`: every URI that begins with `file://`
is let through, and every other one is cancelled, as the page
`https://example.com/` is and the file `file:///C:/app/index.html` is not. -/
theorem navigation_confined_to_files (url : String) :
    (navigationStarting url = true ↔ ¬ "file://".data <+: url.data) ∧
    (∀ rest : String, navigationStarting ("file://" ++ rest) = false) ∧
    (¬ "file://".data <+: url.data → navigationStarting url = true) ∧
    navigationStarting "https://example.com/" = true ∧
    navigationStarting "file:///C:/app/index.html" = false := by
  have hiff : navigationStarting url = true ↔ ¬ "file://".data <+: url.data := by
    simp only [navigationStarting, decide_eq_true_eq, ne_eq, stringFind_zero]
  refine ⟨hiff, ?_, hiff.mpr, by decide, by decide⟩
  intro rest
  have hpre : "file://".data <+: ("file://" ++ rest).data := by
    rw [String.data_append]
    exact List.prefix_append _ _
  simp only [navigationStarting, ne_eq, stringFind_zero, hpre, not_true_eq_false,
    decide_False]

/-! ### The system menu -/

theorem splitChars_two_of_mem (c : Char) (s : List Char) (h : c ∈ s) :
    ∃ a b rest, splitChars c s = a :: b :: rest := by
  induction s with
  | nil => simp at h
  | cons n s ih =>
    by_cases hn : n = c
    · cases hs : splitChars c s with
      | nil => exact absurd hs (splitChars_ne_nil c s)
      | cons x xs => exact ⟨[], x, xs, by simp [splitChars, hn, hs]⟩
    · have hmem : c ∈ s := by
        rcases List.mem_cons.mp h with h1 | h1
        · exact absurd h1.symm hn
        · exact h1
      obtain ⟨a, b, rest, hsplit⟩ := ih hmem
      exact ⟨n :: a, b, rest, by simp [splitChars, hn, hsplit]⟩

theorem split_two_of_mem (line : String) (c : Char) (h : c ∈ line.data) :
    ∃ a b rest, split line c = a :: b :: rest := by
  obtain ⟨a, b, rest, hsplit⟩ := splitChars_two_of_mem c line.data h
  exact ⟨String.mk a, String.mk b, rest.map String.mk, by simp [split, hsplit]⟩

theorem split_of_not_mem (line : String) (c : Char) (h : c ∉ line.data) :
    split line c = [line] := by
  simp [split, splitChars_of_not_mem c line.data h]

theorem acceleratorText_ok (replace : String → String → String → String) (key : String)
    (accelerators : List String) :
    ∃ accl, acceleratorText replace key accelerators = .ok accl := by
  unfold acceleratorText
  by_cases hkey : key.length > 0
  · simp only [hkey, if_true]
    match accelerators with
    | [] => exact ⟨_, rfl⟩
    | [a] => exact ⟨_, rfl⟩
    | a :: b :: more =>
      have h2 : (a :: b :: more).length > 1 := by simp
      simp only [h2, if_true, vectorAt, List.get?, bind, Except.bind, pure, Except.pure]
      exact ⟨_, rfl⟩
  · simp only [hkey, if_false]
    exact ⟨"", rfl⟩

theorem menuKey_ok (second : String) :
    ∃ key, menuKey second (split second '+') = .ok key := by
  unfold menuKey
  by_cases h : trim second = "_"
  · exact ⟨"", by simp [h, pure, Except.pure]⟩
  · cases hsplit : split second '+' with
    | nil => exact absurd hsplit (split_ne_nil _ _)
    | cons a rest => exact ⟨trim a, by simp [h, vectorAt, Except.map]⟩

theorem systemMenuLine_other (replace : String → String → String → String)
    (menuTitle : String) (st : MenuBuild) (raw : String)
    (hskip : isItemLine (trim raw) = false) :
    ∃ next, systemMenuLine replace menuTitle st raw = .ok next ∧
      next.itemId = st.itemId ∧ next.menuMap = st.menuMap := by
  unfold systemMenuLine
  by_cases hlen : (trim raw).length = 0
  · exact ⟨st, by simp [hlen, pure, Except.pure], rfl, rfl⟩
  · have hsep : occursIn "---".data (trim raw).data = true := by
      simpa [isItemLine, hlen] using hskip
    exact ⟨{ st with calls := st.calls ++ [.appendSeparator] },
      by simp [hlen, hsep, pure, Except.pure], rfl, rfl⟩

theorem systemMenuLine_item (replace : String → String → String → String)
    (menuTitle : String) (st : MenuBuild) (raw : String)
    (hitem : isItemLine (trim raw) = true)
    (hcolon : ':' ∈ (trim raw).data) :
    ∃ next, systemMenuLine replace menuTitle st raw = .ok next ∧
      next.itemId = st.itemId + 1 ∧
      next.menuMap = menuMapAssign st.menuMap st.itemId
        ((split (trim raw) ':').headD "" ++ "\t" ++ menuTitle) := by
  have hlen : ¬ (trim raw).length = 0 := by
    intro h
    simp [isItemLine, h] at hitem
  have hsep : occursIn "---".data (trim raw).data = false := by
    simpa [isItemLine, hlen] using hitem
  obtain ⟨a, b, rest, hsplit⟩ := split_two_of_mem (trim raw) ':' hcolon
  obtain ⟨key, hkey⟩ := menuKey_ok b
  obtain ⟨accl, haccl⟩ := acceleratorText_ok replace key (split b '+')
  refine ⟨⟨st.itemId + 1, menuMapAssign st.menuMap st.itemId (a ++ "\t" ++ menuTitle),
    st.calls ++ [.appendItem st.itemId (a ++ "\t" ++ accl)]⟩, ?_, rfl, ?_⟩
  · unfold systemMenuLine
    simp only [hlen, hsep, hsplit, if_false, Bool.false_eq_true]
    simp only [vectorAt, List.get?, bind, Except.bind, hkey, haccl]
    rfl
  · simp [hsplit]

theorem systemMenuLines_spec (replace : String → String → String → String)
    (menuTitle : String) (raws : List String) (st : MenuBuild)
    (hwf : ∀ line ∈ (raws.map trim).filter isItemLine, ':' ∈ line.data) :
    ∃ final, systemMenuLines replace menuTitle st raws = .ok final ∧
      final.menuMap = storeItems st.menuMap st.itemId
        (((raws.map trim).filter isItemLine).map
          (fun line => ((split line ':').headD "", menuTitle))) ∧
      final.itemId = st.itemId + (((raws.map trim).filter isItemLine).length : Int) := by
  induction raws generalizing st with
  | nil => exact ⟨st, rfl, rfl, by simp⟩
  | cons raw raws ih =>
    by_cases hitem : isItemLine (trim raw) = true
    · have hcolon : ':' ∈ (trim raw).data := hwf _ (by simp [hitem])
      obtain ⟨next, hline, hid, hmap⟩ :=
        systemMenuLine_item replace menuTitle st raw hitem hcolon
      obtain ⟨final, hrun, hfmap, hfid⟩ := ih next (fun line hl => hwf line (by
        simp only [List.map_cons, List.filter_cons, hitem, if_true, List.mem_cons]
        exact Or.inr hl))
      refine ⟨final, ?_, ?_, ?_⟩
      · simp only [systemMenuLines, hline]
        exact hrun
      · rw [hfmap, hmap, hid]
        simp [List.filter_cons, hitem, storeItems]
      · rw [hfid, hid]
        simp [List.filter_cons, hitem]
        omega
    · have hskip : isItemLine (trim raw) = false := by simpa using hitem
      obtain ⟨next, hline, hid, hmap⟩ := systemMenuLine_other replace menuTitle st raw hskip
      obtain ⟨final, hrun, hfmap, hfid⟩ := ih next (fun line hl => hwf line (by
        simpa [List.filter_cons, hskip] using hl))
      refine ⟨final, ?_, ?_, ?_⟩
      · simp only [systemMenuLines, hline]
        exact hrun
      · rw [hfmap, hmap, hid]
        simp [List.filter_cons, hskip]
      · rw [hfid, hid]
        simp [List.filter_cons, hskip]

theorem systemMenu_spec (replace : String → String → String → String) (m : String)
    (st : MenuBuild) (hwf : ∀ line ∈ menuTextLines m, ':' ∈ line.data) :
    ∃ final, systemMenu replace st m = .ok final ∧
      final.menuMap = storeItems st.menuMap st.itemId (menuTextItems m) ∧
      final.itemId = st.itemId + ((menuTextItems m).length : Int) := by
  unfold systemMenu menuTextItems menuTextTitle
  unfold menuTextLines at hwf ⊢
  cases hsplit : split m '\n' with
  | nil => exact absurd hsplit (split_ne_nil _ _)
  | cons first lines =>
    rw [hsplit] at hwf
    by_cases hlen : (trim first).length = 0
    · refine ⟨st, ?_, ?_, ?_⟩
      · simp [vectorAt, bind, Except.bind, hlen, pure, Except.pure]
      · simp [hlen, storeItems]
      · simp [hlen]
    · simp only [hlen, if_false] at hwf
      cases htitle : split (trim first) ':' with
      | nil => exact absurd htitle (split_ne_nil _ _)
      | cons menuTitle more =>
        obtain ⟨final, hrun, hmap, hid⟩ := systemMenuLines_spec replace menuTitle lines
          { st with calls := st.calls ++ [.createMenu] } hwf
        refine ⟨{ final with calls := final.calls ++ [.appendPopup menuTitle] }, ?_, ?_, ?_⟩
        · simp only [vectorAt, htitle, List.get?, bind, Except.bind, hlen, if_false,
            List.drop_succ_cons, List.drop_zero, hrun, pure, Except.pure]
        · simp only [hlen, if_false, List.headD_cons, htitle]
          exact hmap
        · simp only [hlen, if_false, List.length_map]
          simpa using hid

theorem storeItems_append (m : List (Int × String)) (start : Int)
    (xs ys : List (String × String)) :
    storeItems m start (xs ++ ys) =
      storeItems (storeItems m start xs) (start + (xs.length : Int)) ys := by
  induction xs generalizing m start with
  | nil => simp [storeItems]
  | cons x xs ih =>
    obtain ⟨t, mt⟩ := x
    have h : start + 1 + (xs.length : Int) = start + ((xs.length + 1 : Nat) : Int) := by
      push_cast
      omega
    show storeItems _ (start + 1) (xs ++ ys) = storeItems (storeItems _ (start + 1) xs) _ ys
    rw [ih, h]
    rfl

theorem systemMenus_spec (replace : String → String → String → String) (menus : List String)
    (st : MenuBuild) (hwf : ∀ line ∈ menus.flatMap menuTextLines, ':' ∈ line.data) :
    ∃ final, systemMenus replace st menus = .ok final ∧
      final.menuMap = storeItems st.menuMap st.itemId (menus.flatMap menuTextItems) := by
  induction menus generalizing st with
  | nil => exact ⟨st, rfl, rfl⟩
  | cons m menus ih =>
    obtain ⟨next, hmenu, hmap, hid⟩ := systemMenu_spec replace m st (fun line hl =>
      hwf line (by simp only [List.flatMap_cons, List.mem_append]; exact Or.inl hl))
    obtain ⟨final, hrun, hfmap⟩ := ih next (fun line hl =>
      hwf line (by simp only [List.flatMap_cons, List.mem_append]; exact Or.inr hl))
    refine ⟨final, ?_, ?_⟩
    · simp only [systemMenus, hmenu]
      exact hrun
    · rw [hfmap, hmap, hid, List.flatMap_cons, storeItems_append]

theorem setSystemMenu_spec (replace : String → String → String → String)
    (R : String → String → String → String) (w : Window) (seq value : String)
    (hwf : ∀ line ∈ systemMenuLinesOf replace value, ':' ∈ line.data) :
    ∃ st : MenuBuild, Window.setSystemMenu replace R w seq value =
        .ok (Window.ack R
          { w with menuMap := storeItems w.menuMap 0 (systemMenuItems replace value),
                   calls := w.calls ++ st.calls ++ [.setMenuInfo] } seq) := by
  obtain ⟨st, hrun, hmap⟩ := systemMenus_spec replace
    (split (replace value "%%" "\n") ';') ⟨0, w.menuMap, []⟩ hwf
  refine ⟨st, ?_⟩
  simp only [Window.setSystemMenu, hrun, hmap, systemMenuItems]

theorem menuMapFind_assign (m : List (Int × String)) (k k' : Int) (v : String) :
    menuMapFind (menuMapAssign m k v) k' = if k' = k then some v else menuMapFind m k' := by
  induction m with
  | nil =>
    by_cases h : k' = k
    · simp [menuMapAssign, menuMapFind, h]
    · simp [menuMapAssign, menuMapFind, h, Ne.symm h]
  | cons e rest ih =>
    obtain ⟨k₀, v₀⟩ := e
    by_cases h0 : k₀ = k
    · subst h0
      by_cases h : k' = k₀
      · simp [menuMapAssign, menuMapFind, h]
      · simp [menuMapAssign, menuMapFind, h, Ne.symm h]
    · by_cases h : k' = k
      · subst h
        simp [menuMapAssign, menuMapFind, h0, ih]
      · by_cases h1 : k₀ = k'
        · simp [menuMapAssign, menuMapFind, h0, h, h1]
        · simp [menuMapAssign, menuMapFind, h0, h, h1, ih]

theorem storeItems_find_outside (items : List (String × String)) (m : List (Int × String))
    (start j : Int) (hj : j < start ∨ start + (items.length : Int) ≤ j) :
    menuMapFind (storeItems m start items) j = menuMapFind m j := by
  induction items generalizing m start with
  | nil => rfl
  | cons x xs ih =>
    obtain ⟨t, mt⟩ := x
    have hlen : (((t, mt) :: xs).length : Int) = (xs.length : Int) + 1 := by
      simp
    rw [hlen] at hj
    simp only [storeItems]
    rw [ih _ _ (by omega), menuMapFind_assign, if_neg (by omega)]

theorem storeItems_find (items : List (String × String)) (m : List (Int × String))
    (start : Int) (k : Nat) (t mt : String) (hk : items.get? k = some (t, mt)) :
    menuMapFind (storeItems m start items) (start + (k : Int)) = some (t ++ "\t" ++ mt) := by
  induction items generalizing m start k with
  | nil => simp at hk
  | cons x xs ih =>
    obtain ⟨t₀, mt₀⟩ := x
    cases k with
    | zero =>
      simp only [List.get?_cons_zero, Option.some.injEq, Prod.mk.injEq] at hk
      obtain ⟨ht, hmt⟩ := hk
      subst ht
      subst hmt
      simp only [storeItems]
      rw [storeItems_find_outside _ _ _ _ (Or.inl (by simp)), menuMapFind_assign]
      simp
    | succ k =>
      simp only [List.get?_cons_succ] at hk
      simp only [storeItems]
      have h := ih (menuMapAssign m start (t₀ ++ "\t" ++ mt₀)) (start + 1) k hk
      have hidx : start + ((k + 1 : Nat) : Int) = start + 1 + (k : Int) := by
        push_cast
        omega
      rw [hidx]
      exact h

theorem stringFind_zero_iff (needle s : List Char) :
    stringFind needle s = some 0 ↔ needle.isPrefixOf s = true := by
  rw [stringFind_zero, List.isPrefixOf_iff_prefix]

theorem split_stored (t m : String) (ht : '\t' ∉ t.data) (hm : '\t' ∉ m.data) :
    split (t ++ "\t" ++ m) '\t' = [t, m] := by
  have hdata : (t ++ "\t" ++ m).data = t.data ++ '\t' :: m.data := by
    simp [String.data_append]
  simp only [split, hdata]
  rw [splitChars_append _ _ _ ht, splitChars_of_not_mem _ _ hm]
  rfl

theorem command_stored (RM : String → String → String → String) (w : Window) (id : Int)
    (t m : String) (hfind : menuMapFind w.menuMap id = some (t ++ "\t" ++ m))
    (ht : '\t' ∉ t.data) (hm : '\t' ∉ m.data) :
    Window.command RM w id =
      if "About".data.isPrefixOf t.data then { w with calls := w.calls ++ [.about] }
      else if "Quit".data.isPrefixOf t.data then { w with calls := w.calls ++ [.exit] }
      else Window.eval w (RM "0" t m) := by
  unfold Window.command
  simp only [hfind, Option.isSome_some, if_true, Option.getD_some, split_stored t m ht hm,
    stringFind_zero_iff]

theorem command_absent (RM : String → String → String → String) (w : Window) (id : Int)
    (hfind : menuMapFind w.menuMap id = none) :
    Window.command RM w id = { w with menuMap := menuMapAssign w.menuMap id "" } := by
  unfold Window.command
  simp only [hfind, Option.isSome_none, Bool.false_eq_true, if_false, Option.getD_none]
  rfl

/-! ### Acks of the window operations -/

/-- C29, as amended. After `Window::setSystemMenu(seq, value)` for a menu
description whose item lines hold a `:`, the item number `k` (from 0, counted
across the menus in order, separators, empty lines and menus without a title
left out) with the title `t` in the menu titled `m` is stored as
`menuMap[k] == t + "\t" + m`. When neither title holds a tab, a `WM_COMMAND`
with that identifier opens the about box for a title that begins with
`About`, exits for one that begins with `Quit`, and has
`resolveMenuSelection("0", t, m)` evaluated for any other. A `WM_COMMAND` for
an identifier without a stored item evaluates nothing and makes no call. -/
theorem system_menu_round_trip (replace : String → String → String → String)
    (resolveToMainProcess resolveMenuSelection : String → String → String → String)
    (w : Window) (seq value : String)
    (hwf : ∀ line ∈ systemMenuLinesOf replace value, ':' ∈ line.data) :
    ∃ w', Window.setSystemMenu replace resolveToMainProcess w seq value = .ok w' ∧
      (∀ (k : Nat) (t m : String), (systemMenuItems replace value).get? k = some (t, m) →
        menuMapFind w'.menuMap k = some (t ++ "\t" ++ m) ∧
        ('\t' ∉ t.data → '\t' ∉ m.data →
          Window.command resolveMenuSelection w' k =
            if "About".data.isPrefixOf t.data then { w' with calls := w'.calls ++ [.about] }
            else if "Quit".data.isPrefixOf t.data then { w' with calls := w'.calls ++ [.exit] }
            else Window.eval w' (resolveMenuSelection "0" t m))) ∧
      (∀ id : Int, menuMapFind w'.menuMap id = none →
        (Window.command resolveMenuSelection w' id).evaluated = w'.evaluated ∧
        (Window.command resolveMenuSelection w' id).calls = w'.calls) := by
  obtain ⟨st, hrun⟩ := setSystemMenu_spec replace resolveToMainProcess w seq value hwf
  have hmap : (Window.ack resolveToMainProcess
      { w with menuMap := storeItems w.menuMap 0 (systemMenuItems replace value),
               calls := w.calls ++ st.calls ++ [.setMenuInfo] } seq).menuMap =
      storeItems w.menuMap 0 (systemMenuItems replace value) := by
    unfold Window.ack
    split <;> rfl
  refine ⟨_, hrun, ?_, ?_⟩
  · intro k t m hk
    have hfind : menuMapFind (Window.ack resolveToMainProcess
        { w with menuMap := storeItems w.menuMap 0 (systemMenuItems replace value),
                 calls := w.calls ++ st.calls ++ [.setMenuInfo] } seq).menuMap k =
        some (t ++ "\t" ++ m) := by
      rw [hmap]
      have h := storeItems_find (systemMenuItems replace value) w.menuMap 0 k t m hk
      simpa using h
    exact ⟨hfind, fun ht hm => command_stored resolveMenuSelection _ k t m hfind ht hm⟩
  · intro id hid
    rw [command_absent resolveMenuSelection _ id hid]
    exact ⟨rfl, rfl⟩

/-- C29, at the description of a menu `File` with the items `Open` and `Quit`
and a separator between them: `Open` is stored under 0 and `Quit` under 1; the
command 0 has the selection of `Open` in `File` evaluated, the command 1 exits
and evaluates nothing. -/
theorem system_menu_round_trip_witness :
    systemMenuItems (fun s _ _ => s) "File\n Open: o\n---\n Quit: q" =
      [("Open", "File"), ("Quit", "File")] ∧
    ∃ w', Window.setSystemMenu (fun s _ _ => s) (fun a b c => a ++ ";" ++ b ++ ";" ++ c)
        Window.initial "" "File\n Open: o\n---\n Quit: q" = .ok w' ∧
      w'.menuMap = [(0, "Open\tFile"), (1, "Quit\tFile")] ∧
      (Window.command (fun a b c => a ++ "," ++ b ++ "," ++ c) w' 0).evaluated =
        ["0,Open,File"] ∧
      (Window.command (fun a b c => a ++ "," ++ b ++ "," ++ c) w' 1).evaluated = [] ∧
      (Window.command (fun a b c => a ++ "," ++ b ++ "," ++ c) w' 1).calls =
        w'.calls ++ [.exit] := by
  refine ⟨by decide, ?_⟩
  obtain ⟨w', hrun, hitems, _⟩ := system_menu_round_trip (fun s _ _ => s)
    (fun a b c => a ++ ";" ++ b ++ ";" ++ c) (fun a b c => a ++ "," ++ b ++ "," ++ c)
    Window.initial "" "File\n Open: o\n---\n Quit: q" (by decide)
  have hw : w' = { Window.initial with
      menuMap := [(0, "Open\tFile"), (1, "Quit\tFile")]
      calls := [.createMenu, .appendItem 0 "Open\to", .appendSeparator,
        .appendItem 1 "Quit\tq", .appendPopup "File", .setMenuInfo] } := by
    have hval : Window.setSystemMenu (fun s _ _ => s) (fun a b c => a ++ ";" ++ b ++ ";" ++ c)
        Window.initial "" "File\n Open: o\n---\n Quit: q" =
        .ok { Window.initial with
          menuMap := [(0, "Open\tFile"), (1, "Quit\tFile")]
          calls := [.createMenu, .appendItem 0 "Open\to", .appendSeparator,
            .appendItem 1 "Quit\tq", .appendPopup "File", .setMenuInfo] } := by
      decide
    rw [hval] at hrun
    exact (Except.ok.inj hrun).symm
  refine ⟨w', hrun, ?_, ?_, ?_, ?_⟩
  · rw [hw]
  · rw [hw]
    decide
  · rw [hw]
    decide
  · rw [hw]
    decide

/-- C29 as stated fails at an item whose title holds a tab: for the menu
`File` with the item `Save<tab>As`, the item is stored under 0 as the title, a
tab and `File`, and the command 0 has the selection of `Save` in the menu
`As` evaluated, not that of the item in `File`. -/
theorem system_menu_title_with_tab :
    systemMenuItems (fun s _ _ => s) "File\nSave\tAs:s" = [("Save\tAs", "File")] ∧
    Window.setSystemMenu (fun s _ _ => s) (fun a b c => a ++ ";" ++ b ++ ";" ++ c)
        Window.initial "" "File\nSave\tAs:s" =
      .ok { Window.initial with
        menuMap := [(0, "Save\tAs\tFile")]
        calls := [.createMenu, .appendItem 0 "Save\tAs\ts", .appendPopup "File",
          .setMenuInfo] } ∧
    (Window.command (fun a b c => a ++ "," ++ b ++ "," ++ c)
      { Window.initial with
        menuMap := [(0, "Save\tAs\tFile")]
        calls := [.createMenu, .appendItem 0 "Save\tAs\ts", .appendPopup "File",
          .setMenuInfo] } 0).evaluated = ["0,Save,As"] ∧
    "0,Save,As" ≠ "0,Save\tAs,File" := by
  refine ⟨by decide, by decide, by decide, by decide⟩

/-! ### Reads of the system menu -/

/-- C30. In the inner loop of `Window::setSystemMenu`, for a line that is read
as an item: when the line holds no `:`, `split(line, ':')` has one part and
the read of `parts[1]` is outside the vector; when it holds one, every read of
the turn is inside its vector, also for an accelerator without `+`, and the
turn ends with the item stored. -/
theorem system_menu_line_reads (replace : String → String → String → String)
    (menuTitle : String) (st : MenuBuild) (raw : String)
    (hitem : isItemLine (trim raw) = true) :
    (':' ∉ (trim raw).data →
      systemMenuLine replace menuTitle st raw = .error (Fault.outOfRange 1 1)) ∧
    (':' ∈ (trim raw).data →
      ∃ next, systemMenuLine replace menuTitle st raw = .ok next ∧
        next.itemId = st.itemId + 1) := by
  constructor
  · intro hcolon
    have hlen : ¬ (trim raw).length = 0 := by
      intro h
      simp [isItemLine, h] at hitem
    have hsep : occursIn "---".data (trim raw).data = false := by
      simpa [isItemLine, hlen] using hitem
    unfold systemMenuLine
    simp only [hlen, hsep, split_of_not_mem _ _ hcolon, if_false, Bool.false_eq_true]
    rfl
  · intro hcolon
    obtain ⟨next, hline, hid, _⟩ := systemMenuLine_item replace menuTitle st raw hitem hcolon
    exact ⟨next, hline, hid⟩

/-- C30, at the description of a menu `File` with the one item line `Quit`,
which holds no `:`: the read of `parts[1]` is outside the vector of one part,
and `Window::setSystemMenu` does not come to its end. -/
theorem system_menu_line_reads_witness :
    systemMenuLine (fun s _ _ => s) "File" ⟨0, [], [.createMenu]⟩ "Quit" =
      .error (Fault.outOfRange 1 1) ∧
    Window.setSystemMenu (fun s _ _ => s) (fun a b c => a ++ ";" ++ b ++ ";" ++ c)
      Window.initial "1" "File\nQuit" = .error (Fault.outOfRange 1 1) :=
  ⟨(system_menu_line_reads (fun s _ _ => s) "File" ⟨0, [], [.createMenu]⟩ "Quit"
    (by decide)).1 (by decide), by decide⟩

end Webview
